import Mathlib

/-!
Verification of the Domain MCP server's query-orchestration core against its
specification.  Each section shallowly embeds one Python module of the
repository (pure functions become Lean functions, stateful code becomes
explicit state passing, fallible code returns `Option`/`Except`, Python
floats are modelled as exact rationals) and proves the spec claims about it.
-/

/-! # Embedding of `src/utils/partial_results.py` -/

namespace PartialResults

/-- Model of the Python exception classes that `_classify_error`
distinguishes (`httpx.HTTPStatusError` with its response status code,
`httpx.TimeoutException`, `asyncio.TimeoutError`, `httpx.ConnectError`,
`ValueError`, `KeyError`, anything else). -/
inductive PyExc where
  | httpStatusError (status : Nat)
  | timeoutException
  | asyncioTimeout
  | connectError
  | valueError
  | keyError
  | otherExc (msg : String)
deriving DecidableEq, Repr

/-- Model of Python `str(exc)` (the rendered message recorded in
`FailureInfo.error`; its exact text is irrelevant to the claims). -/
def PyExc.message : PyExc → String
  | .httpStatusError s => "http status " ++ toString s
  | .timeoutException => "timeout"
  | .asyncioTimeout => "timeout"
  | .connectError => "connect error"
  | .valueError => "value error"
  | .keyError => "key error"
  | .otherExc m => m

/-- `_classify_error`: classify an exception into an error-type string. -/
def classify_error (exc : PyExc) : String :=
  match exc with
  | .httpStatusError status =>
      if status ≥ 500 then "server_error"
      else if status = 429 then "rate_limit"
      else if status = 401 ∨ status = 403 then "auth_error"
      else if status = 404 then "not_found"
      else "http_error"
  | .timeoutException => "timeout"
  | .asyncioTimeout => "timeout"
  | .connectError => "connection_error"
  | .valueError => "parse_error"
  | .keyError => "missing_field"
  | .otherExc _ => "unknown_error"

/-- `_is_retryable`: membership in the retryable error-type set. -/
def is_retryable (error_type : String) : Bool :=
  error_type = "timeout" ∨ error_type = "connection_error" ∨
    error_type = "server_error" ∨ error_type = "rate_limit"

/-- `FailureInfo` dataclass. -/
structure FailureInfo where
  identifier : String
  error : String
  error_type : String
  retryable : Bool
deriving DecidableEq, Repr

/-- `PartialResult` dataclass: successes plus failure records. -/
structure PartialResult (T : Type) where
  successes : List T
  failures : List FailureInfo
deriving DecidableEq, Repr

/-- `PartialResult.success_rate`: `|succ| / (|succ| + |fail|)`, `0.0` when
both lists are empty. -/
def PartialResult.success_rate {T : Type} (r : PartialResult T) : ℚ :=
  let total : ℚ := r.successes.length + r.failures.length
  if total = 0 then 0 else (r.successes.length : ℚ) / total

/-- `PartialResult.has_failures`. -/
def PartialResult.has_failures {T : Type} (r : PartialResult T) : Bool :=
  r.failures.length > 0

/-- `PartialResult.all_succeeded`. -/
def PartialResult.all_succeeded {T : Type} (r : PartialResult T) : Bool :=
  r.failures.length = 0 ∧ r.successes.length > 0

/-- `PartialResult.all_failed`. -/
def PartialResult.all_failed {T : Type} (r : PartialResult T) : Bool :=
  r.successes.length = 0 ∧ r.failures.length > 0

/-- The `FailureInfo` built for a failed operation in `gather_partial`. -/
def mkFailure (identifier : String) (exc : PyExc) : FailureInfo :=
  { identifier := identifier
    error := exc.message
    error_type := classify_error exc
    retryable := is_retryable (classify_error exc) }

/-- The result-processing loop of `gather_partial`: every awaited
operation is inspected in order; successes are appended to
`results.successes`, failures are classified and appended to
`results.failures`.  An operation is modelled by its identifier and its
outcome (`Except`), since `asyncio.gather(..., return_exceptions=True)`
awaits all of them and yields each one's value or exception. -/
def processResults {T : Type} : List (String × Except PyExc T) → PartialResult T
  | [] => ⟨[], []⟩
  | (identifier, outcome) :: rest =>
      let r := processResults rest
      match outcome with
      | .ok v => ⟨v :: r.successes, r.failures⟩
      | .error e => ⟨r.successes, mkFailure identifier e :: r.failures⟩

/-- The two exceptions `gather_partial` itself can raise. -/
inductive GatherError where
  | valueError
  | runtimeError
deriving DecidableEq, Repr

/-- `gather_partial`: rejects an empty operations dict with `ValueError`,
awaits every operation, collects partial results, and raises
`RuntimeError` exactly when the final success rate is below
`min_success_rate`. -/
def gather_partial {T : Type} (operations : List (String × Except PyExc T))
    (min_success_rate : ℚ) : Except GatherError (PartialResult T) :=
  if operations.isEmpty then .error .valueError
  else
    let results := processResults operations
    if results.success_rate < min_success_rate then .error .runtimeError
    else .ok results

/-- Whether an operation outcome is a success. -/
def isSuccess {T : Type} : Except PyExc T → Bool
  | .ok _ => true
  | .error _ => false

theorem processResults_successes_length {T : Type}
    (ops : List (String × Except PyExc T)) :
    (processResults ops).successes.length =
      (ops.filter (fun o => isSuccess o.2)).length := by
  induction ops with
  | nil => rfl
  | cons hd tl ih =>
      obtain ⟨identifier, outcome⟩ := hd
      cases outcome <;> simp [processResults, isSuccess, List.filter, ih]

theorem processResults_failures_length {T : Type}
    (ops : List (String × Except PyExc T)) :
    (processResults ops).failures.length =
      (ops.filter (fun o => !isSuccess o.2)).length := by
  induction ops with
  | nil => rfl
  | cons hd tl ih =>
      obtain ⟨identifier, outcome⟩ := hd
      cases outcome <;> simp [processResults, isSuccess, List.filter, ih]

theorem processResults_total_length {T : Type}
    (ops : List (String × Except PyExc T)) :
    (processResults ops).successes.length +
      (processResults ops).failures.length = ops.length := by
  induction ops with
  | nil => rfl
  | cons hd tl ih =>
      obtain ⟨identifier, outcome⟩ := hd
      cases outcome <;>
        simp [processResults] <;> omega

end PartialResults

/-- C3: `gather_partial` over a non-empty operations map awaits every
operation (successes and failures together account for every single
operation — no early abort) and raises `RuntimeError` exactly when the
final success rate is strictly below `min_success_rate`; whenever the rate
is at least the minimum it returns the collected `PartialResult`. -/
theorem c3_gather_partial_raises_iff_below_min {T : Type}
    (ops : List (String × Except PartialResults.PyExc T)) (minRate : ℚ)
    (hne : ops ≠ []) :
    (PartialResults.gather_partial ops minRate = .error .runtimeError ↔
      (PartialResults.processResults ops).success_rate < minRate) ∧
    (∀ pr, PartialResults.gather_partial ops minRate = .ok pr →
      pr = PartialResults.processResults ops ∧
      pr.successes.length + pr.failures.length = ops.length) ∧
    (¬ (PartialResults.processResults ops).success_rate < minRate →
      PartialResults.gather_partial ops minRate =
        .ok (PartialResults.processResults ops)) := by
  have hne' : ops.isEmpty = false := by
    cases ops with
    | nil => exact absurd rfl hne
    | cons a l => rfl
  unfold PartialResults.gather_partial
  rw [hne']
  simp only [Bool.false_eq_true, if_false]
  by_cases hlt : (PartialResults.processResults ops).success_rate < minRate
  · refine ⟨by simp [hlt], ?_, fun h => absurd hlt h⟩
    intro pr hpr
    simp [hlt] at hpr
  · refine ⟨by simp [hlt], ?_, fun _ => by simp [hlt]⟩
    intro pr hpr
    simp [hlt] at hpr
    refine ⟨hpr.symm, ?_⟩
    rw [← hpr]
    exact PartialResults.processResults_total_length ops

/-- Concrete fan-out used to witness C3: 100 operations with distinct
identifiers, the first `k` succeeding and the rest failing. -/
def c3ops (k : Nat) : List (String × Except PartialResults.PyExc Nat) :=
  (List.range 100).map (fun i =>
    (String.mk (List.replicate i 'a'),
     if i < k then Except.ok i else Except.error .valueError))

theorem c3_gather_partial_raises_iff_below_min_witness :
    c3ops 49 ≠ [] ∧
    PartialResults.gather_partial (c3ops 49) (1/2) = .error .runtimeError ∧
    PartialResults.gather_partial (c3ops 50) (1/2) =
      .ok (PartialResults.processResults (c3ops 50)) := by
  have hne49 : c3ops 49 ≠ [] := by
    intro h
    simpa [c3ops] using congrArg List.length h
  have hne50 : c3ops 50 ≠ [] := by
    intro h
    simpa [c3ops] using congrArg List.length h
  have h49 := c3_gather_partial_raises_iff_below_min (c3ops 49) (1/2) hne49
  have h50 := c3_gather_partial_raises_iff_below_min (c3ops 50) (1/2) hne50
  have hs49 : (PartialResults.processResults (c3ops 49)).successes.length = 49 := by
    decide
  have hf49 : (PartialResults.processResults (c3ops 49)).failures.length = 51 := by
    decide
  have hs50 : (PartialResults.processResults (c3ops 50)).successes.length = 50 := by
    decide
  have hf50 : (PartialResults.processResults (c3ops 50)).failures.length = 50 := by
    decide
  have hr49 : (PartialResults.processResults (c3ops 49)).success_rate = 49/100 := by
    simp [PartialResults.PartialResult.success_rate, hs49, hf49]
    norm_num
  have hr50 : (PartialResults.processResults (c3ops 50)).success_rate = 1/2 := by
    simp [PartialResults.PartialResult.success_rate, hs50, hf50]
    norm_num
  refine ⟨hne49, h49.1.mpr ?_, h50.2.2 ?_⟩
  · rw [hr49]; norm_num
  · rw [hr50]; exact lt_irrefl _

/-- C10: `gather_partial` with an empty operations map raises `ValueError`
instead of returning an empty `PartialResult` (whose `success_rate` would
be `0`), so a below-minimum `RuntimeError` can only come from a non-empty
(actually attempted) operations map. -/
theorem c10_gather_partial_empty_raises_value_error {T : Type}
    (ops : List (String × Except PartialResults.PyExc T)) (minRate : ℚ)
    (hraise : PartialResults.gather_partial ops minRate = .error .runtimeError) :
    ops ≠ [] ∧
    PartialResults.gather_partial
        ([] : List (String × Except PartialResults.PyExc T)) minRate =
      .error .valueError ∧
    PartialResults.PartialResult.success_rate
        (⟨[], []⟩ : PartialResults.PartialResult T) = 0 := by
  refine ⟨?_, by simp [PartialResults.gather_partial], ?_⟩
  · intro h
    rw [h] at hraise
    simp [PartialResults.gather_partial] at hraise
  · simp [PartialResults.PartialResult.success_rate]

theorem c10_gather_partial_empty_raises_value_error_witness :
    PartialResults.gather_partial
        [("d1", (Except.error .valueError : Except PartialResults.PyExc Nat))] 1 =
      .error .runtimeError ∧
    PartialResults.gather_partial ([] : List (String × Except PartialResults.PyExc Nat)) 1 =
      .error .valueError := by
  have hraise : PartialResults.gather_partial
      [("d1", (Except.error .valueError : Except PartialResults.PyExc Nat))] 1 =
      .error .runtimeError := by
    have hr : (PartialResults.processResults
        [("d1", (Except.error .valueError : Except PartialResults.PyExc Nat))]).success_rate
        = 0 := by
      simp [PartialResults.processResults, PartialResults.PartialResult.success_rate]
    simp [PartialResults.gather_partial, hr]
  exact ⟨hraise,
    (c10_gather_partial_empty_raises_value_error _ 1 hraise).2.1⟩

/-! # Embedding of `src/utils/backpressure.py` -/

namespace Backpressure

/-- `CircuitState`; Python's `OPEN` is spelled `opened` (`open` is a Lean
keyword). -/
inductive CircuitState where
  | closed
  | opened
  | halfOpen
deriving DecidableEq, Repr

/-- `CircuitBreakerConfig` with its defaults; times are modelled as exact
rationals. -/
structure CircuitBreakerConfig where
  failure_threshold : Nat := 5
  success_threshold : Nat := 2
  timeout_seconds : ℚ := 60
  window_seconds : ℚ := 60
deriving DecidableEq, Repr

/-- The mutable fields of a `CircuitBreaker`. -/
structure BreakerState where
  state : CircuitState
  failure_count : Nat
  success_count : Nat
  last_failure_time : Option ℚ
  opened_at : Option ℚ
deriving DecidableEq, Repr

/-- `_should_count_failure`: only 5xx/429 HTTP errors, timeouts and
connection errors count toward the failure threshold. -/
def should_count_failure (exc : PartialResults.PyExc) : Bool :=
  match exc with
  | .httpStatusError status => status ≥ 500 ∨ status = 429
  | .timeoutException => true
  | .connectError => true
  | .asyncioTimeout => true
  | _ => false

/-- The guard `self.opened_at and time.time() - self.opened_at >=
self.config.timeout_seconds` in `CircuitBreaker.call`.  Python truthiness
of the float `opened_at` is kept: an `opened_at` of exactly `0.0` is falsy
and fails the guard. -/
def openTimeoutPassed (cfg : CircuitBreakerConfig) (now : ℚ)
    (st : BreakerState) : Bool :=
  match st.opened_at with
  | some t => t ≠ 0 ∧ now - t ≥ cfg.timeout_seconds
  | none => false

/-- The open-state check at the top of `CircuitBreaker.call`: in OPEN,
either transition to HALF_OPEN (resetting `success_count`) once the
timeout has passed, or reject the call with the distinguished
open-circuit `RuntimeError` (modelled by `.error ()`). -/
def checkOpenState (cfg : CircuitBreakerConfig) (now : ℚ)
    (st : BreakerState) : Except Unit BreakerState :=
  if st.state = .opened then
    if openTimeoutPassed cfg now st then
      .ok { st with state := .halfOpen, success_count := 0 }
    else .error ()
  else .ok st

/-- `CircuitBreaker._on_success`. -/
def on_success (cfg : CircuitBreakerConfig) (st : BreakerState) :
    BreakerState :=
  match st.state with
  | .halfOpen =>
      let sc := st.success_count + 1
      if sc ≥ cfg.success_threshold then
        { st with state := .closed, success_count := sc, failure_count := 0,
                  last_failure_time := none, opened_at := none }
      else { st with success_count := sc }
  | .closed => { st with failure_count := 0, last_failure_time := none }
  | .opened => st

/-- `CircuitBreaker._on_failure`. -/
def on_failure (cfg : CircuitBreakerConfig) (now : ℚ)
    (exc : PartialResults.PyExc) (st : BreakerState) : BreakerState :=
  let st1 := { st with last_failure_time := some now }
  if should_count_failure exc then
    let st2 := { st1 with failure_count := st1.failure_count + 1 }
    match st2.state with
    | .halfOpen => { st2 with state := .opened, opened_at := some now }
    | .closed =>
        if st2.failure_count ≥ cfg.failure_threshold then
          { st2 with state := .opened, opened_at := some now }
        else st2
    | .opened => st2
  else st1

/-- Result of one `CircuitBreaker.call`. -/
inductive CallResult (A : Type) where
  | ok (a : A)
  | rejectedOpen
  | raised (e : PartialResults.PyExc)
deriving DecidableEq, Repr

/-- `CircuitBreaker.call` for one call made at clock time `now`, with the
wrapped function's behaviour given as `outcome` (`.ok` value or `.error`
exception).  Returns the call result and the breaker state afterwards. -/
def call {A : Type} (cfg : CircuitBreakerConfig) (now : ℚ)
    (st : BreakerState) (outcome : Except PartialResults.PyExc A) :
    CallResult A × BreakerState :=
  match checkOpenState cfg now st with
  | .error () => (.rejectedOpen, st)
  | .ok st' =>
      match outcome with
      | .ok a => (.ok a, on_success cfg st')
      | .error e => (.raised e, on_failure cfg now e st')

/-- `CircuitBreaker.reset`. -/
def reset (st : BreakerState) : BreakerState :=
  { st with state := .closed, failure_count := 0, success_count := 0,
            last_failure_time := none, opened_at := none }

end Backpressure

/-- C4: a breaker that is OPEN with `opened_at = t` (a genuine, positive
clock reading) never transitions out of OPEN on a call made before the
timeout: while `now - t < timeout_seconds` the call is rejected with the
distinguished open-circuit error and the whole state is unchanged (still
OPEN); the first call with `now - t ≥ timeout_seconds` passes the
open-state check with the state moved to HALF_OPEN (`success_count`
reset to 0) and is not rejected. -/
theorem c4_circuit_breaker_open_honors_timeout {A : Type}
    (cfg : Backpressure.CircuitBreakerConfig) (st : Backpressure.BreakerState)
    (now t : ℚ) (outcome : Except PartialResults.PyExc A)
    (hopen : st.state = .opened) (hat : st.opened_at = some t) (ht : 0 < t) :
    (now - t < cfg.timeout_seconds →
      Backpressure.call cfg now st outcome = (.rejectedOpen, st)) ∧
    (now - t ≥ cfg.timeout_seconds →
      Backpressure.checkOpenState cfg now st =
        .ok { st with state := .halfOpen, success_count := 0 } ∧
      (Backpressure.call cfg now st outcome).1 ≠ .rejectedOpen) := by
  have htne : t ≠ 0 := ne_of_gt ht
  constructor
  · intro hlt
    have hguard' : Backpressure.openTimeoutPassed cfg now st = false := by
      simp [Backpressure.openTimeoutPassed, hat, htne, not_le.mpr hlt]
    simp [Backpressure.call, Backpressure.checkOpenState, hopen, hguard']
  · intro hge
    have hguard : Backpressure.openTimeoutPassed cfg now st = true := by
      simp [Backpressure.openTimeoutPassed, hat, htne, hge]
    constructor
    · simp [Backpressure.checkOpenState, hopen, hguard]
    · cases outcome with
      | ok a =>
          simp [Backpressure.call, Backpressure.checkOpenState, hopen, hguard]
      | error e =>
          simp [Backpressure.call, Backpressure.checkOpenState, hopen, hguard]

theorem c4_circuit_breaker_open_honors_timeout_witness :
    (Backpressure.call {} 20
        ⟨.opened, 5, 0, some 10, some 10⟩
        (Except.ok (42 : Nat)) = (.rejectedOpen, ⟨.opened, 5, 0, some 10, some 10⟩)) ∧
    (Backpressure.checkOpenState {} 70 ⟨.opened, 5, 0, some 10, some 10⟩ =
      .ok ⟨.halfOpen, 5, 0, some 10, some 10⟩) := by
  have h1 := c4_circuit_breaker_open_honors_timeout (A := Nat) {} 
    ⟨.opened, 5, 0, some 10, some 10⟩ 20 10 (Except.ok 42) rfl rfl (by norm_num)
  have h2 := c4_circuit_breaker_open_honors_timeout (A := Nat) {}
    ⟨.opened, 5, 0, some 10, some 10⟩ 70 10 (Except.ok 42) rfl rfl (by norm_num)
  refine ⟨h1.1 (by norm_num), ?_⟩
  have := (h2.2 (by norm_num)).1
  simpa using this

namespace Backpressure

/-- `RequestQueue` configuration (`max_concurrent`, `max_queue_size`). -/
structure RequestQueueConfig where
  max_concurrent : Int := 10
  max_queue_size : Int := 100
deriving DecidableEq, Repr

/-- The mutable state of a `RequestQueue`: the `_queue_size` counter and
the number of free semaphore permits. -/
structure QueueState where
  queue_size : Int
  sem_available : Int
deriving DecidableEq, Repr

/-- Result of one `RequestQueue.execute`. -/
inductive ExecResult (A : Type) where
  | ok (a : A)
  | queueFull
  | raised (e : PartialResults.PyExc)
deriving DecidableEq, Repr

/-- `RequestQueue.execute` for a call that actually runs (a semaphore
permit is free, so the `async with self._semaphore` acquisition does not
suspend).  Mirrors the source statement by statement: the counter is
bumped under the lock (rejecting with `RuntimeError` when at capacity);
inside the `try`, the semaphore is acquired, the counter is decremented,
and the function is awaited; leaving the `async with self._semaphore`
block releases the permit; when the function raised, the `except
Exception` handler then decrements the counter again before re-raising. -/
def execute {A : Type} (cfg : RequestQueueConfig) (st : QueueState)
    (outcome : Except PartialResults.PyExc A) : ExecResult A × QueueState :=
  if st.queue_size ≥ cfg.max_queue_size then (.queueFull, st)
  else
    let q1 := st.queue_size + 1
    let s1 := st.sem_available - 1
    let q2 := q1 - 1
    match outcome with
    | .ok a => (.ok a, { queue_size := q2, sem_available := s1 + 1 })
    | .error e => (.raised e, { queue_size := q2 - 1, sem_available := s1 + 1 })

end Backpressure

/-- C5 (refuting theorem): the outstanding counter is NOT released exactly
once on every exit.  On a fresh queue (counter 0, all permits free), a
failing call is decremented twice — once inside the `try` block and once
more in the `except Exception` handler — leaving `_queue_size = -1`, a
negative counter although zero requests are still queued; a successful
call is balanced.  The semaphore itself is released exactly once on both
paths. -/
theorem c5_request_queue_counter_double_release :
    (Backpressure.execute {} ⟨0, 10⟩
        (Except.error PartialResults.PyExc.valueError :
          Except PartialResults.PyExc Nat)) =
      (.raised PartialResults.PyExc.valueError, ⟨-1, 10⟩) ∧
    ((Backpressure.execute {} ⟨0, 10⟩
        (Except.error PartialResults.PyExc.valueError :
          Except PartialResults.PyExc Nat)).2.queue_size < 0) ∧
    (Backpressure.execute {} ⟨0, 10⟩
        (Except.ok 42 : Except PartialResults.PyExc Nat)) =
      (.ok 42, ⟨0, 10⟩) := by
  refine ⟨?_, ?_, ?_⟩ <;> decide

/-! # Embedding of `src/server/http.py` (merge and pagination) -/

namespace Http

/-- `MergeStrategy` (closed enum). -/
inductive MergeStrategy where
  | prefer_fast
  | comprehensive
  | labels_only
  | datasets_only
deriving DecidableEq, Repr

/-- `MetricPoint` as consumed by the merge step.  Every point in this
pipeline carries a UTC-aware `datetime`; on those, `isoformat()` (the
de-duplication key component) is injective and order-isomorphic to the
instant, and `sorted` compares the instants, so timestamps are modelled
directly as instants (exact rationals). -/
structure MetricPoint where
  metric_id : String
  timestamp : ℚ
  value : ℚ
  unit : Option String := none
  dimensions : List (String × String) := []
  source : Option String := none
deriving DecidableEq, Repr

/-- The de-duplication key `(point.metric_id, point.timestamp.isoformat())`. -/
def MetricPoint.key (p : MetricPoint) : String × ℚ :=
  (p.metric_id, p.timestamp)

/-- Python dict assignment `merged[key] = point`: overwrite in place when
the key exists (keeping its position), append otherwise. -/
def upsert (m : List ((String × ℚ) × MetricPoint)) (k : String × ℚ)
    (p : MetricPoint) : List ((String × ℚ) × MetricPoint) :=
  match m with
  | [] => [(k, p)]
  | (k', p') :: rest =>
      if k' = k then (k, p) :: rest else (k', p') :: upsert rest k p

/-- Association lookup in the `merged` dict. -/
def alookup (m : List ((String × ℚ) × MetricPoint)) (k : String × ℚ) :
    Option MetricPoint :=
  match m with
  | [] => none
  | (k', p') :: rest => if k' = k then some p' else alookup rest k

/-- The sort key `(p.timestamp, p.metric_id)` compared the way Python
compares tuples of (`datetime`, `str`). -/
def ptLE (p q : MetricPoint) : Prop :=
  p.timestamp < q.timestamp ∨
    (p.timestamp = q.timestamp ∧ p.metric_id ≤ q.metric_id)

instance : DecidablePred fun pq : MetricPoint × MetricPoint => ptLE pq.1 pq.2 :=
  fun _ => by unfold ptLE; infer_instance

instance ptLE.decidable (p q : MetricPoint) : Decidable (ptLE p q) := by
  unfold ptLE; infer_instance

theorem ptLE_total (p q : MetricPoint) : ptLE p q ∨ ptLE q p := by
  unfold ptLE
  rcases lt_trichotomy p.timestamp q.timestamp with h | h | h
  · exact Or.inl (Or.inl h)
  · rcases le_total p.metric_id q.metric_id with h2 | h2
    · exact Or.inl (Or.inr ⟨h, h2⟩)
    · exact Or.inr (Or.inr ⟨h.symm, h2⟩)
  · exact Or.inr (Or.inl h)

theorem ptLE_trans {p q r : MetricPoint} (h1 : ptLE p q) (h2 : ptLE q r) :
    ptLE p r := by
  unfold ptLE at *
  rcases h1 with h1 | ⟨h1, h1'⟩ <;> rcases h2 with h2 | ⟨h2, h2'⟩
  · exact Or.inl (lt_trans h1 h2)
  · exact Or.inl (h2 ▸ h1)
  · exact Or.inl (h1 ▸ h2)
  · exact Or.inr ⟨h1.trans h2, le_trans h1' h2'⟩

/-- Insertion step of the stable sort `sorted(..., key=lambda p:
(p.timestamp, p.metric_id))`. -/
def insertPt (p : MetricPoint) : List MetricPoint → List MetricPoint
  | [] => [p]
  | q :: rest => if ptLE q p then q :: insertPt p rest else p :: q :: rest

/-- `sorted(merged.values(), key=lambda p: (p.timestamp, p.metric_id))`
modelled as insertion sort (the claims only need sortedness and the
multiset of elements). -/
def sortPts : List MetricPoint → List MetricPoint
  | [] => []
  | p :: rest => insertPt p (sortPts rest)

/-- `_merge_metric_points`. -/
def _merge_metric_points (label_points dataset_points : List MetricPoint)
    (strategy : MergeStrategy) : List MetricPoint :=
  if strategy ≠ .comprehensive then
    if strategy = .datasets_only then dataset_points
    else if strategy = .labels_only then label_points
    else if label_points.isEmpty then dataset_points else label_points
  else
    let afterDatasets :=
      dataset_points.foldl (fun m p => upsert m p.key p) []
    let merged :=
      label_points.foldl (fun m p => upsert m p.key p) afterDatasets
    sortPts (merged.map Prod.snd)

theorem insertPt_perm (p : MetricPoint) (l : List MetricPoint) :
    (insertPt p l).Perm (p :: l) := by
  induction l with
  | nil => exact List.Perm.refl _
  | cons q rest ih =>
      by_cases h : ptLE q p
      · simp only [insertPt, if_pos h]
        exact ((ih.cons q).trans (List.Perm.swap p q rest))
      · simp only [insertPt, if_neg h]
        exact List.Perm.refl _

theorem sortPts_perm (l : List MetricPoint) : (sortPts l).Perm l := by
  induction l with
  | nil => exact List.Perm.refl _
  | cons p rest ih =>
      exact (insertPt_perm p (sortPts rest)).trans (ih.cons p)

theorem insertPt_sorted (p : MetricPoint) (l : List MetricPoint)
    (hl : l.Pairwise ptLE) : (insertPt p l).Pairwise ptLE := by
  induction l with
  | nil => simp [insertPt]
  | cons q rest ih =>
      rcases List.pairwise_cons.mp hl with ⟨hq, hrest⟩
      by_cases h : ptLE q p
      · simp only [insertPt, if_pos h]
        refine List.pairwise_cons.mpr ⟨?_, ih hrest⟩
        intro x hx
        rcases List.mem_cons.mp ((insertPt_perm p rest).mem_iff.mp hx) with rfl | hx
        · exact h
        · exact hq x hx
      · simp only [insertPt, if_neg h]
        have hpq : ptLE p q := (ptLE_total p q).resolve_right h
        refine List.pairwise_cons.mpr ⟨?_, hl⟩
        intro x hx
        rcases List.mem_cons.mp hx with rfl | hx
        · exact hpq
        · exact ptLE_trans hpq (hq x hx)

theorem sortPts_sorted (l : List MetricPoint) :
    (sortPts l).Pairwise ptLE := by
  induction l with
  | nil => simp [sortPts]
  | cons p rest ih => exact insertPt_sorted p (sortPts rest) ih

end Http

namespace Http

/-- Every entry of the `merged` dict is keyed by its point's own key
(insertions always use `merged[point.key] = point`). -/
def keyConsistent (m : List ((String × ℚ) × MetricPoint)) : Prop :=
  ∀ e ∈ m, e.1 = e.2.key

theorem alookup_upsert_self (m : List ((String × ℚ) × MetricPoint))
    (k : String × ℚ) (p : MetricPoint) :
    alookup (upsert m k p) k = some p := by
  induction m with
  | nil => simp [upsert, alookup]
  | cons e rest ih =>
      obtain ⟨k', p'⟩ := e
      by_cases h : k' = k
      · subst h; simp [upsert, alookup]
      · simp [upsert, alookup, h, ih]

theorem alookup_upsert_ne (m : List ((String × ℚ) × MetricPoint))
    (k k' : String × ℚ) (p : MetricPoint) (h : k' ≠ k) :
    alookup (upsert m k p) k' = alookup m k' := by
  induction m with
  | nil =>
      simp only [upsert, alookup]
      rw [if_neg (fun he => h he.symm)]
  | cons e rest ih =>
      obtain ⟨k0, p0⟩ := e
      by_cases h0 : k0 = k
      · subst h0
        simp only [upsert, if_pos rfl, alookup]
        rw [if_neg (fun he => h he.symm), if_neg (fun he => h he.symm)]
      · simp only [upsert, if_neg h0, alookup, ih]

theorem upsert_fst (m : List ((String × ℚ) × MetricPoint)) (k : String × ℚ)
    (p : MetricPoint) :
    (upsert m k p).map Prod.fst =
      if k ∈ m.map Prod.fst then m.map Prod.fst
      else m.map Prod.fst ++ [k] := by
  induction m with
  | nil => simp [upsert]
  | cons e rest ih =>
      obtain ⟨k', p'⟩ := e
      by_cases h : k' = k
      · subst h; simp [upsert]
      · by_cases hm : k ∈ rest.map Prod.fst
        · simp [upsert, h, ih, hm, Ne.symm h]
        · simp [upsert, h, ih, hm, Ne.symm h]

theorem upsert_keysNodup (m : List ((String × ℚ) × MetricPoint))
    (k : String × ℚ) (p : MetricPoint) (h : (m.map Prod.fst).Nodup) :
    ((upsert m k p).map Prod.fst).Nodup := by
  rw [upsert_fst]
  by_cases hm : k ∈ m.map Prod.fst
  · simpa [hm] using h
  · simp [hm, List.nodup_append, h]

theorem upsert_keyConsistent (m : List ((String × ℚ) × MetricPoint))
    (p : MetricPoint) (h : keyConsistent m) :
    keyConsistent (upsert m p.key p) := by
  induction m with
  | nil =>
      intro e he
      simp [upsert] at he
      simp [he]
  | cons e0 rest ih =>
      obtain ⟨k', p'⟩ := e0
      by_cases hk : k' = p.key
      · subst hk
        intro e he
        simp only [upsert, if_pos rfl] at he
        rcases List.mem_cons.mp he with rfl | he
        · rfl
        · exact h e (List.mem_cons_of_mem _ he)
      · intro e he
        simp only [upsert, if_neg hk] at he
        rcases List.mem_cons.mp he with rfl | he
        · exact h (k', p') (List.mem_cons_self _ _)
        · exact ih (fun e' he' => h e' (List.mem_cons_of_mem _ he')) e he

theorem foldl_upsert_keyConsistent (pts : List MetricPoint)
    (m0 : List ((String × ℚ) × MetricPoint)) (h : keyConsistent m0) :
    keyConsistent (pts.foldl (fun m p => upsert m p.key p) m0) := by
  induction pts generalizing m0 with
  | nil => exact h
  | cons p rest ih => exact ih _ (upsert_keyConsistent m0 p h)

theorem foldl_upsert_keysNodup (pts : List MetricPoint)
    (m0 : List ((String × ℚ) × MetricPoint))
    (h : (m0.map Prod.fst).Nodup) :
    (((pts.foldl (fun m p => upsert m p.key p) m0)).map Prod.fst).Nodup := by
  induction pts generalizing m0 with
  | nil => exact h
  | cons p rest ih => exact ih _ (upsert_keysNodup m0 p.key p h)

theorem alookup_foldl_not_mem (pts : List MetricPoint)
    (m0 : List ((String × ℚ) × MetricPoint)) (k : String × ℚ)
    (h : k ∉ pts.map MetricPoint.key) :
    alookup (pts.foldl (fun m p => upsert m p.key p) m0) k = alookup m0 k := by
  induction pts generalizing m0 with
  | nil => rfl
  | cons p rest ih =>
      simp only [List.map_cons, List.mem_cons, not_or] at h
      calc alookup ((p :: rest).foldl (fun m p => upsert m p.key p) m0) k
          = alookup (rest.foldl (fun m p => upsert m p.key p)
              (upsert m0 p.key p)) k := rfl
        _ = alookup (upsert m0 p.key p) k := ih _ h.2
        _ = alookup m0 k := alookup_upsert_ne _ _ _ _ h.1

theorem alookup_foldl_mem (pts : List MetricPoint)
    (m0 : List ((String × ℚ) × MetricPoint)) (k : String × ℚ)
    (h : k ∈ pts.map MetricPoint.key) :
    ∃ p, p ∈ pts ∧ p.key = k ∧
      alookup (pts.foldl (fun m p => upsert m p.key p) m0) k = some p := by
  induction pts generalizing m0 with
  | nil => simp at h
  | cons p rest ih =>
      by_cases hr : k ∈ rest.map MetricPoint.key
      · obtain ⟨p', hp'mem, hp'key, hp'look⟩ := ih (upsert m0 p.key p) hr
        exact ⟨p', List.mem_cons_of_mem _ hp'mem, hp'key, hp'look⟩
      · have hk : p.key = k := by
          simp only [List.map_cons, List.mem_cons] at h
          exact (h.resolve_right hr).symm
        refine ⟨p, List.mem_cons_self _ _, hk, ?_⟩
        calc alookup ((p :: rest).foldl (fun m p => upsert m p.key p) m0) k
            = alookup (rest.foldl (fun m p => upsert m p.key p)
                (upsert m0 p.key p)) k := rfl
          _ = alookup (upsert m0 p.key p) k := alookup_foldl_not_mem _ _ _ hr
          _ = some p := by rw [hk]; exact alookup_upsert_self _ _ _

theorem alookup_mem_values (m : List ((String × ℚ) × MetricPoint))
    (k : String × ℚ) (p : MetricPoint) (h : alookup m k = some p) :
    p ∈ m.map Prod.snd := by
  induction m with
  | nil => simp [alookup] at h
  | cons e rest ih =>
      obtain ⟨k', p'⟩ := e
      by_cases hk : k' = k
      · subst hk
        simp [alookup] at h
        simp [h]
      · simp only [alookup, if_neg hk] at h
        simp [ih h]

theorem values_pairwise_key_ne (m : List ((String × ℚ) × MetricPoint))
    (hc : keyConsistent m) (hn : (m.map Prod.fst).Nodup) :
    (m.map Prod.snd).Pairwise
      (fun p q : MetricPoint => p.key ≠ q.key) := by
  induction m with
  | nil => simp
  | cons e rest ih =>
      obtain ⟨k', p'⟩ := e
      simp only [List.map_cons, List.pairwise_cons]
      simp only [List.map_cons, List.nodup_cons] at hn
      refine ⟨?_, ih (fun e' he' => hc e' (List.mem_cons_of_mem _ he')) hn.2⟩
      intro q hq
      obtain ⟨e', he'mem, he'snd⟩ := List.mem_map.mp hq
      have h1 : k' = p'.key := hc (k', p') (List.mem_cons_self _ _)
      have h2 : e'.1 = q.key := he'snd ▸ hc e' (List.mem_cons_of_mem _ he'mem)
      intro hcontra
      exact hn.1 (by
        rw [h1, hcontra, ← h2]
        exact List.mem_map.mpr ⟨e', he'mem, rfl⟩)

end Http

/-- C1: for every pair of metric-point lists, the COMPREHENSIVE merge
contains each `(metric_id, timestamp)` key at most once (the output points
pairwise differ in key), is sorted by `(timestamp, metric_id)`, and
whenever a key occurs in both inputs the output point with that key is a
label point (label precedence: dataset points are inserted first, label
points second, overwriting on conflict). -/
theorem c1_merge_comprehensive_dedup_precedence_sorted
    (lbl ds : List Http.MetricPoint) (k : String × ℚ)
    (hl : k ∈ lbl.map Http.MetricPoint.key)
    (hd : k ∈ ds.map Http.MetricPoint.key) :
    (Http._merge_metric_points lbl ds .comprehensive).Pairwise
        (fun p q => p.key ≠ q.key) ∧
    (Http._merge_metric_points lbl ds .comprehensive).Pairwise Http.ptLE ∧
    ∃ p, p ∈ Http._merge_metric_points lbl ds .comprehensive ∧
      p.key = k ∧ p ∈ lbl := by
  have hout : Http._merge_metric_points lbl ds .comprehensive =
      Http.sortPts ((lbl.foldl (fun m p => Http.upsert m p.key p)
        (ds.foldl (fun m p => Http.upsert m p.key p) [])).map Prod.snd) := by
    simp [Http._merge_metric_points]
  set merged := lbl.foldl (fun m p => Http.upsert m p.key p)
      (ds.foldl (fun m p => Http.upsert m p.key p) []) with hmerged
  have hcons : Http.keyConsistent merged := by
    rw [hmerged]
    exact Http.foldl_upsert_keyConsistent lbl _
      (Http.foldl_upsert_keyConsistent ds [] (by intro e he; simp at he))
  have hnodup : (merged.map Prod.fst).Nodup := by
    rw [hmerged]
    exact Http.foldl_upsert_keysNodup lbl _
      (Http.foldl_upsert_keysNodup ds [] (by simp))
  have hperm : (Http.sortPts (merged.map Prod.snd)).Perm
      (merged.map Prod.snd) := Http.sortPts_perm _
  refine ⟨?_, ?_, ?_⟩
  · rw [hout]
    exact (Http.values_pairwise_key_ne merged hcons hnodup).perm hperm.symm
      (fun h => h.symm ∘ Eq.symm ∘ fun he => absurd he.symm h)
  · rw [hout]
    exact Http.sortPts_sorted _
  · obtain ⟨p, hpmem, hpkey, hplook⟩ := Http.alookup_foldl_mem lbl
      (ds.foldl (fun m p => Http.upsert m p.key p) []) k hl
    refine ⟨p, ?_, hpkey, hpmem⟩
    rw [hout]
    exact hperm.symm.subset (Http.alookup_mem_values merged k p hplook)

theorem c1_merge_comprehensive_dedup_precedence_sorted_witness :
    (let lbl : List Http.MetricPoint :=
      [{ metric_id := "boot.time.total_ms", timestamp := 5, value := 11,
         source := some "labels" }]
     let ds : List Http.MetricPoint :=
      [{ metric_id := "boot.time.total_ms", timestamp := 5, value := 7,
         source := some "datasets" },
       { metric_id := "boot.phase.kernel_ms", timestamp := 3, value := 2,
         source := some "datasets" }]
     ("boot.time.total_ms", (5 : ℚ)) ∈ lbl.map Http.MetricPoint.key ∧
     ∃ p, p ∈ Http._merge_metric_points lbl ds .comprehensive ∧
       p.key = ("boot.time.total_ms", (5 : ℚ)) ∧ p ∈ lbl) := by
  refine ⟨by simp [Http.MetricPoint.key], ?_⟩
  exact (c1_merge_comprehensive_dedup_precedence_sorted _ _ _
    (by simp [Http.MetricPoint.key])
    (by simp [Http.MetricPoint.key])).2.2

namespace Http

/-- One `datasets_search` response page: the dataset ids it carries plus
its pagination fields (`pagination.has_more`, `pagination.next_page_token`,
with a missing/empty token modelled as `none`). -/
structure SearchPage where
  dataset_ids : List String
  has_more : Bool
  next_page_token : Option String
deriving DecidableEq, Repr

/-- The id-collection `while True` loop of `_fetch_source_datasets`,
driven by the successive responses the backend returns to the successive
requests.  Each iteration extends the collected ids with the page's
dataset ids, stops when `has_more` is false, continues with the token when
one is present, and otherwise breaks defensively.  A `none` result means
the loop consumed every provided response and issued yet another request
(i.e. it would keep looping on a longer response stream). -/
def collectDatasetIds : List SearchPage → Option (List String)
  | [] => none
  | page :: rest =>
      if ¬ page.has_more then some page.dataset_ids
      else
        match page.next_page_token with
        | some _ => (collectDatasetIds rest).map (page.dataset_ids ++ ·)
        | none => some page.dataset_ids

end Http

/-- C6: the pagination loop terminates on malformed backends: whatever
pages precede or follow it, as soon as a response reports `has_more =
true` with no `next_page_token` the loop breaks instead of issuing another
request — the collected result is the same as if the response stream ended
at that page, and it is a definite result (never the marker for an
unfinished loop). -/
theorem c6_pagination_terminates_on_malformed_page
    (ps rest : List Http.SearchPage) (p : Http.SearchPage)
    (hm : p.has_more = true) (ht : p.next_page_token = none) :
    Http.collectDatasetIds (ps ++ p :: rest) =
      Http.collectDatasetIds (ps ++ [p]) ∧
    (Http.collectDatasetIds (ps ++ p :: rest)).isSome := by
  induction ps with
  | nil =>
      simp [Http.collectDatasetIds, hm, ht]
  | cons q qs ih =>
      by_cases hq : q.has_more
      · cases hqt : q.next_page_token with
        | some tok =>
            have e1 : Http.collectDatasetIds ((q :: qs) ++ p :: rest) =
                (Http.collectDatasetIds (qs ++ p :: rest)).map
                  (q.dataset_ids ++ ·) := by
              simp [Http.collectDatasetIds, hq, hqt]
            have e2 : Http.collectDatasetIds ((q :: qs) ++ [p]) =
                (Http.collectDatasetIds (qs ++ [p])).map
                  (q.dataset_ids ++ ·) := by
              simp [Http.collectDatasetIds, hq, hqt]
            refine ⟨?_, ?_⟩
            · rw [e1, e2, ih.1]
            · rw [e1]
              simpa using ih.2
        | none =>
            constructor <;>
              simp [List.cons_append, Http.collectDatasetIds, hq, hqt]
      · constructor <;>
          simp [List.cons_append, Http.collectDatasetIds, hq]

theorem c6_pagination_terminates_on_malformed_page_witness :
    Http.collectDatasetIds
        [⟨["d1"], true, some "t1"⟩,
         ⟨["d2", "d3"], true, none⟩,
         ⟨["d4"], true, some "t2"⟩] =
      some ["d1", "d2", "d3"] ∧
    (Http.collectDatasetIds
        [⟨["d1"], true, some "t1"⟩,
         ⟨["d2", "d3"], true, none⟩,
         ⟨["d4"], true, some "t2"⟩]).isSome := by
  have h := c6_pagination_terminates_on_malformed_page
    [⟨["d1"], true, some "t1"⟩] [⟨["d4"], true, some "t2"⟩]
    ⟨["d2", "d3"], true, none⟩ rfl rfl
  refine ⟨?_, h.2⟩
  rw [show ([⟨["d1"], true, some "t1"⟩] ++
      (⟨["d2", "d3"], true, none⟩ : Http.SearchPage) ::
        [⟨["d4"], true, some "t2"⟩]) =
      [⟨["d1"], true, some "t1"⟩, ⟨["d2", "d3"], true, none⟩,
       ⟨["d4"], true, some "t2"⟩] from rfl] at h
  rw [h.1]
  rfl

/-! # Embedding of `src/domain/utils/timestamps.py` -/

namespace Timestamps

/-- Model of a Python `datetime`: civil components plus the tzinfo UTC
offset in minutes (`none` = naive, `some 0` = `timezone.utc`). -/
structure PyDatetime where
  year : Nat
  month : Nat
  day : Nat
  hour : Nat
  minute : Nat
  second : Nat
  microsecond : Nat
  utcoffset_minutes : Option Int
deriving DecidableEq, Repr

/-- Numeric value of a digit string. -/
def digitsToNat (cs : List Char) : Nat :=
  cs.foldl (fun n c => n * 10 + (c.toNat - 48)) 0

/-- Consume exactly `n` digits. -/
def takeDigits (n : Nat) (cs : List Char) : Option (Nat × List Char) :=
  let ds := cs.take n
  if ds.length = n ∧ ds.all Char.isDigit then some (digitsToNat ds, cs.drop n)
  else none

/-- Consume one expected character. -/
def expectChar (c : Char) : List Char → Option (List Char)
  | [] => none
  | x :: rest => if x = c then some rest else none

/-- Gregorian leap year. -/
def isLeap (y : Nat) : Bool :=
  y % 4 = 0 ∧ (y % 100 ≠ 0 ∨ y % 400 = 0)

/-- Days in a month. -/
def daysInMonth (y m : Nat) : Nat :=
  if m = 2 then (if isLeap y then 29 else 28)
  else if m = 4 ∨ m = 6 ∨ m = 9 ∨ m = 11 then 30
  else 31

/-- The optional `:SS[.ffffff]` part of a time (a `,` decimal separator is
accepted like Python's); returns seconds and microseconds. -/
def parseSecondFrac (cs : List Char) : Option (Nat × Nat) :=
  match cs with
  | [] => some (0, 0)
  | ':' :: rest =>
      match takeDigits 2 rest with
      | none => none
      | some (s, rest2) =>
          match rest2 with
          | [] => some (s, 0)
          | sep :: frac =>
              if (sep = '.' ∨ sep = ',') ∧ frac ≠ [] ∧ frac.length ≤ 6 ∧
                  frac.all Char.isDigit then
                some (s, digitsToNat frac * 10 ^ (6 - frac.length))
              else none
  | _ => none

/-- A full `HH:MM[:SS[.ffffff]]` time. -/
def parseTimeOfDay (cs : List Char) : Option (Nat × Nat × Nat × Nat) := do
  let (h, cs1) ← takeDigits 2 cs
  let cs2 ← expectChar ':' cs1
  let (m, cs3) ← takeDigits 2 cs2
  let (sec, micro) ← parseSecondFrac cs3
  if h ≤ 23 ∧ m ≤ 59 ∧ sec ≤ 59 then some (h, m, sec, micro) else none

/-- A `±HH:MM` UTC offset, in minutes. -/
def parseOffsetMinutes (cs : List Char) : Option Nat := do
  let (h, cs1) ← takeDigits 2 cs
  let cs2 ← expectChar ':' cs1
  let (m, cs3) ← takeDigits 2 cs2
  if cs3 = [] ∧ h ≤ 23 ∧ m ≤ 59 then some (h * 60 + m) else none

/-- Split the time-and-offset chunk at the first `+`/`-` (the time of day
itself never contains one); `some (isPlus, offsetChars)`. -/
def splitAtSign (cs : List Char) : List Char × Option (Bool × List Char) :=
  match cs with
  | [] => ([], none)
  | c :: rest =>
      if c = '+' then ([], some (true, rest))
      else if c = '-' then ([], some (false, rest))
      else
        let (t, off) := splitAtSign rest
        (c :: t, off)

/-- Model of `datetime.fromisoformat` (Python ≥ 3.11) on the canonical
profile the pipeline produces: `YYYY-MM-DD`, optionally a single separator
character and `HH:MM[:SS[.ffffff]]`, optionally a `±HH:MM` offset or a
trailing `Z` (accepted by 3.11 and meaning UTC).  Returns the parsed
components with the offset, `none` offset meaning a naive datetime;
`none` overall models `ValueError`. -/
def pyFromIsoformat (s : String) : Option PyDatetime := do
  let cs := s.toList
  let (y, cs1) ← takeDigits 4 cs
  let cs2 ← expectChar '-' cs1
  let (mo, cs3) ← takeDigits 2 cs2
  let cs4 ← expectChar '-' cs3
  let (d, cs5) ← takeDigits 2 cs4
  if ¬ (1 ≤ y ∧ y ≤ 9999 ∧ 1 ≤ mo ∧ mo ≤ 12 ∧ 1 ≤ d ∧
      d ≤ daysInMonth y mo) then none
  else
    match cs5 with
    | [] => some ⟨y, mo, d, 0, 0, 0, 0, none⟩
    | _sep :: timetz =>
        let (timeChars, signPart) := splitAtSign timetz
        match signPart with
        | some (isPlus, offChars) => do
            let (h, m, sec, micro) ← parseTimeOfDay timeChars
            let offMin ← parseOffsetMinutes offChars
            some ⟨y, mo, d, h, m, sec, micro,
              some (if isPlus then (offMin : Int) else -(offMin : Int))⟩
        | none =>
            if timeChars.getLast? = some 'Z' then do
              let (h, m, sec, micro) ← parseTimeOfDay timeChars.dropLast
              some ⟨y, mo, d, h, m, sec, micro, some 0⟩
            else do
              let (h, m, sec, micro) ← parseTimeOfDay timeChars
              some ⟨y, mo, d, h, m, sec, micro, none⟩

/-- Python `value.endswith("Z")` (single-character suffix). -/
def endsWithZ (s : String) : Bool :=
  s.toList.getLast? = some 'Z'

/-- `_parse_iso8601`: empty strings are falsy and return `None`; a
trailing `Z` is replaced by `+00:00`; parse failures return `None`; a
naive result gets `timezone.utc` attached via `dt.replace(tzinfo=...)`. -/
def _parse_iso8601 (value : String) : Option PyDatetime :=
  if value = "" then none
  else
    let value2 :=
      if endsWithZ value then String.mk value.toList.dropLast ++ "+00:00"
      else value
    match pyFromIsoformat value2 with
    | none => none
    | some dt =>
        if dt.utcoffset_minutes = none then
          some { dt with utcoffset_minutes := some 0 }
        else some dt

/-- Days since the Unix epoch → civil date (Howard Hinnant's
`civil_from_days`; `Int.tdiv`/truncating division as in the reference
algorithm — all divisions are on nonnegative values for the dates the
claims touch). -/
def civilFromDays (z0 : Int) : Int × Int × Int :=
  let z := z0 + 719468
  let era := Int.tdiv (if z ≥ 0 then z else z - 146096) 146097
  let doe := z - era * 146097
  let yoe := Int.tdiv (doe - Int.tdiv doe 1460 + Int.tdiv doe 36524 -
    Int.tdiv doe 146096) 365
  let y := yoe + era * 400
  let doy := doe - (365 * yoe + Int.tdiv yoe 4 - Int.tdiv yoe 100)
  let mp := Int.tdiv (5 * doy + 2) 153
  let d := doy - Int.tdiv (153 * mp + 2) 5 + 1
  let m := mp + (if mp < 10 then 3 else -9)
  (y + (if m ≤ 2 then 1 else 0), m, d)

/-- `datetime.fromtimestamp(q, tz=timezone.utc)`: split the epoch value
into days and in-day microseconds and convert to a civil date.  CPython
rounds the float to the nearest microsecond (ties to even — unreachable
from the claims, modelled as half-up); out-of-range years raise and give
`none`. -/
def pyFromTimestamp (q : ℚ) : Option PyDatetime :=
  let totalMicro : Int := ⌊q * 1000000 + 1/2⌋
  let days : Int := Int.ediv totalMicro 86400000000
  let rem : Int := Int.emod totalMicro 86400000000
  let ymd := civilFromDays days
  if 1 ≤ ymd.1 ∧ ymd.1 ≤ 9999 then
    let micro := (Int.emod rem 1000000).toNat
    let secs := Int.ediv rem 1000000
    some ⟨ymd.1.toNat, ymd.2.1.toNat, ymd.2.2.toNat,
      (Int.ediv secs 3600).toNat, (Int.emod (Int.ediv secs 60) 60).toNat,
      (Int.emod secs 60).toNat, micro, some 0⟩
  else none

/-- `_parse_unix_timestamp`: values at or above `10_000_000_000` are
milliseconds, below are seconds. -/
def _parse_unix_timestamp (value : ℚ) : Option PyDatetime :=
  if value ≥ 10000000000 then pyFromTimestamp (value / 1000)
  else pyFromTimestamp value

/-- The argument of `parse_timestamp`: `None`, an ISO string, or a Unix
number (int/float collapsed to an exact rational). -/
inductive TsValue where
  | none
  | str (s : String)
  | num (q : ℚ)
deriving DecidableEq, Repr

/-- `parse_timestamp`: dispatch on the input type. -/
def parse_timestamp : TsValue → Option PyDatetime
  | .none => Option.none
  | .str s => _parse_iso8601 s
  | .num q => _parse_unix_timestamp q

end Timestamps

/-- C9: `parse_timestamp` on a parseable ISO 8601 string with no timezone
designator (no trailing `Z`, and `fromisoformat` yields a naive datetime)
does not fail: it returns the parsed instant with UTC attached. -/
theorem c9_parse_timestamp_naive_iso_defaults_to_utc (s : String)
    (d : Timestamps.PyDatetime)
    (hz : Timestamps.endsWithZ s = false)
    (hparse : Timestamps.pyFromIsoformat s = some d)
    (hnaive : d.utcoffset_minutes = none) :
    Timestamps.parse_timestamp (.str s) =
      some { d with utcoffset_minutes := some 0 } := by
  have hne : s ≠ "" := by
    intro h
    subst h
    rw [show Timestamps.pyFromIsoformat "" = none from rfl] at hparse
    exact Option.noConfusion hparse
  simp [Timestamps.parse_timestamp, Timestamps._parse_iso8601, hne, hz,
    hparse, hnaive]

theorem c9_parse_timestamp_naive_iso_defaults_to_utc_witness :
    Timestamps.endsWithZ "2025-10-15T12:30:45" = false ∧
    Timestamps.pyFromIsoformat "2025-10-15T12:30:45" =
      some ⟨2025, 10, 15, 12, 30, 45, 0, Option.none⟩ ∧
    Timestamps.parse_timestamp (.str "2025-10-15T12:30:45") =
      some ⟨2025, 10, 15, 12, 30, 45, 0, some 0⟩ := by
  refine ⟨by decide, by decide, ?_⟩
  exact c9_parse_timestamp_naive_iso_defaults_to_utc
    "2025-10-15T12:30:45" ⟨2025, 10, 15, 12, 30, 45, 0, Option.none⟩
    (by decide) (by decide) rfl

/-! # Embedding of `src/domain/utils/statistics.py` -/

namespace StatisticsUtil

/-- The `Statistics` dataclass.  Float values are exact rationals; the
square root inside `statistics.stdev` is supplied as an oracle function
(the claims only concern which fields are present). -/
structure Statistics where
  mean : ℚ
  median : ℚ
  min : ℚ
  max : ℚ
  std_dev : Option ℚ
  cv : Option ℚ
  p95 : ℚ
  p99 : ℚ
  percentiles : Option (List (String × ℚ))
  count : Nat
deriving DecidableEq, Repr

/-- Ascending insertion sort on rationals (`sorted(samples)`). -/
def insertQ (x : ℚ) : List ℚ → List ℚ
  | [] => [x]
  | y :: rest => if y ≤ x then y :: insertQ x rest else x :: y :: rest

/-- `sorted(samples)`. -/
def sortedQ : List ℚ → List ℚ
  | [] => []
  | x :: rest => insertQ x (sortedQ rest)

/-- `min(samples)` over a non-empty list. -/
def listMin : List ℚ → ℚ
  | [] => 0
  | x :: rest => rest.foldl min x

/-- `max(samples)` over a non-empty list. -/
def listMax : List ℚ → ℚ
  | [] => 0
  | x :: rest => rest.foldl max x

/-- `statistics.median` on an already sorted list. -/
def medianQ (sorted : List ℚ) : ℚ :=
  let n := sorted.length
  if n % 2 = 1 then sorted.getD (n / 2) 0
  else (sorted.getD (n / 2 - 1) 0 + sorted.getD (n / 2) 0) / 2

/-- The sample variance `Σ (x - mean)² / (n - 1)` under the square root of
`statistics.stdev`. -/
def sampleVariance (samples : List ℚ) : ℚ :=
  let n := samples.length
  let m := samples.sum / (n : ℚ)
  (samples.map (fun x => (x - m) ^ 2)).sum / ((n : ℚ) - 1)

/-- `compute_statistics`.  `sqrt` is the square-root oracle used by
`statistics.stdev`; percentile indices `int(p * n)` are exact-rational
floors (CPython computes them in binary floating point, which agrees on
the inputs the claims exercise). -/
def compute_statistics (sqrt : ℚ → ℚ) (samples : List ℚ)
    (percentiles : Option (List ℚ)) : Option Statistics :=
  if samples.isEmpty then Option.none
  else
    let sorted_samples := sortedQ samples
    let n := sorted_samples.length
    let mean_val := samples.sum / (n : ℚ)
    let min_val := listMin samples
    let max_val := listMax samples
    let median_val := medianQ sorted_samples
    let sd_cv : Option ℚ × Option ℚ :=
      if 2 ≤ n then
        let sd := sqrt (sampleVariance samples)
        (some sd, if mean_val > 0 then some (sd / mean_val) else Option.none)
      else (Option.none, Option.none)
    let p95_idx := (95 * n) / 100
    let p95 := sorted_samples.getD (Nat.min p95_idx (n - 1)) 0
    let p99_idx := (99 * n) / 100
    let p99 := sorted_samples.getD (Nat.min p99_idx (n - 1)) 0
    let custom : Option (List (String × ℚ)) :=
      match percentiles with
      | Option.none => Option.none
      | some ps =>
          some ((ps.filter (fun p => 0 ≤ p ∧ p ≤ 1)).map (fun p =>
            ("p" ++ toString (⌊p * 100⌋),
             sorted_samples.getD (Nat.min (⌊p * (n : ℚ)⌋).toNat (n - 1)) 0)))
    some
      { mean := mean_val
        median := median_val
        min := min_val
        max := max_val
        std_dev := sd_cv.1
        cv := sd_cv.2
        p95 := p95
        p99 := p99
        percentiles := custom
        count := n }

end StatisticsUtil

/-- C8 (refuting theorem): the code computes `cv` only when `mean > 0`,
not `mean != 0` as its own docstrings and the claim state.  At samples
`[-1, -3]` (two samples, mean `-2 ≠ 0`) a `Statistics` object is returned
with `std_dev` present but `cv = None`, contradicting "in all other cases
(n ≥ 2 and mean ≠ 0) both std_dev and cv are present". -/
theorem c8_compute_statistics_cv_requires_positive_mean (sqrt : ℚ → ℚ) :
    StatisticsUtil.compute_statistics sqrt [-1, -3] Option.none =
      some
        { mean := -2, median := -2, min := -3, max := -1,
          std_dev := some (sqrt 2), cv := Option.none,
          p95 := -1, p99 := -1, percentiles := Option.none, count := 2 } ∧
    ((-2 : ℚ) ≠ 0) := by
  constructor
  · have hv : StatisticsUtil.sampleVariance [-1, -3] = 2 := by
      simp [StatisticsUtil.sampleVariance]
      norm_num
    simp [StatisticsUtil.compute_statistics, StatisticsUtil.sortedQ,
      StatisticsUtil.insertQ, StatisticsUtil.listMin, StatisticsUtil.listMax,
      StatisticsUtil.medianQ, hv]
    norm_num
  · norm_num

/-! # Embedding of `src/domain/examples/horreum_boot_time.py`
(`RhivosBootTimePlugin.extract_from_label_values`, specialized to
`run_type_filter = None` and `os_filter = None`: with both filters `None`
the two client-side filter blocks are skipped entirely). -/

namespace BootTime

/-- Generic association lookup (`dict[k]` / `dict.get(k)`). -/
def dGet {α : Type} : List (String × α) → String → Option α
  | [], _ => Option.none
  | (k', v) :: rest, k => if k' = k then some v else dGet rest k

/-- `k in dict`. -/
def dMem {α : Type} (m : List (String × α)) (k : String) : Bool :=
  (dGet m k).isSome

/-- `dict[k] = v`: overwrite in place, else append. -/
def dUpsert {α : Type} : List (String × α) → String → α → List (String × α)
  | [], k, v => [(k, v)]
  | (k', v') :: rest, k, v =>
      if k' = k then (k, v) :: rest else (k', v') :: dUpsert rest k v

/-- Contiguous-substring test (`sub in s` on Python strings). -/
def isSubChars (pat : List Char) : List Char → Bool
  | [] => pat.isEmpty
  | c :: rest => pat.isPrefixOf (c :: rest) || isSubChars pat rest

/-- `sub in s`. -/
def strContains (pat s : String) : Bool :=
  isSubChars pat.toList s.toList

/-- Whitespace split helper (`str.split()` keeps only non-empty runs). -/
def splitWsAux : List Char → List Char → List (List Char)
  | [], acc => [acc.reverse]
  | c :: rest, acc =>
      if c.isWhitespace then acc.reverse :: splitWsAux rest []
      else splitWsAux rest (c :: acc)

/-- Join word lists with single spaces (`" ".join(words)`). -/
def joinSpace : List (List Char) → List Char
  | [] => []
  | [w] => w
  | w :: rest => w ++ ' ' :: joinSpace rest

/-- `normalize_label_name`: lowercase, hyphens to spaces, collapse
whitespace runs. -/
def normalize_label_name (name : String) : String :=
  let cs := (name.toList.map Char.toLower).map fun c =>
    if c = '-' then ' ' else c
  String.mk (joinSpace ((splitWsAux cs []).filter (· ≠ [])))

/-- `str.replace(pat, "")`, left-to-right and non-overlapping; the fuel
argument (initsally the string length) keeps the recursion structural. -/
def removeAllAux (pat : List Char) : Nat → List Char → List Char
  | 0, cs => cs
  | _ + 1, [] => []
  | fuel + 1, c :: rest =>
      if pat ≠ [] ∧ pat.isPrefixOf (c :: rest) then
        removeAllAux pat fuel ((c :: rest).drop pat.length)
      else c :: removeAllAux pat fuel rest

/-- `s.replace(pat, "")`. -/
def removeAll (pat s : String) : String :=
  String.mk (removeAllAux pat.toList s.toList.length s.toList)

/-- Last `.`-separated component (`s.split(".")[-1]`). -/
def lastDotComponent (s : String) : String :=
  match (s.split (· = '.')).getLast? with
  | some t => t
  | Option.none => s

/-- `is_duration`: duration indicator words without "timestamp". -/
def is_duration (name : String) : Bool :=
  let norm := normalize_label_name name
  (strContains "duration" norm || strContains "time" norm ||
    strContains "ms" norm || strContains "latency" norm ||
    strContains "delay" norm) && !(strContains "timestamp" norm)

/-- `is_timestamp`: timestamp indicator words. -/
def is_timestamp (name : String) : Bool :=
  let norm := normalize_label_name name
  strContains "timestamp" norm || strContains "ts" norm

/-- `extract_statistic_type`. -/
def extract_statistic_type (name : String) : Option String :=
  let norm := normalize_label_name name
  if strContains "average" norm then some "average"
  else if strContains "confidence" norm then some "confidence"
  else Option.none

/-- `match_label_to_metric`: flexible matching of label names to canonical
metric ids (digit probes `"1" in name` etc. inspect the raw name). -/
def match_label_to_metric (name : String) : Option String :=
  let norm := normalize_label_name name
  if (strContains "boot" norm || "BOOT".toList.isPrefixOf name.toList) &&
      is_duration name then
    if strContains "kernel" norm &&
        (strContains "pre" norm || strContains "1" name) then
      some "boot.phase.kernel_pre_timer_ms"
    else if strContains "kernel" norm &&
        (strContains "post" norm || strContains "2" name) then
      some "boot.phase.kernel_ms"
    else if strContains "initrd" norm || strContains "initramfs" norm ||
        strContains "3" name then
      some "boot.phase.initrd_ms"
    else if strContains "switchroot" norm ||
        (strContains "switch" norm && strContains "root" norm) ||
        strContains "4" name then
      some "boot.phase.switchroot_ms"
    else if strContains "systeminit" (removeAll " " norm) ||
        (strContains "system" norm && strContains "init" norm) ||
        strContains "userspace" norm || strContains "0" name then
      some "boot.phase.system_init_ms"
    else if strContains "total" norm ||
        (norm = "boot time" || norm = "boot" || norm = "boot_time") then
      some "boot.time.total_ms"
    else Option.none
  else if strContains "kpi" norm && is_timestamp name then
    if strContains "early" norm && strContains "service" norm then
      some "boot.timestamp.early_service_ms"
    else if strContains "kmod" norm ||
        (strContains "module" norm && strContains "load" norm) then
      some "boot.timestamp.start_kmod_load_ms"
    else if strContains "first" norm &&
        (strContains "service" norm || strContains "link" norm) then
      some "boot.timestamp.first_service_ms"
    else if strContains "network" norm ||
        (strContains "link" norm && strContains "up" norm) then
      some "boot.timestamp.network_online_ms"
    else Option.none
  else if name = "boot.time.total_ms" || name = "boot.total_ms" ||
      name = "boot_time_total_ms" || name = "Boot Time" ||
      name = "boot_time" then
    some "boot.time.total_ms"
  else Option.none

/-- Digit span. -/
def spanDigits (cs : List Char) : List Char × List Char :=
  (cs.takeWhile Char.isDigit, cs.dropWhile Char.isDigit)

/-- Python `float(s)` on finite decimal/scientific literals (the rational
model has no `inf`/`nan`). -/
def parsePyFloat (s : String) : Option ℚ :=
  let cs0 := s.toList.dropWhile Char.isWhitespace
  let cs0 := (cs0.reverse.dropWhile Char.isWhitespace).reverse
  let sgncs : ℚ × List Char :=
    match cs0 with
    | '+' :: rest => (1, rest)
    | '-' :: rest => (-1, rest)
    | _ => (1, cs0)
  let sgn := sgncs.1
  let (ip, cs1) := spanDigits sgncs.2
  let fpcs : List Char × List Char :=
    match cs1 with
    | '.' :: rest => spanDigits rest
    | _ => ([], cs1)
  let fp := fpcs.1
  if ip = [] ∧ fp = [] then Option.none
  else
    let mant : ℚ := (Timestamps.digitsToNat ip : ℚ) +
      (Timestamps.digitsToNat fp : ℚ) / ((10 : ℚ) ^ fp.length)
    match fpcs.2 with
    | [] => some (sgn * mant)
    | e :: rest =>
        if e = 'e' ∨ e = 'E' then
          let esgnrest : Int × List Char :=
            match rest with
            | '+' :: r => (1, r)
            | '-' :: r => (-1, r)
            | _ => (1, rest)
          let (ed, rest2) := spanDigits esgnrest.2
          if ed = [] ∨ rest2 ≠ [] then Option.none
          else
            some (sgn * mant *
              (10 : ℚ) ^ (esgnrest.1 * (Timestamps.digitsToNat ed : Int)))
        else Option.none

/-- Python `int(s)` on strings (sign and digits only). -/
def parsePyInt (s : String) : Option Int :=
  let cs0 := s.toList.dropWhile Char.isWhitespace
  let cs0 := (cs0.reverse.dropWhile Char.isWhitespace).reverse
  let sgncs : Int × List Char :=
    match cs0 with
    | '+' :: rest => (1, rest)
    | '-' :: rest => (-1, rest)
    | _ => (1, cs0)
  if sgncs.2 ≠ [] ∧ sgncs.2.all Char.isDigit then
    some (sgncs.1 * (Timestamps.digitsToNat sgncs.2 : Int))
  else Option.none

/-- Python `int(q)` on numbers: truncation toward zero. -/
def pyIntOfRat (q : ℚ) : Int :=
  Int.tdiv q.num q.den

end BootTime

namespace BootTime

/-- A primitive label value (JSON leaf): string, number (int/float
collapsed to an exact rational), or anything else. -/
inductive LVal where
  | s (v : String)
  | num (v : ℚ)
  | other
deriving DecidableEq, Repr

/-- One element of a `values` list: a dict with its optional `name` and
`value` keys, or a non-dict (skipped by every loop). -/
inductive LabelEntry where
  | entry (name : Option LVal) (value : Option LVal)
  | notDict
deriving DecidableEq, Repr

/-- The `values` field of an item: Horreum-API dict form, MCP-contract
list form, or anything else (the item is skipped). -/
inductive ItemValues where
  | dict (m : List (String × LVal))
  | list (l : List LabelEntry)
  | other
deriving DecidableEq, Repr

/-- The raw `start`/`stop` field of an item (`absent` = key missing). -/
inductive TsField where
  | absent
  | pynone
  | str (s : String)
  | num (q : ℚ)
  | dt (d : Timestamps.PyDatetime)
deriving DecidableEq, Repr

/-- One label-values item (a dict with `values`, `start`, `stop`). -/
structure Item where
  values : ItemValues
  start : TsField := .absent
  stop : TsField := .absent
deriving DecidableEq, Repr

/-- An element of the `items` argument (non-dicts are skipped). -/
inductive ItemOrOther where
  | item (it : Item)
  | notDict
deriving DecidableEq, Repr

/-- Python truthiness of a `start`/`stop` value. -/
def tsFieldTruthy : TsField → Bool
  | .absent => false
  | .pynone => false
  | .str s => s ≠ ""
  | .num q => q ≠ 0
  | .dt _ => true

/-- `item.get("stop") or item.get("start")`. -/
def resolveTs (stop start : TsField) : TsField :=
  if tsFieldTruthy stop then stop else start

/-- The `isinstance` dispatch that turns the resolved raw timestamp into a
datetime (`_parse_timestamp` for strings, identity for datetimes, `None`
otherwise). -/
def tsToDatetime : TsField → Option Timestamps.PyDatetime
  | .str s => Timestamps.parse_timestamp (.str s)
  | .dt d => some d
  | _ => Option.none

/-- `values_items`: the unified `(name, value)` pair list (dict items, or
the `name`/`value` fields of each dict element of the list form). -/
def toPairs : ItemValues → List (Option LVal × Option LVal)
  | .dict m => m.map (fun e => (some (.s e.1), some e.2))
  | .list l => l.filterMap (fun e =>
      match e with
      | .entry n v => some (n, v)
      | .notDict => Option.none)
  | .other => []

/-- The per-item dimension/metadata fields collected from the labels. -/
structure ItemMeta where
  os_id : Option String := Option.none
  mode : Option String := Option.none
  target : Option String := Option.none
  release : Option String := Option.none
  image_name : Option String := Option.none
  samples : Option Int := Option.none
  user : Option String := Option.none
  build : Option String := Option.none
deriving DecidableEq, Repr

/-- Whether the pair's name equals the given label name (Python `==`
against a string is `False` for `None`/non-string names). -/
def nameIs (n : Option LVal) (s : String) : Bool :=
  n = some (.s s)

/-- One step of the metadata-extraction loop (an `elif` chain keyed on the
label name; later occurrences overwrite earlier ones). -/
def metaStep (acc : ItemMeta) (p : Option LVal × Option LVal) : ItemMeta :=
  let (n, v) := p
  if nameIs n "RHIVOS OS ID" then
    match v with
    | some (.s sv) => { acc with os_id := some (String.mk (sv.toList.map Char.toLower)) }
    | _ => acc
  else if nameIs n "RHIVOS Mode" then
    match v with
    | some (.s sv) => { acc with mode := some (String.mk (sv.toList.map Char.toLower)) }
    | _ => acc
  else if nameIs n "RHIVOS Target" then
    match v with
    | some (.s sv) => { acc with target := some (String.mk (sv.toList.map Char.toLower)) }
    | _ => acc
  else if nameIs n "RHIVOS Release" then
    match v with
    | some (.s sv) => { acc with release := some sv }
    | _ => acc
  else if nameIs n "RHIVOS image name" then
    match v with
    | some (.s sv) => { acc with image_name := some sv }
    | _ => acc
  else if nameIs n "Number of Samples" then
    match v with
    | some (.num q) => { acc with samples := some (pyIntOfRat q) }
    | some (.s sv) =>
        match parsePyInt sv with
        | some i => { acc with samples := some i }
        | Option.none => acc
    | _ => acc
  else if nameIs n "User" then
    match v with
    | some (.s sv) => { acc with user := some sv }
    | _ => acc
  else if nameIs n "RHIVOS Build" then
    match v with
    | some (.s sv) => { acc with build := some sv }
    | _ => acc
  else acc

/-- The numeric coercion of a label value: numbers pass through,
everything else goes through `float(str(val))`. -/
def labelNumericValue : Option LVal → Option ℚ
  | some (.num q) => some q
  | some (.s t) => parsePyFloat t
  | some .other => Option.none
  | Option.none => Option.none

/-- The PHASE-1 accumulator: boot phases grouped by statistic type (an
insertion-ordered dict of dicts), the missing/non-numeric phases per
statistic type, and the collected KPI timestamps. -/
structure Phase1 where
  groups : List (String × List (String × ℚ))
  missing : List (String × List String)
  kpi : List (String × ℚ × String)
deriving DecidableEq, Repr

/-- One step of the PHASE-1 loop over the raw `values`. -/
def phase1Step (acc : Phase1) (e : LabelEntry) : Phase1 :=
  match e with
  | .notDict => acc
  | .entry n v =>
      match n with
      | some (.s name) =>
          match match_label_to_metric name with
          | Option.none => acc
          | some mid =>
              let stat := (extract_statistic_type name).getD "unknown"
              let numv := labelNumericValue v
              if strContains "phase" mid then
                let seen := dMem acc.groups stat
                let groups0 :=
                  if seen then acc.groups else acc.groups ++ [(stat, [])]
                let missing0 :=
                  if seen then acc.missing else acc.missing ++ [(stat, [])]
                let inner := (dGet groups0 stat).getD []
                let groups1 := dUpsert groups0 stat
                  (dUpsert inner mid (numv.getD 0))
                let missing1 :=
                  match numv with
                  | some _ => missing0
                  | Option.none =>
                      dUpsert missing0 stat
                        (((dGet missing0 stat).getD []) ++ [mid])
                { acc with groups := groups1, missing := missing1 }
              else if strContains "timestamp" mid then
                match numv with
                | some q => { acc with kpi := acc.kpi ++ [(mid, q, stat)] }
                | Option.none => acc
              else acc
      | _ => acc

/-- PHASE 1 over the raw `values` object: only the list form yields
entries (iterating the dict form yields its string keys, which fail the
`isinstance(lv, dict)` check). -/
def phase1 : ItemValues → Phase1
  | .list l => l.foldl phase1Step ⟨[], [], []⟩
  | _ => ⟨[], [], []⟩

/-- `math.isfinite` on the rational model of floats (always true: ℚ has
no infinities or NaNs, which only Python `float("inf")`-like inputs could
produce). -/
def _is_valid_float (_ : ℚ) : Bool := true

/-- `x or "undefined"` (empty strings are falsy). -/
def orUndefined : Option String → String
  | some s => if s = "" then "undefined" else s
  | Option.none => "undefined"

/-- `",".join(p.split(".")[-1].replace("_ms", "") for p in missing)`. -/
def joinMissing (missing : List String) : String :=
  String.intercalate ","
    (missing.map (fun p => removeAll "_ms" (lastDotComponent p)))

/-- The dimensions dict built in PHASE 2 (and, without the
`missing_phases` entry, in PHASE 3). -/
def buildDims (stat : String) (meta : ItemMeta)
    (missingList : List String) : List (String × String) :=
  (if stat ≠ "unknown" then [("statistic_type", stat)] else []) ++
  [("os_id", orUndefined meta.os_id),
   ("mode", orUndefined meta.mode),
   ("target", orUndefined meta.target),
   ("release", orUndefined meta.release),
   ("image_name", orUndefined meta.image_name),
   ("samples", match meta.samples with
     | some i => toString i
     | Option.none => "undefined"),
   ("user", orUndefined meta.user),
   ("build", orUndefined meta.build)] ++
  (if missingList ≠ [] then [("missing_phases", joinMissing missingList)]
   else [])

/-- `MetricPoint` as built by this plugin. -/
structure MetricPoint where
  metric_id : String
  timestamp : Timestamps.PyDatetime
  value : ℚ
  unit : Option String
  dimensions : Option (List (String × String))
  source : Option String
deriving DecidableEq, Repr

/-- PHASE 2 for one statistic group: one point per phase (skipping
non-finite values) followed by the synthetic `boot.time.total_ms` whose
value is the sum of the group's phase values. -/
def emitGroup (meta : ItemMeta) (ts : Timestamps.PyDatetime)
    (missing : List (String × List String)) (pluginId : String)
    (sg : String × List (String × ℚ)) : List MetricPoint :=
  let missingList := (dGet missing sg.1).getD []
  let dims := buildDims sg.1 meta missingList
  let dimsVal := if dims = [] then Option.none else some dims
  (sg.2.filterMap (fun mv =>
    if _is_valid_float mv.2 then
      some ⟨mv.1, ts, mv.2, some "ms", dimsVal, some pluginId⟩
    else Option.none)) ++
  (let total := (sg.2.map Prod.snd).sum
   if _is_valid_float total then
     [⟨"boot.time.total_ms", ts, total, some "ms", dimsVal, some pluginId⟩]
   else [])

/-- PHASE 3 for one collected KPI timestamp. -/
def emitKpi (meta : ItemMeta) (ts : Timestamps.PyDatetime)
    (pluginId : String) (k : String × ℚ × String) : List MetricPoint :=
  if _is_valid_float k.2.1 then
    let dims := buildDims k.2.2 meta []
    let dimsVal := if dims = [] then Option.none else some dims
    [⟨k.1, ts, k.2.1, some "ms", dimsVal, some pluginId⟩]
  else []

/-- Processing of one (dict) item: metadata extraction, timestamp
resolution (`stop or start`, parsed, defaulting to `datetime.now(utc)`
passed in as `now`), PHASE 1 grouping, PHASE 2 emission per statistic
group, PHASE 3 KPI emission. -/
def processItem (now : Timestamps.PyDatetime) (pluginId : String)
    (it : Item) : List MetricPoint :=
  match it.values with
  | .other => []
  | v =>
      let meta := (toPairs v).foldl metaStep {}
      let ts := (tsToDatetime (resolveTs it.stop it.start)).getD now
      let ph := phase1 v
      (ph.groups.flatMap (emitGroup meta ts ph.missing pluginId)) ++
      (ph.kpi.flatMap (emitKpi meta ts pluginId))

/-- `extract_from_label_values` with both filters `None` (the plugin id
`boot-time-verbose` is the `source` tag); non-dict items are skipped. -/
def extract_from_label_values (now : Timestamps.PyDatetime)
    (items : List ItemOrOther) : List MetricPoint :=
  items.flatMap (fun i =>
    match i with
    | .item it => processItem now "boot-time-verbose" it
    | .notDict => [])

end BootTime

/-- C2: on the label-value path, recognized phase labels are grouped by
statistic type; for every statistic group of an item the output contains
one `MetricPoint` per grouped phase (with the group's shared dimensions)
plus one synthetic `boot.time.total_ms` point whose value is the sum of
all recognized phase values of that group (missing/non-numeric phases
having been recorded as 0 by the grouping step); the shared dimensions
carry `statistic_type` whenever the group's statistic type is known, and
carry the (shortened, comma-joined) names of the missing phases under
`missing_phases` whenever there are any. -/
theorem c2_boot_time_label_groups_phase_sum
    (now : Timestamps.PyDatetime) (it : BootTime.Item)
    (s : String) (g : List (String × ℚ))
    (hsg : (s, g) ∈ (BootTime.phase1 it.values).groups) :
    (∀ mv ∈ g,
      (⟨mv.1,
        (BootTime.tsToDatetime (BootTime.resolveTs it.stop it.start)).getD now,
        mv.2, some "ms",
        some (BootTime.buildDims s
          ((BootTime.toPairs it.values).foldl BootTime.metaStep {})
          ((BootTime.dGet (BootTime.phase1 it.values).missing s).getD [])),
        some "boot-time-verbose"⟩ : BootTime.MetricPoint) ∈
        BootTime.extract_from_label_values now [.item it]) ∧
    ((⟨"boot.time.total_ms",
        (BootTime.tsToDatetime (BootTime.resolveTs it.stop it.start)).getD now,
        (g.map Prod.snd).sum, some "ms",
        some (BootTime.buildDims s
          ((BootTime.toPairs it.values).foldl BootTime.metaStep {})
          ((BootTime.dGet (BootTime.phase1 it.values).missing s).getD [])),
        some "boot-time-verbose"⟩ : BootTime.MetricPoint) ∈
        BootTime.extract_from_label_values now [.item it]) ∧
    (s ≠ "unknown" →
      BootTime.dGet
        (BootTime.buildDims s
          ((BootTime.toPairs it.values).foldl BootTime.metaStep {})
          ((BootTime.dGet (BootTime.phase1 it.values).missing s).getD []))
        "statistic_type" = some s) ∧
    ((BootTime.dGet (BootTime.phase1 it.values).missing s).getD [] ≠ [] →
      BootTime.dGet
        (BootTime.buildDims s
          ((BootTime.toPairs it.values).foldl BootTime.metaStep {})
          ((BootTime.dGet (BootTime.phase1 it.values).missing s).getD []))
        "missing_phases" =
        some (BootTime.joinMissing
          ((BootTime.dGet (BootTime.phase1 it.values).missing s).getD []))) := by
  have hdims : ∀ (meta : BootTime.ItemMeta) (ml : List String),
      BootTime.buildDims s meta ml ≠ [] := by
    intro meta ml
    unfold BootTime.buildDims
    split <;> simp
  have hout : BootTime.extract_from_label_values now [.item it] =
      BootTime.processItem now "boot-time-verbose" it := by
    simp [BootTime.extract_from_label_values]
  cases hv : it.values with
  | dict m =>
      rw [hv] at hsg
      simp [BootTime.phase1] at hsg
  | other =>
      rw [hv] at hsg
      simp [BootTime.phase1] at hsg
  | list l =>
      have hproc : BootTime.processItem now "boot-time-verbose" it =
          ((BootTime.phase1 it.values).groups.flatMap
            (BootTime.emitGroup
              ((BootTime.toPairs it.values).foldl BootTime.metaStep {})
              ((BootTime.tsToDatetime
                (BootTime.resolveTs it.stop it.start)).getD now)
              (BootTime.phase1 it.values).missing "boot-time-verbose")) ++
          ((BootTime.phase1 it.values).kpi.flatMap
            (BootTime.emitKpi
              ((BootTime.toPairs it.values).foldl BootTime.metaStep {})
              ((BootTime.tsToDatetime
                (BootTime.resolveTs it.stop it.start)).getD now)
              "boot-time-verbose")) := by
        rw [BootTime.processItem, hv]
      rw [hv] at hsg
      refine ⟨?_, ?_, ?_, ?_⟩
      · intro mv hmv
        rw [hout, hproc, hv]
        apply List.mem_append_left
        apply List.mem_flatMap.mpr
        refine ⟨(s, g), hsg, ?_⟩
        unfold BootTime.emitGroup
        apply List.mem_append_left
        apply List.mem_filterMap.mpr
        refine ⟨mv, hmv, ?_⟩
        simp only [BootTime._is_valid_float, if_pos]
        rw [if_neg (hdims _ _)]
      · rw [hout, hproc, hv]
        apply List.mem_append_left
        apply List.mem_flatMap.mpr
        refine ⟨(s, g), hsg, ?_⟩
        unfold BootTime.emitGroup
        apply List.mem_append_right
        simp only [BootTime._is_valid_float, if_pos]
        rw [if_neg (hdims _ _)]
        simp
      · intro hs
        simp [BootTime.buildDims, BootTime.dGet, hs]
      · intro hm
        by_cases hs : s = "unknown"
        · subst hs
          unfold BootTime.buildDims
          rw [if_neg (by simp), if_pos hm]
          rfl
        · unfold BootTime.buildDims
          rw [if_pos hs, if_pos hm]
          rfl

/-- The claim's example: four `average` phase labels with values 5000,
3000, 2000, 1000. -/
def c2exampleValues : List BootTime.LabelEntry :=
  [.entry (some (.s "Average Boot Kernel Pre Time ms")) (some (.num 5000)),
   .entry (some (.s "Average Boot Kernel Post Time ms")) (some (.num 3000)),
   .entry (some (.s "Average Boot Initrd Time ms")) (some (.num 2000)),
   .entry (some (.s "Average Boot System Init Time ms")) (some (.num 1000))]

/-- The example item (no start/stop timestamps). -/
def c2exampleItem : BootTime.Item := { values := .list c2exampleValues }

/-- A fixed `datetime.now(timezone.utc)` for the example. -/
def c2now : Timestamps.PyDatetime := ⟨2025, 10, 15, 12, 0, 0, 0, some 0⟩

/-- The statistic group the example produces. -/
def c2exampleGroup : List (String × ℚ) :=
  [("boot.phase.kernel_pre_timer_ms", 5000),
   ("boot.phase.kernel_ms", 3000),
   ("boot.phase.initrd_ms", 2000),
   ("boot.phase.system_init_ms", 1000)]

theorem c2_boot_time_label_groups_phase_sum_witness :
    ("average", c2exampleGroup) ∈
      (BootTime.phase1 c2exampleItem.values).groups ∧
    (c2exampleGroup.map Prod.snd).sum = (11000 : ℚ) ∧
    (BootTime.extract_from_label_values c2now [.item c2exampleItem]).length
      = 5 ∧
    ((⟨"boot.time.total_ms", c2now, (c2exampleGroup.map Prod.snd).sum,
        some "ms",
        some (BootTime.buildDims "average"
          ((BootTime.toPairs c2exampleItem.values).foldl BootTime.metaStep {})
          ((BootTime.dGet (BootTime.phase1 c2exampleItem.values).missing
            "average").getD [])),
        some "boot-time-verbose"⟩ : BootTime.MetricPoint) ∈
      BootTime.extract_from_label_values c2now [.item c2exampleItem]) ∧
    BootTime.dGet
      (BootTime.buildDims "average"
        ((BootTime.toPairs c2exampleItem.values).foldl BootTime.metaStep {})
        ((BootTime.dGet (BootTime.phase1 c2exampleItem.values).missing
          "average").getD []))
      "statistic_type" = some "average" := by
  have hsg : ("average", c2exampleGroup) ∈
      (BootTime.phase1 c2exampleItem.values).groups := by decide
  have hthm := c2_boot_time_label_groups_phase_sum c2now c2exampleItem
    "average" c2exampleGroup hsg
  refine ⟨hsg, ?_, ?_, ?_, ?_⟩
  · simp [c2exampleGroup]
    norm_num
  · decide
  · exact hthm.2.1
  · exact hthm.2.2.1 (by decide)

/-! # Embedding of `src/server/normalize.py`
(`normalize_get_key_metrics_params`).  Python dicts are insertion-ordered
association lists; `datetime.now().strftime(...)` is supplied as a clock
oracle `clock : Nat → String` where `clock d` is the formatted timestamp
of `now - timedelta(days=d)` (so `clock 0` is "now").  The Python function
mutates its argument in place and returns it; the model is the returned
value.  Paths that raise in Python (`.get` on a non-dict, `.lower()` on a
non-string, `dict.get` with an unhashable key) yield `none`. -/

namespace Normalize

/-- A JSON-ish Python value: string, int, list, or dict. -/
inductive JVal where
  | s (v : String)
  | i (v : Int)
  | l (v : List JVal)
  | d (v : List (String × JVal))

/-- A parameters dict. -/
abbrev Dict := List (String × JVal)

/-- `dict.get(k)` / `dict[k]` (first occurrence). -/
def dGet : Dict → String → Option JVal
  | [], _ => Option.none
  | (k', v) :: rest, k => if k' = k then some v else dGet rest k

/-- `k in dict`. -/
def dMem (m : Dict) (k : String) : Bool :=
  (dGet m k).isSome

/-- `dict[k] = v`: overwrite in place, else append. -/
def dUpsert : Dict → String → JVal → Dict
  | [], k, v => [(k, v)]
  | (k', v') :: rest, k, v =>
      if k' = k then (k, v) :: rest else (k', v') :: dUpsert rest k v

/-- `dict.pop(k, ...)`: drop the (first) binding of `k`. -/
def dPop : Dict → String → Dict
  | [], _ => []
  | (k', v') :: rest, k =>
      if k' = k then rest else (k', v') :: dPop rest k

/-- Python truthiness. -/
def truthy : JVal → Bool
  | .s v => v ≠ ""
  | .i v => v ≠ 0
  | .l v => ¬ v.isEmpty
  | .d v => ¬ v.isEmpty

/-- `bool(params.get(k))` (absent keys give `None`, which is falsy). -/
def getTruthy (p : Dict) (k : String) : Bool :=
  match dGet p k with
  | some v => truthy v
  | Option.none => false

/-- `params = raw.get("params", raw)`: unwrap a nested dict; a non-dict
`params` value makes the following `params.get("args")` raise. -/
def unwrapParams (raw : Dict) : Option Dict :=
  match dGet raw "params" with
  | some (.d m) => some m
  | some _ => Option.none
  | Option.none => some raw

/-- The `args` unwrap, guarded by the absence of the canonical keys. -/
def unwrapArgs (params : Dict) : Dict :=
  match dGet params "args" with
  | some (.d a) =>
      if !(dMem params "dataset_types" || dMem params "data" ||
          dMem params "source_id") then a
      else params
  | _ => params

/-- `if old in params and new not in params: params[new] =
wrap(params.pop(old))`. -/
def popAssign (p : Dict) (oldKey newKey : String) (wrap : JVal → JVal) :
    Dict :=
  if dMem p oldKey && !(dMem p newKey) then
    match dGet p oldKey with
    | some v => dUpsert (dPop p oldKey) newKey (wrap v)
    | Option.none => p
  else p

/-- The synonym block (canonical names; the `for`/`break` loops over the
time-window synonyms behave like trying them in order because a hit
installs `from`/`to` and blocks the remaining guards). -/
def synonymsStep (p : Dict) : Dict :=
  popAssign (popAssign (popAssign (popAssign (popAssign (popAssign
    (popAssign (popAssign (popAssign (popAssign (popAssign (popAssign
      (popAssign p "dataset_type" "dataset_types" (fun v => .l [v]))
      "source" "source_id" id)
      "testId" "test_id" id)
      "test" "test_id" id)
      "runId" "run_id" id)
      "run" "run_id" id)
      "schema" "schema_uri" id)
      "from_time" "from" id)
      "from_timestamp" "from" id)
      "fromTimestamp" "from" id)
      "to_time" "to" id)
      "to_timestamp" "to" id)
      "toTimestamp" "to" id

/-- Python `int(x)` on a parameter value (`int`/`str` succeed — a float
never appears in the value model — everything else raises). -/
def pyIntCoerce : JVal → Option Int
  | .i n => some n
  | .s t => BootTime.parsePyInt t
  | _ => Option.none

/-- `test_id` int-to-string coercion. -/
def coerceTestId (p : Dict) : Dict :=
  match dGet p "test_id" with
  | some (.i n) => dUpsert p "test_id" (.s (toString n))
  | _ => p

/-- `run_id` int-to-string coercion. -/
def coerceRunId (p : Dict) : Dict :=
  match dGet p "run_id" with
  | some (.i n) => dUpsert p "run_id" (.s (toString n))
  | _ => p

/-- `limit` through `int(...)`, keeping the original on failure. -/
def coerceLimit (p : Dict) : Dict :=
  if dMem p "limit" then
    match pyIntCoerce ((dGet p "limit").getD (.i 0)) with
    | some n => dUpsert p "limit" (.i n)
    | Option.none => p
  else p

/-- The type coercions (`test_id`/`run_id` ints to strings, `limit`
through `int(...)`). -/
def coerceStep (p : Dict) : Dict :=
  coerceLimit (coerceRunId (coerceTestId p))

/-- `^(\d+)\s+days?\s+ago$` (case-insensitive). -/
def parseDaysAgo (s : String) : Option Nat :=
  let cs := s.toList
  let ds := cs.takeWhile Char.isDigit
  let r1 := cs.dropWhile Char.isDigit
  let w1 := r1.takeWhile Char.isWhitespace
  let r2 := (r1.dropWhile Char.isWhitespace).map Char.toLower
  if ds ≠ [] ∧ w1 ≠ [] then
    match r2 with
    | 'd' :: 'a' :: 'y' :: rest =>
        let rest2 := match rest with
          | 's' :: r => r
          | r => r
        let w2 := rest2.takeWhile Char.isWhitespace
        let r3 := rest2.dropWhile Char.isWhitespace
        if w2 ≠ [] ∧ r3 = ['a', 'g', 'o'] then
          some (Timestamps.digitsToNat ds)
        else Option.none
    | _ => Option.none
  else Option.none

/-- `^(\d+)d$` (case-sensitive). -/
def parseDd (s : String) : Option Nat :=
  let cs := s.toList
  let ds := cs.takeWhile Char.isDigit
  let r := cs.dropWhile Char.isDigit
  if ds ≠ [] ∧ r = ['d'] then some (Timestamps.digitsToNat ds)
  else Option.none

/-- `value.lower() == "now"`. -/
def isNowStr (s : String) : Bool :=
  String.mk (s.toList.map Char.toLower) = "now"

/-- `_parse_relative_date`: non-strings pass through; "now" and relative
day offsets are replaced by formatted timestamps from the clock. -/
def _parse_relative_date (clock : Nat → String) (v : JVal) : JVal :=
  match v with
  | .s t =>
      if isNowStr t then .s (clock 0)
      else
        match parseDaysAgo t with
        | some days => .s (clock days)
        | Option.none =>
            match parseDd t with
            | some days => .s (clock days)
            | Option.none => .s t
  | v => v

/-- Apply `_parse_relative_date` to one key when present. -/
def relDateKey (clock : Nat → String) (key : String) (p : Dict) : Dict :=
  match dGet p key with
  | some v => dUpsert p key (_parse_relative_date clock v)
  | Option.none => p

/-- Apply `_parse_relative_date` to `from` and `to` when present. -/
def relDatesStep (clock : Nat → String) (p : Dict) : Dict :=
  relDateKey clock "to" (relDateKey clock "from" p)

/-- The dataset-type alias map. -/
def alias_map (x : String) : String :=
  if x = "boot-time" ∨ x = "boot_time" ∨ x = "boot" then "boot-time-verbose"
  else x

/-- `alias_map.get(x, x)` on a list element: strings are mapped, ints are
hashable and pass through, lists/dicts are unhashable and raise. -/
def aliasElem : JVal → Option JVal
  | .s t => some (.s (alias_map t))
  | .i n => some (.i n)
  | .l _ => Option.none
  | .d _ => Option.none

/-- The dataset-type alias normalization (list mapped elementwise, a bare
string wrapped into a one-element list). -/
def aliasStep (p : Dict) : Option Dict :=
  match dGet p "dataset_types" with
  | some (.l xs) =>
      (xs.mapM aliasElem).map (fun ys => dUpsert p "dataset_types" (.l ys))
  | some (.s t) => some (dUpsert p "dataset_types" (.l [.s (alias_map t)]))
  | _ => some p

/-- `params.get(k, "").lower()`: absent keys lower the default `""`,
non-string values raise `AttributeError`. -/
def pyLowerOfGet (p : Dict) (k : String) : Option String :=
  match dGet p k with
  | Option.none => some ""
  | some (.s t) => some (String.mk (t.toList.map Char.toLower))
  | some _ => Option.none

/-- The OS alias map (`{"rhel": "rhel", "autosd": "autosd"}.get(x, x)`). -/
def os_alias_map (x : String) : String :=
  if x = "rhel" then "rhel" else if x = "autosd" then "autosd" else x

/-- The body of the explicit `os_id` handling, given the lowered
`os_id_val`. -/
def osApply (osv : String) (p : Dict) : Dict :=
  if osv = "" then p
  else
    let p1 := dUpsert p "_detected_os_filter" (.s (os_alias_map osv))
    if getTruthy p1 "dataset_types" then p1
    else dUpsert p1 "dataset_types" (.l [.s "boot-time-verbose"])

/-- The explicit `os_id` handling. -/
def osStep (p : Dict) : Option Dict :=
  (pyLowerOfGet p "os_id").map (fun osv => osApply osv p)

end Normalize

namespace Normalize

mutual

/-- Python `repr` of a parameter value (quote escaping inside strings is
not modelled; it only feeds a substring probe). -/
def pyRepr : JVal → String
  | .s t => "'" ++ t ++ "'"
  | .i n => toString n
  | .l xs => "[" ++ pyReprList xs ++ "]"
  | .d m => "\x7b" ++ pyReprDict m ++ "\x7d"

/-- `repr` of list elements, comma-joined. -/
def pyReprList : List JVal → String
  | [] => ""
  | [x] => pyRepr x
  | x :: rest => pyRepr x ++ ", " ++ pyReprList rest

/-- `repr` of dict items, comma-joined. -/
def pyReprDict : List (String × JVal) → String
  | [] => ""
  | [e] => "'" ++ e.1 ++ "': " ++ pyRepr e.2
  | e :: rest => "'" ++ e.1 ++ "': " ++ pyRepr e.2 ++ ", " ++ pyReprDict rest

end

/-- Python `str(v)`: strings unchanged, everything else via `repr`. -/
def pyStr : JVal → String
  | .s t => t
  | v => pyRepr v

/-- The OS identifiers that indicate a misplaced `test_id`. -/
def known_os_identifiers : List String :=
  ["rhel", "rhel-9", "rhel-8", "rhel9", "rhel8", "autosd", "autosd-9",
   "fedora", "centos", "centos-stream", "fedora-coreos", "fcos"]

/-- The run-type identifiers (a Python set literal; its iteration order is
hash-dependent — only the keyword scan iterates it, and the claims are
insensitive to the order chosen here). -/
def known_run_types : List String :=
  ["nightly", "ci", "release", "manual", "ad-hoc", "adhoc"]

/-- `params.get("run_type") or params.get("runType")`. -/
def runTypeOrVal (p : Dict) : Option JVal :=
  match dGet p "run_type" with
  | some v => if truthy v then some v else dGet p "runType"
  | Option.none => dGet p "runType"

/-- `str(params.get(key, "")).lower()` for the keyword scan. -/
def scanVal (p : Dict) (key : String) : String :=
  match dGet p key with
  | Option.none => ""
  | some v => String.mk ((pyStr v).toList.map Char.toLower)

/-- One key of the run-type keyword scan (the `break` leaves the inner
loop only; a later key can overwrite `_detected_run_type`). -/
def scanKey (p : Dict) (key : String) : Dict :=
  match known_run_types.find? (fun rt => BootTime.strContains rt (scanVal p key)) with
  | some rt =>
      let p1 := dUpsert p "_detected_run_type" (.s rt)
      if key = "test_id" then
        let p2 := dPop p1 "test_id"
        if getTruthy p2 "dataset_types" then p2
        else dUpsert p2 "dataset_types" (.l [.s "boot-time-verbose"])
      else p1
  | Option.none => p

/-- The misplaced-OS `test_id` detection (using the `test_id_val`
computed before it). -/
def detectOsOnTest (tv : String) (p : Dict) : Dict :=
  if tv ∈ known_os_identifiers then
    let p1 := if getTruthy p "dataset_types" then p
      else dUpsert p "dataset_types" (.l [.s "boot-time-verbose"])
    let p2 := dPop p1 "test_id"
    dUpsert p2 "_detected_os_filter" (.s (os_alias_map tv))
  else p

/-- The explicit `run_type`/`runType` handling. -/
def detectRunTypeExplicit (p : Dict) : Dict :=
  if dMem p "run_type" || dMem p "runType" then
    match runTypeOrVal p with
    | some v =>
        if truthy v then
          let lowered := String.mk ((pyStr v).toList.map Char.toLower)
          let rt := if lowered = "ad-hoc" ∨ lowered = "adhoc" then "manual"
            else lowered
          dPop (dPop (dUpsert p "_detected_run_type" (.s rt)) "run_type")
            "runType"
        else p
    | Option.none => p
  else p

/-- The misplaced-run-type `test_id` detection (reusing the cached
`test_id_val`; the OS and run-type identifier sets are disjoint, so the
unguarded `pop` cannot fail). -/
def detectRunTypeOnTest (tv : String) (p : Dict) : Dict :=
  if !(dMem p "_detected_run_type") && tv ∈ known_run_types then
    let p2 := dPop (dUpsert p "_detected_run_type" (.s tv)) "test_id"
    if getTruthy p2 "dataset_types" then p2
    else dUpsert p2 "dataset_types" (.l [.s "boot-time-verbose"])
  else p

/-- The keyword scan (guarded once, over both keys). -/
def detectScan (p : Dict) : Dict :=
  if dMem p "_detected_run_type" then p
  else scanKey (scanKey p "test_id") "schema_uri"

/-- The run-type detection: misplaced-OS `test_id`, explicit
`run_type`/`runType`, misplaced-run-type `test_id`, then the keyword
scan over `test_id` and `schema_uri`. -/
def detectStep (p : Dict) : Option Dict :=
  (pyLowerOfGet p "test_id").map (fun tv =>
    detectScan (detectRunTypeOnTest tv
      (detectRunTypeExplicit (detectOsOnTest tv p))))

/-- The default page size. -/
def limitStep (p : Dict) : Dict :=
  if dMem p "limit" then p else dUpsert p "limit" (.i 100)

/-- Drop unsupported cosmetic fields. -/
def removeUnsupported (p : Dict) : Dict :=
  dPop (dPop p "output_format") "table_format"

/-- `normalize_get_key_metrics_params`. -/
def normalize_get_key_metrics_params (clock : Nat → String) (raw : Dict) :
    Option Dict := do
  let params ← unwrapParams raw
  let params := unwrapArgs params
  let params := synonymsStep params
  let params := coerceStep params
  let params := relDatesStep clock params
  let params ← aliasStep params
  let params ← osStep params
  let params ← detectStep params
  some (removeUnsupported (limitStep params))

end Normalize

/-- A concrete clock: `strftime("%Y-%m-%dT%H:%M:%S.%fZ")` output. -/
def c7clock : Nat → String := fun _ => "2025-10-01T00:00:00.000000Z"

/-- C7 (refuting theorem): `normalize_get_key_metrics_params` is not
idempotent.  On `{"params": {"params": {}}}` the first application unwraps
one level and returns `{"params": {}, "limit": 100}`, which still has a
`"params"` key; the second application unwraps again and returns
`{"limit": 100}` — a different dict (the key sets differ, so they are
unequal even as unordered Python dicts). -/
theorem c7_normalize_not_idempotent_counterexample :
    Normalize.normalize_get_key_metrics_params c7clock
        [("params", .d [("params", .d [])])] =
      some [("params", .d []), ("limit", .i 100)] ∧
    Normalize.normalize_get_key_metrics_params c7clock
        [("params", .d []), ("limit", .i 100)] =
      some [("limit", .i 100)] ∧
    Normalize.dMem [("params", Normalize.JVal.d []), ("limit", .i 100)]
      "params" = true ∧
    Normalize.dMem [(("limit" : String), Normalize.JVal.i 100)]
      "params" = false ∧
    ([("params", Normalize.JVal.d []), ("limit", Normalize.JVal.i 100)] :
        Normalize.Dict) ≠ [("limit", Normalize.JVal.i 100)] := by
  refine ⟨rfl, rfl, rfl, rfl, ?_⟩
  intro h
  exact absurd (congrArg List.length h) (by simp)

namespace Normalize

theorem dGet_upsert_self (p : Dict) (k : String) (v : JVal) :
    dGet (dUpsert p k v) k = some v := by
  induction p with
  | nil => simp [dUpsert, dGet]
  | cons e rest ih =>
      obtain ⟨k0, v0⟩ := e
      by_cases h : k0 = k
      · subst h; simp [dUpsert, dGet]
      · simp [dUpsert, dGet, h, ih]

theorem dGet_upsert_ne (p : Dict) (k k' : String) (v : JVal)
    (h : k' ≠ k) : dGet (dUpsert p k v) k' = dGet p k' := by
  induction p with
  | nil =>
      simp only [dUpsert, dGet]
      rw [if_neg (fun he => h he.symm)]
  | cons e rest ih =>
      obtain ⟨k0, v0⟩ := e
      by_cases h0 : k0 = k
      · subst h0
        simp only [dUpsert, if_pos rfl, dGet]
        rw [if_neg (fun he => h he.symm), if_neg (fun he => h he.symm)]
      · simp only [dUpsert, if_neg h0, dGet, ih]

theorem dGet_eq_none_of_not_mem (p : Dict) (k : String)
    (h : k ∉ p.map Prod.fst) : dGet p k = Option.none := by
  induction p with
  | nil => rfl
  | cons e rest ih =>
      obtain ⟨k0, v0⟩ := e
      simp only [List.map_cons, List.mem_cons, not_or] at h
      simp only [dGet]
      rw [if_neg (fun he => h.1 he.symm)]
      exact ih h.2

theorem dGet_pop_ne (p : Dict) (k k' : String) (h : k' ≠ k) :
    dGet (dPop p k) k' = dGet p k' := by
  induction p with
  | nil => rfl
  | cons e rest ih =>
      obtain ⟨k0, v0⟩ := e
      by_cases h0 : k0 = k
      · subst h0
        have hpop : dPop ((k0, v0) :: rest) k0 = rest := by simp [dPop]
        rw [hpop]
        simp only [dGet]
        rw [if_neg (fun he => h he.symm)]
      · have hpop : dPop ((k0, v0) :: rest) k = (k0, v0) :: dPop rest k := by
          simp [dPop, h0]
        rw [hpop]
        simp only [dGet]
        by_cases h1 : k0 = k'
        · simp [h1]
        · simp [h1, ih]

theorem dPop_sublist (p : Dict) (k : String) : (dPop p k).Sublist p := by
  induction p with
  | nil => simp [dPop]
  | cons e rest ih =>
      obtain ⟨k0, v0⟩ := e
      by_cases h0 : k0 = k
      · subst h0
        simpa [dPop] using List.sublist_cons_self _ _
      · simpa [dPop, h0] using ih.cons₂ (k0, v0)

theorem dGet_pop_self (p : Dict) (k : String)
    (h : (p.map Prod.fst).Nodup) : dGet (dPop p k) k = Option.none := by
  induction p with
  | nil => rfl
  | cons e rest ih =>
      obtain ⟨k0, v0⟩ := e
      simp only [List.map_cons, List.nodup_cons] at h
      by_cases h0 : k0 = k
      · subst h0
        have hpop : dPop ((k0, v0) :: rest) k0 = rest := by simp [dPop]
        rw [hpop]
        exact dGet_eq_none_of_not_mem rest k0 h.1
      · have hpop : dPop ((k0, v0) :: rest) k = (k0, v0) :: dPop rest k := by
          simp [dPop, h0]
        rw [hpop]
        simp only [dGet]
        rw [if_neg h0]
        exact ih h.2

theorem dUpsert_self_eq (p : Dict) (k : String) (v : JVal)
    (h : dGet p k = some v) : dUpsert p k v = p := by
  induction p with
  | nil => simp [dGet] at h
  | cons e rest ih =>
      obtain ⟨k0, v0⟩ := e
      by_cases h0 : k0 = k
      · subst h0
        have hv : v0 = v := by simpa [dGet] using h
        subst hv
        simp [dUpsert]
      · simp only [dGet, if_neg h0] at h
        simp [dUpsert, h0, ih h]

theorem dPop_absent (p : Dict) (k : String) (h : dMem p k = false) :
    dPop p k = p := by
  induction p with
  | nil => rfl
  | cons e rest ih =>
      obtain ⟨k0, v0⟩ := e
      by_cases h0 : k0 = k
      · subst h0
        simp [dMem, dGet] at h
      · simp only [dMem, dGet, if_neg h0] at h
        simp [dPop, h0, ih h]

theorem dMem_upsert_self (p : Dict) (k : String) (v : JVal) :
    dMem (dUpsert p k v) k = true := by
  simp [dMem, dGet_upsert_self]

theorem dMem_upsert_ne (p : Dict) (k k' : String) (v : JVal)
    (h : k' ≠ k) : dMem (dUpsert p k v) k' = dMem p k' := by
  simp [dMem, dGet_upsert_ne p k k' v h]

theorem dMem_pop_ne (p : Dict) (k k' : String) (h : k' ≠ k) :
    dMem (dPop p k) k' = dMem p k' := by
  simp [dMem, dGet_pop_ne p k k' h]

theorem upsert_keys (p : Dict) (k : String) (v : JVal) :
    (dUpsert p k v).map Prod.fst =
      if k ∈ p.map Prod.fst then p.map Prod.fst
      else p.map Prod.fst ++ [k] := by
  induction p with
  | nil => simp [dUpsert]
  | cons e rest ih =>
      obtain ⟨k0, v0⟩ := e
      by_cases h : k0 = k
      · subst h; simp [dUpsert]
      · by_cases hm : k ∈ rest.map Prod.fst
        · simp [dUpsert, h, ih, hm, Ne.symm h]
        · simp [dUpsert, h, ih, hm, Ne.symm h]

theorem nodup_upsert (p : Dict) (k : String) (v : JVal)
    (h : (p.map Prod.fst).Nodup) :
    ((dUpsert p k v).map Prod.fst).Nodup := by
  rw [upsert_keys]
  by_cases hm : k ∈ p.map Prod.fst
  · simpa [hm] using h
  · simp [hm, List.nodup_append, h]

theorem nodup_pop (p : Dict) (k : String)
    (h : (p.map Prod.fst).Nodup) :
    ((dPop p k).map Prod.fst).Nodup := by
  exact h.sublist ((dPop_sublist p k).map Prod.fst)

end Normalize

namespace Normalize

theorem dGet_none_of_dMem_false (p : Dict) (k : String)
    (h : dMem p k = false) : dGet p k = Option.none := by
  unfold dMem at h
  cases hg : dGet p k with
  | none => rfl
  | some v => rw [hg] at h; simp at h

/-- A `popAssign` whose synonym is already resolved is the identity. -/
theorem popAssign_id (p : Dict) (oldKey newKey : String)
    (wrap : JVal → JVal)
    (h : dMem p oldKey = true → dMem p newKey = true) :
    popAssign p oldKey newKey wrap = p := by
  unfold popAssign
  cases hm : dMem p oldKey with
  | false => simp
  | true => simp [h hm]

/-- The invariant a dict satisfies after one successful pass of
`normalize_get_key_metrics_params` on inputs within the hypotheses of the
idempotence theorem; a dict satisfying it is a fixpoint of every pipeline
step. -/
structure IsNormalized (clock : Nat → String) (q : Dict) : Prop where
  nodup : (q.map Prod.fst).Nodup
  no_params : dMem q "params" = false
  no_args : dMem q "args" = false
  no_testId : dMem q "testId" = false
  no_test : dMem q "test" = false
  no_output_format : dMem q "output_format" = false
  no_table_format : dMem q "table_format" = false
  dataset_type_syn : dMem q "dataset_type" = true → dMem q "dataset_types" = true
  source_syn : dMem q "source" = true → dMem q "source_id" = true
  runId_syn : dMem q "runId" = true → dMem q "run_id" = true
  run_syn : dMem q "run" = true → dMem q "run_id" = true
  schema_syn : dMem q "schema" = true → dMem q "schema_uri" = true
  from_time_syn : dMem q "from_time" = true → dMem q "from" = true
  from_timestamp_syn : dMem q "from_timestamp" = true → dMem q "from" = true
  fromTimestamp_syn : dMem q "fromTimestamp" = true → dMem q "from" = true
  to_time_syn : dMem q "to_time" = true → dMem q "to" = true
  to_timestamp_syn : dMem q "to_timestamp" = true → dMem q "to" = true
  toTimestamp_syn : dMem q "toTimestamp" = true → dMem q "to" = true
  test_id_not_int : ∀ n, dGet q "test_id" ≠ some (.i n)
  run_id_not_int : ∀ n, dGet q "run_id" ≠ some (.i n)
  limit_mem : dMem q "limit" = true
  limit_fix : ∀ v n, dGet q "limit" = some v → pyIntCoerce v = some n →
      v = .i n
  from_fix : ∀ v, dGet q "from" = some v → _parse_relative_date clock v = v
  to_fix : ∀ v, dGet q "to" = some v → _parse_relative_date clock v = v
  dtypes_not_str : ∀ t, dGet q "dataset_types" ≠ some (.s t)
  dtypes_fix : ∀ xs, dGet q "dataset_types" = some (.l xs) →
      xs.mapM aliasElem = some xs
  os_ok : pyLowerOfGet q "os_id" ≠ Option.none
  os_coh : ∀ osv, pyLowerOfGet q "os_id" = some osv → osv ≠ "" →
      dGet q "_detected_os_filter" = some (.s (os_alias_map osv)) ∧
      getTruthy q "dataset_types" = true
  test_lower_ok : pyLowerOfGet q "test_id" ≠ Option.none
  test_not_os : ∀ tv, pyLowerOfGet q "test_id" = some tv →
      tv ∉ known_os_identifiers
  run_type_coh : ∀ v, runTypeOrVal q = some v → truthy v = false
  test_not_runtype : ∀ tv, pyLowerOfGet q "test_id" = some tv →
      dMem q "_detected_run_type" = false → tv ∉ known_run_types
  scan_coh : dMem q "_detected_run_type" = false →
      ∀ rt ∈ known_run_types,
        BootTime.strContains rt (scanVal q "test_id") = false ∧
        BootTime.strContains rt (scanVal q "schema_uri") = false

theorem unwrapParams_fix (q : Dict) (h : dMem q "params" = false) :
    unwrapParams q = some q := by
  unfold unwrapParams
  rw [dGet_none_of_dMem_false q "params" h]

theorem unwrapArgs_fix (q : Dict) (h : dMem q "args" = false) :
    unwrapArgs q = q := by
  unfold unwrapArgs
  rw [dGet_none_of_dMem_false q "args" h]

theorem synonymsStep_fix (clock : Nat → String) (q : Dict)
    (h : IsNormalized clock q) : synonymsStep q = q := by
  have hTestId : dMem q "testId" = true → dMem q "test_id" = true := by
    intro hm; rw [h.no_testId] at hm; exact absurd hm (by simp)
  have hTest : dMem q "test" = true → dMem q "test_id" = true := by
    intro hm; rw [h.no_test] at hm; exact absurd hm (by simp)
  unfold synonymsStep
  rw [popAssign_id q _ _ _ h.dataset_type_syn,
    popAssign_id q _ _ _ h.source_syn,
    popAssign_id q _ _ _ hTestId,
    popAssign_id q _ _ _ hTest,
    popAssign_id q _ _ _ h.runId_syn,
    popAssign_id q _ _ _ h.run_syn,
    popAssign_id q _ _ _ h.schema_syn,
    popAssign_id q _ _ _ h.from_time_syn,
    popAssign_id q _ _ _ h.from_timestamp_syn,
    popAssign_id q _ _ _ h.fromTimestamp_syn,
    popAssign_id q _ _ _ h.to_time_syn,
    popAssign_id q _ _ _ h.to_timestamp_syn,
    popAssign_id q _ _ _ h.toTimestamp_syn]

theorem coerceTestId_fix (q : Dict)
    (h : ∀ n, dGet q "test_id" ≠ some (.i n)) : coerceTestId q = q := by
  unfold coerceTestId
  cases hg : dGet q "test_id" with
  | none => rfl
  | some v =>
      cases v with
      | i n => exact absurd hg (h n)
      | s t => rfl
      | l xs => rfl
      | d m => rfl

theorem coerceRunId_fix (q : Dict)
    (h : ∀ n, dGet q "run_id" ≠ some (.i n)) : coerceRunId q = q := by
  unfold coerceRunId
  cases hg : dGet q "run_id" with
  | none => rfl
  | some v =>
      cases v with
      | i n => exact absurd hg (h n)
      | s t => rfl
      | l xs => rfl
      | d m => rfl

theorem coerceLimit_fix (q : Dict) (hmem : dMem q "limit" = true)
    (hfix : ∀ v n, dGet q "limit" = some v → pyIntCoerce v = some n →
      v = .i n) : coerceLimit q = q := by
  unfold coerceLimit
  rw [hmem]
  simp only [if_true]
  cases hg : dGet q "limit" with
  | none =>
      exfalso
      unfold dMem at hmem
      rw [hg] at hmem
      simp at hmem
  | some v =>
      simp only [Option.getD_some]
      cases hc : pyIntCoerce v with
      | none => rfl
      | some n =>
          have hv := hfix v n hg hc
          subst hv
          exact dUpsert_self_eq q "limit" _ hg

theorem coerceStep_fix (clock : Nat → String) (q : Dict)
    (h : IsNormalized clock q) : coerceStep q = q := by
  unfold coerceStep
  rw [coerceTestId_fix q h.test_id_not_int,
    coerceRunId_fix q h.run_id_not_int,
    coerceLimit_fix q h.limit_mem h.limit_fix]

end Normalize

namespace Normalize

theorem relDateKey_fix (clock : Nat → String) (key : String) (q : Dict)
    (hfix : ∀ v, dGet q key = some v →
      _parse_relative_date clock v = v) : relDateKey clock key q = q := by
  unfold relDateKey
  cases hg : dGet q key with
  | none => rfl
  | some v =>
      dsimp only
      rw [hfix v hg]
      exact dUpsert_self_eq q key v hg

theorem relDatesStep_fix (clock : Nat → String) (q : Dict)
    (h : IsNormalized clock q) : relDatesStep clock q = q := by
  unfold relDatesStep
  rw [relDateKey_fix clock "from" q h.from_fix,
    relDateKey_fix clock "to" q h.to_fix]

theorem aliasStep_fix (clock : Nat → String) (q : Dict)
    (h : IsNormalized clock q) : aliasStep q = some q := by
  unfold aliasStep
  cases hg : dGet q "dataset_types" with
  | none => rfl
  | some v =>
      cases v with
      | s t => exact absurd hg (h.dtypes_not_str t)
      | i n => rfl
      | d m => rfl
      | l xs =>
          dsimp only
          rw [h.dtypes_fix xs hg]
          simp only [Option.map_some']
          rw [dUpsert_self_eq q "dataset_types" (.l xs) hg]

theorem osApply_fix (q : Dict) (osv : String)
    (hcoh : osv ≠ "" →
      dGet q "_detected_os_filter" = some (.s (os_alias_map osv)) ∧
      getTruthy q "dataset_types" = true) :
    osApply osv q = q := by
  by_cases h0 : osv = ""
  · simp [osApply, h0]
  · obtain ⟨hdet, hdt⟩ := hcoh h0
    have hp1 : dUpsert q "_detected_os_filter" (.s (os_alias_map osv)) = q :=
      dUpsert_self_eq _ _ _ hdet
    simp only [osApply, if_neg h0, hp1, hdt, if_true]

theorem osStep_fix (clock : Nat → String) (q : Dict)
    (h : IsNormalized clock q) : osStep q = some q := by
  unfold osStep
  cases hos : pyLowerOfGet q "os_id" with
  | none => exact absurd hos h.os_ok
  | some osv =>
      simp only [Option.map_some']
      rw [osApply_fix q osv (fun hne => h.os_coh osv hos hne)]

theorem detectOsOnTest_fix (q : Dict) (tv : String)
    (h : tv ∉ known_os_identifiers) : detectOsOnTest tv q = q := by
  simp [detectOsOnTest, h]

theorem detectRunTypeExplicit_fix (q : Dict)
    (hco : ∀ v, runTypeOrVal q = some v → truthy v = false) :
    detectRunTypeExplicit q = q := by
  unfold detectRunTypeExplicit
  by_cases hm : (dMem q "run_type" || dMem q "runType") = true
  · rw [if_pos hm]
    cases hr : runTypeOrVal q with
    | none => rfl
    | some v => simp [hco v hr]
  · rw [if_neg hm]

theorem detectRunTypeOnTest_fix (q : Dict) (tv : String)
    (h : dMem q "_detected_run_type" = true ∨ tv ∉ known_run_types) :
    detectRunTypeOnTest tv q = q := by
  unfold detectRunTypeOnTest
  rcases h with h | h
  · simp [h]
  · simp [h]

theorem scanKey_fix (q : Dict) (key : String)
    (h : ∀ rt ∈ known_run_types,
      BootTime.strContains rt (scanVal q key) = false) :
    scanKey q key = q := by
  unfold scanKey
  have hfind : known_run_types.find?
      (fun rt => BootTime.strContains rt (scanVal q key)) = Option.none := by
    apply List.find?_eq_none.mpr
    intro rt hrt
    simp [h rt hrt]
  rw [hfind]

theorem detectScan_fix (q : Dict)
    (h : dMem q "_detected_run_type" = true ∨
      (∀ rt ∈ known_run_types,
        BootTime.strContains rt (scanVal q "test_id") = false ∧
        BootTime.strContains rt (scanVal q "schema_uri") = false)) :
    detectScan q = q := by
  unfold detectScan
  rcases h with h | h
  · simp [h]
  · by_cases hm : dMem q "_detected_run_type" = true
    · simp [hm]
    · simp only [Bool.not_eq_true] at hm
      rw [if_neg (by simp [hm])]
      rw [scanKey_fix q "test_id" (fun rt hrt => (h rt hrt).1),
        scanKey_fix q "schema_uri" (fun rt hrt => (h rt hrt).2)]

theorem detectStep_fix (clock : Nat → String) (q : Dict)
    (h : IsNormalized clock q) : detectStep q = some q := by
  unfold detectStep
  cases htv : pyLowerOfGet q "test_id" with
  | none => exact absurd htv h.test_lower_ok
  | some tv =>
      simp only [Option.map_some']
      rw [detectOsOnTest_fix q tv (h.test_not_os tv htv)]
      rw [detectRunTypeExplicit_fix q h.run_type_coh]
      rw [detectRunTypeOnTest_fix q tv ?hrt]
      rw [detectScan_fix q ?hscan]
      case hrt =>
        by_cases hm : dMem q "_detected_run_type" = true
        · exact Or.inl hm
        · simp only [Bool.not_eq_true] at hm
          exact Or.inr (h.test_not_runtype tv htv hm)
      case hscan =>
        by_cases hm : dMem q "_detected_run_type" = true
        · exact Or.inl hm
        · simp only [Bool.not_eq_true] at hm
          exact Or.inr (h.scan_coh hm)

theorem limitStep_fix (q : Dict) (h : dMem q "limit" = true) :
    limitStep q = q := by
  simp [limitStep, h]

theorem removeUnsupported_fix (q : Dict)
    (h1 : dMem q "output_format" = false)
    (h2 : dMem q "table_format" = false) : removeUnsupported q = q := by
  unfold removeUnsupported
  rw [dPop_absent q "output_format" h1, dPop_absent q "table_format" h2]

/-- A dict satisfying the normalized invariant is a fixpoint of
`normalize_get_key_metrics_params`. -/
theorem normalize_fixes_normalized (clock : Nat → String) (q : Dict)
    (h : IsNormalized clock q) :
    normalize_get_key_metrics_params clock q = some q := by
  simp only [normalize_get_key_metrics_params,
    unwrapParams_fix q h.no_params, Option.bind_eq_bind, Option.some_bind,
    unwrapArgs_fix q h.no_args, synonymsStep_fix clock q h,
    coerceStep_fix clock q h, relDatesStep_fix clock q h,
    aliasStep_fix clock q h, osStep_fix clock q h, detectStep_fix clock q h,
    limitStep_fix q h.limit_mem,
    removeUnsupported_fix q h.no_output_format h.no_table_format]

end Normalize

namespace Normalize

theorem dMem_pop_false (p : Dict) (a k : String)
    (h : dMem p k = false) : dMem (dPop p a) k = false := by
  by_cases hk : k = a
  · subst hk
    rw [dPop_absent p k h]
    exact h
  · rw [dMem_pop_ne p a k hk]
    exact h

theorem dMem_upsert_false (p : Dict) (a k : String) (v : JVal)
    (h : dMem p k = false) (hk : k ≠ a) :
    dMem (dUpsert p a v) k = false := by
  rw [dMem_upsert_ne p a k v hk]
  exact h

theorem dMem_upsert_true (p : Dict) (a k : String) (v : JVal)
    (h : dMem p k = true) : dMem (dUpsert p a v) k = true := by
  by_cases hk : k = a
  · subst hk
    exact dMem_upsert_self p k v
  · rw [dMem_upsert_ne p a k v hk]
    exact h

theorem dMem_pop_true_ne (p : Dict) (a k : String) (h : dMem p k = true)
    (hk : k ≠ a) : dMem (dPop p a) k = true := by
  rw [dMem_pop_ne p a k hk]
  exact h

/-- Keys other than the synonym pair are untouched by a `popAssign`. -/
theorem popAssign_dGet_other (p : Dict) (o n : String) (w : JVal → JVal)
    (k : String) (hko : k ≠ o) (hkn : k ≠ n) :
    dGet (popAssign p o n w) k = dGet p k := by
  unfold popAssign
  by_cases hg : (dMem p o && !dMem p n) = true
  · rw [if_pos hg]
    cases hv : dGet p o with
    | none => rfl
    | some v =>
        dsimp only
        rw [dGet_upsert_ne _ n k _ hkn, dGet_pop_ne _ o k hko]
  · rw [if_neg hg]

theorem popAssign_nodup (p : Dict) (o n : String) (w : JVal → JVal)
    (h : (p.map Prod.fst).Nodup) :
    ((popAssign p o n w).map Prod.fst).Nodup := by
  unfold popAssign
  by_cases hg : (dMem p o && !dMem p n) = true
  · rw [if_pos hg]
    cases hv : dGet p o with
    | none => exact h
    | some v => exact nodup_upsert _ n _ (nodup_pop p o h)
  · rw [if_neg hg]
    exact h

/-- A `popAssign` never adds keys other than its canonical name. -/
theorem popAssign_dMem_false (p : Dict) (o n : String) (w : JVal → JVal)
    (k : String) (hkn : k ≠ n) (h : dMem p k = false) :
    dMem (popAssign p o n w) k = false := by
  unfold popAssign
  by_cases hg : (dMem p o && !dMem p n) = true
  · rw [if_pos hg]
    cases hv : dGet p o with
    | none => exact h
    | some v =>
        dsimp only
        exact dMem_upsert_false _ n k _ (dMem_pop_false p o k h) hkn
  · rw [if_neg hg]
    exact h

/-- A `popAssign` never removes keys other than its synonym name. -/
theorem popAssign_dMem_true (p : Dict) (o n : String) (w : JVal → JVal)
    (k : String) (hko : k ≠ o) (h : dMem p k = true) :
    dMem (popAssign p o n w) k = true := by
  unfold popAssign
  by_cases hg : (dMem p o && !dMem p n) = true
  · rw [if_pos hg]
    cases hv : dGet p o with
    | none => exact h
    | some v =>
        dsimp only
        exact dMem_upsert_true _ n k _ (dMem_pop_true_ne p o k h hko)
  · rw [if_neg hg]
    exact h

/-- After a `popAssign` (on a dup-free dict), the synonym key being
present implies the canonical key is present. -/
theorem popAssign_syn (p : Dict) (o n : String) (w : JVal → JVal)
    (hon : o ≠ n) (hnd : (p.map Prod.fst).Nodup) :
    dMem (popAssign p o n w) o = true →
      dMem (popAssign p o n w) n = true := by
  unfold popAssign
  by_cases hg : (dMem p o && !dMem p n) = true
  · rw [if_pos hg]
    cases hv : dGet p o with
    | none =>
        intro hmem
        exfalso
        simp only [Bool.and_eq_true] at hg
        unfold dMem at hg
        rw [hv] at hg
        simp at hg
    | some v =>
        dsimp only
        intro _
        exact dMem_upsert_self _ n _
  · rw [if_neg hg]
    intro hmem
    simp only [Bool.and_eq_true, Bool.not_eq_true'] at hg
    rcases Decidable.not_and_iff_or_not.mp hg with h1 | h1
    · exact absurd hmem h1
    · simpa using h1

/-- The synonym keys consumed by `synonymsStep`. -/
def synOlds : List String :=
  ["dataset_type", "source", "testId", "test", "runId", "run",
   "schema", "from_time", "from_timestamp", "fromTimestamp",
   "to_time", "to_timestamp", "toTimestamp"]

/-- The canonical keys produced by `synonymsStep`. -/
def synNews : List String :=
  ["dataset_types", "source_id", "test_id", "run_id", "schema_uri",
   "from", "to"]

theorem synonymsStep_dGet_other (p : Dict) (k : String)
    (ho : k ∉ synOlds) (hn : k ∉ synNews) :
    dGet (synonymsStep p) k = dGet p k := by
  have no : ∀ o, o ∈ synOlds → k ≠ o := fun o hmem he => ho (he ▸ hmem)
  have nn : ∀ n, n ∈ synNews → k ≠ n := fun n hmem he => hn (he ▸ hmem)
  unfold synonymsStep
  rw [popAssign_dGet_other _ "toTimestamp" "to" _ k
      (no _ (by decide)) (nn _ (by decide)),
    popAssign_dGet_other _ "to_timestamp" "to" _ k
      (no _ (by decide)) (nn _ (by decide)),
    popAssign_dGet_other _ "to_time" "to" _ k
      (no _ (by decide)) (nn _ (by decide)),
    popAssign_dGet_other _ "fromTimestamp" "from" _ k
      (no _ (by decide)) (nn _ (by decide)),
    popAssign_dGet_other _ "from_timestamp" "from" _ k
      (no _ (by decide)) (nn _ (by decide)),
    popAssign_dGet_other _ "from_time" "from" _ k
      (no _ (by decide)) (nn _ (by decide)),
    popAssign_dGet_other _ "schema" "schema_uri" _ k
      (no _ (by decide)) (nn _ (by decide)),
    popAssign_dGet_other _ "run" "run_id" _ k
      (no _ (by decide)) (nn _ (by decide)),
    popAssign_dGet_other _ "runId" "run_id" _ k
      (no _ (by decide)) (nn _ (by decide)),
    popAssign_dGet_other _ "test" "test_id" _ k
      (no _ (by decide)) (nn _ (by decide)),
    popAssign_dGet_other _ "testId" "test_id" _ k
      (no _ (by decide)) (nn _ (by decide)),
    popAssign_dGet_other _ "source" "source_id" _ k
      (no _ (by decide)) (nn _ (by decide)),
    popAssign_dGet_other _ "dataset_type" "dataset_types" _ k
      (no _ (by decide)) (nn _ (by decide))]

theorem synonymsStep_dMem_false (p : Dict) (k : String)
    (hn : k ∉ synNews) (h : dMem p k = false) :
    dMem (synonymsStep p) k = false := by
  have nn : ∀ n, n ∈ synNews → k ≠ n := fun n hmem he => hn (he ▸ hmem)
  unfold synonymsStep
  apply popAssign_dMem_false _ _ _ _ _ (nn _ (by decide))
  apply popAssign_dMem_false _ _ _ _ _ (nn _ (by decide))
  apply popAssign_dMem_false _ _ _ _ _ (nn _ (by decide))
  apply popAssign_dMem_false _ _ _ _ _ (nn _ (by decide))
  apply popAssign_dMem_false _ _ _ _ _ (nn _ (by decide))
  apply popAssign_dMem_false _ _ _ _ _ (nn _ (by decide))
  apply popAssign_dMem_false _ _ _ _ _ (nn _ (by decide))
  apply popAssign_dMem_false _ _ _ _ _ (nn _ (by decide))
  apply popAssign_dMem_false _ _ _ _ _ (nn _ (by decide))
  apply popAssign_dMem_false _ _ _ _ _ (nn _ (by decide))
  apply popAssign_dMem_false _ _ _ _ _ (nn _ (by decide))
  apply popAssign_dMem_false _ _ _ _ _ (nn _ (by decide))
  apply popAssign_dMem_false _ _ _ _ _ (nn _ (by decide))
  exact h

theorem synonymsStep_dMem_true (p : Dict) (k : String)
    (ho : k ∉ synOlds) (h : dMem p k = true) :
    dMem (synonymsStep p) k = true := by
  have no : ∀ o, o ∈ synOlds → k ≠ o := fun o hmem he => ho (he ▸ hmem)
  unfold synonymsStep
  apply popAssign_dMem_true _ _ _ _ _ (no _ (by decide))
  apply popAssign_dMem_true _ _ _ _ _ (no _ (by decide))
  apply popAssign_dMem_true _ _ _ _ _ (no _ (by decide))
  apply popAssign_dMem_true _ _ _ _ _ (no _ (by decide))
  apply popAssign_dMem_true _ _ _ _ _ (no _ (by decide))
  apply popAssign_dMem_true _ _ _ _ _ (no _ (by decide))
  apply popAssign_dMem_true _ _ _ _ _ (no _ (by decide))
  apply popAssign_dMem_true _ _ _ _ _ (no _ (by decide))
  apply popAssign_dMem_true _ _ _ _ _ (no _ (by decide))
  apply popAssign_dMem_true _ _ _ _ _ (no _ (by decide))
  apply popAssign_dMem_true _ _ _ _ _ (no _ (by decide))
  apply popAssign_dMem_true _ _ _ _ _ (no _ (by decide))
  apply popAssign_dMem_true _ _ _ _ _ (no _ (by decide))
  exact h

theorem synonymsStep_nodup (p : Dict) (h : (p.map Prod.fst).Nodup) :
    ((synonymsStep p).map Prod.fst).Nodup := by
  unfold synonymsStep
  apply popAssign_nodup
  apply popAssign_nodup
  apply popAssign_nodup
  apply popAssign_nodup
  apply popAssign_nodup
  apply popAssign_nodup
  apply popAssign_nodup
  apply popAssign_nodup
  apply popAssign_nodup
  apply popAssign_nodup
  apply popAssign_nodup
  apply popAssign_nodup
  apply popAssign_nodup
  exact h

end Normalize

namespace Normalize

theorem coerceTestId_dGet_other (p : Dict) (k : String)
    (hk : k ≠ "test_id") : dGet (coerceTestId p) k = dGet p k := by
  unfold coerceTestId
  cases hg : dGet p "test_id" with
  | none => rfl
  | some v =>
      cases v with
      | i n => exact dGet_upsert_ne p "test_id" k _ hk
      | s t => rfl
      | l xs => rfl
      | d m => rfl

theorem coerceTestId_nodup (p : Dict) (h : (p.map Prod.fst).Nodup) :
    ((coerceTestId p).map Prod.fst).Nodup := by
  unfold coerceTestId
  cases hg : dGet p "test_id" with
  | none => exact h
  | some v =>
      cases v with
      | i n => exact nodup_upsert p "test_id" _ h
      | s t => exact h
      | l xs => exact h
      | d m => exact h

theorem coerceTestId_not_int (p : Dict) (n : Int) :
    dGet (coerceTestId p) "test_id" ≠ some (.i n) := by
  unfold coerceTestId
  cases hg : dGet p "test_id" with
  | none => rw [hg]; simp
  | some v =>
      cases v with
      | i m =>
          rw [dGet_upsert_self]
          simp
      | s t => rw [hg]; simp
      | l xs => rw [hg]; simp
      | d m => rw [hg]; simp

theorem coerceRunId_dGet_other (p : Dict) (k : String)
    (hk : k ≠ "run_id") : dGet (coerceRunId p) k = dGet p k := by
  unfold coerceRunId
  cases hg : dGet p "run_id" with
  | none => rfl
  | some v =>
      cases v with
      | i n => exact dGet_upsert_ne p "run_id" k _ hk
      | s t => rfl
      | l xs => rfl
      | d m => rfl

theorem coerceRunId_nodup (p : Dict) (h : (p.map Prod.fst).Nodup) :
    ((coerceRunId p).map Prod.fst).Nodup := by
  unfold coerceRunId
  cases hg : dGet p "run_id" with
  | none => exact h
  | some v =>
      cases v with
      | i n => exact nodup_upsert p "run_id" _ h
      | s t => exact h
      | l xs => exact h
      | d m => exact h

theorem coerceRunId_not_int (p : Dict) (n : Int) :
    dGet (coerceRunId p) "run_id" ≠ some (.i n) := by
  unfold coerceRunId
  cases hg : dGet p "run_id" with
  | none => rw [hg]; simp
  | some v =>
      cases v with
      | i m =>
          rw [dGet_upsert_self]
          simp
      | s t => rw [hg]; simp
      | l xs => rw [hg]; simp
      | d m => rw [hg]; simp

theorem coerceLimit_dGet_other (p : Dict) (k : String)
    (hk : k ≠ "limit") : dGet (coerceLimit p) k = dGet p k := by
  unfold coerceLimit
  by_cases hm : dMem p "limit" = true
  · rw [hm]
    simp only [if_true]
    cases hc : pyIntCoerce ((dGet p "limit").getD (.i 0)) with
    | none => rfl
    | some n => exact dGet_upsert_ne p "limit" k _ hk
  · simp only [Bool.not_eq_true] at hm
    rw [hm]
    simp

theorem coerceLimit_nodup (p : Dict) (h : (p.map Prod.fst).Nodup) :
    ((coerceLimit p).map Prod.fst).Nodup := by
  unfold coerceLimit
  by_cases hm : dMem p "limit" = true
  · rw [hm]
    simp only [if_true]
    cases hc : pyIntCoerce ((dGet p "limit").getD (.i 0)) with
    | none => exact h
    | some n => exact nodup_upsert p "limit" _ h
  · simp only [Bool.not_eq_true] at hm
    rw [hm]
    simpa using h

theorem coerceLimit_limit_fix (p : Dict) :
    ∀ v n, dGet (coerceLimit p) "limit" = some v →
      pyIntCoerce v = some n → v = .i n := by
  intro v n hv hc
  unfold coerceLimit at hv
  by_cases hm : dMem p "limit" = true
  · rw [hm] at hv
    simp only [if_true] at hv
    cases hg : dGet p "limit" with
    | none =>
        unfold dMem at hm
        rw [hg] at hm
        simp at hm
    | some w =>
        rw [hg] at hv
        simp only [Option.getD_some] at hv
        cases hcw : pyIntCoerce w with
        | none =>
            rw [hcw] at hv
            rw [hg] at hv
            obtain rfl : w = v := by simpa using hv
            rw [hcw] at hc
            exact absurd hc (by simp)
        | some m =>
            rw [hcw] at hv
            rw [dGet_upsert_self] at hv
            obtain rfl : JVal.i m = v := by simpa using hv
            simp only [pyIntCoerce, Option.some.injEq] at hc
            rw [hc]
  · simp only [Bool.not_eq_true] at hm
    rw [hm] at hv
    simp only [Bool.false_eq_true, if_false] at hv
    rw [dGet_none_of_dMem_false p "limit" hm] at hv
    exact absurd hv (by simp)

theorem relDateKey_dGet_other (clock : Nat → String) (key : String)
    (p : Dict) (k : String) (hk : k ≠ key) :
    dGet (relDateKey clock key p) k = dGet p k := by
  unfold relDateKey
  cases hg : dGet p key with
  | none => rfl
  | some v =>
      dsimp only
      exact dGet_upsert_ne p key k _ hk

theorem relDateKey_nodup (clock : Nat → String) (key : String) (p : Dict)
    (h : (p.map Prod.fst).Nodup) :
    ((relDateKey clock key p).map Prod.fst).Nodup := by
  unfold relDateKey
  cases hg : dGet p key with
  | none => exact h
  | some v =>
      dsimp only
      exact nodup_upsert p key _ h

theorem relDate_idem (clock : Nat → String)
    (hclock : ∀ n, isNowStr (clock n) = false ∧
      parseDaysAgo (clock n) = Option.none ∧
      parseDd (clock n) = Option.none) (v : JVal) :
    _parse_relative_date clock (_parse_relative_date clock v) =
      _parse_relative_date clock v := by
  have hfix : ∀ m : Nat,
      _parse_relative_date clock (.s (clock m)) = .s (clock m) := by
    intro m
    simp [_parse_relative_date, (hclock m).1, (hclock m).2.1,
      (hclock m).2.2]
  cases v with
  | i n => rfl
  | l xs => rfl
  | d m => rfl
  | s t =>
      by_cases h1 : isNowStr t = true
      · rw [show _parse_relative_date clock (.s t) = .s (clock 0) from by
          simp [_parse_relative_date, h1]]
        exact hfix 0
      · simp only [Bool.not_eq_true] at h1
        cases h2 : parseDaysAgo t with
        | some d =>
            rw [show _parse_relative_date clock (.s t) = .s (clock d) from by
              simp [_parse_relative_date, h1, h2]]
            exact hfix d
        | none =>
            cases h3 : parseDd t with
            | some d =>
                rw [show _parse_relative_date clock (.s t) = .s (clock d) from by
                  simp [_parse_relative_date, h1, h2, h3]]
                exact hfix d
            | none =>
                rw [show _parse_relative_date clock (.s t) = .s t from by
                  simp [_parse_relative_date, h1, h2, h3]]
                simp [_parse_relative_date, h1, h2, h3]

theorem relDateKey_self_fix (clock : Nat → String) (key : String)
    (p : Dict)
    (hclock : ∀ n, isNowStr (clock n) = false ∧
      parseDaysAgo (clock n) = Option.none ∧
      parseDd (clock n) = Option.none) :
    ∀ v, dGet (relDateKey clock key p) key = some v →
      _parse_relative_date clock v = v := by
  intro v hv
  unfold relDateKey at hv
  cases hg : dGet p key with
  | none =>
      rw [hg] at hv
      dsimp only at hv
      rw [hg] at hv
      exact absurd hv (by simp)
  | some w =>
      rw [hg] at hv
      dsimp only at hv
      rw [dGet_upsert_self] at hv
      obtain rfl : _parse_relative_date clock w = v := by simpa using hv
      exact relDate_idem clock hclock w

end Normalize

namespace Normalize

theorem dMem_congr (p p' : Dict) (k : String)
    (h : dGet p k = dGet p' k) : dMem p k = dMem p' k := by
  unfold dMem
  rw [h]

theorem pyLowerOfGet_congr (p p' : Dict) (k : String)
    (h : dGet p k = dGet p' k) : pyLowerOfGet p k = pyLowerOfGet p' k := by
  unfold pyLowerOfGet
  rw [h]

theorem getTruthy_congr (p p' : Dict) (k : String)
    (h : dGet p k = dGet p' k) : getTruthy p k = getTruthy p' k := by
  unfold getTruthy
  rw [h]

theorem scanVal_congr (p p' : Dict) (k : String)
    (h : dGet p k = dGet p' k) : scanVal p k = scanVal p' k := by
  unfold scanVal
  rw [h]

theorem runTypeOrVal_congr (p p' : Dict)
    (h1 : dGet p "run_type" = dGet p' "run_type")
    (h2 : dGet p "runType" = dGet p' "runType") :
    runTypeOrVal p = runTypeOrVal p' := by
  unfold runTypeOrVal
  rw [h1, h2]

/-- A `popAssign` whose synonym key is absent is the identity. -/
theorem popAssign_absent (p : Dict) (o n : String) (w : JVal → JVal)
    (h : dMem p o = false) : popAssign p o n w = p := by
  unfold popAssign
  rw [h]
  simp

/-- `synonymsStep` is the identity on dicts that use only canonical
names. -/
theorem synonymsStep_id (p : Dict)
    (h : ∀ o ∈ synOlds, dMem p o = false) : synonymsStep p = p := by
  unfold synonymsStep
  rw [popAssign_absent p "dataset_type" _ _ (h _ (by decide)),
    popAssign_absent p "source" _ _ (h _ (by decide)),
    popAssign_absent p "testId" _ _ (h _ (by decide)),
    popAssign_absent p "test" _ _ (h _ (by decide)),
    popAssign_absent p "runId" _ _ (h _ (by decide)),
    popAssign_absent p "run" _ _ (h _ (by decide)),
    popAssign_absent p "schema" _ _ (h _ (by decide)),
    popAssign_absent p "from_time" _ _ (h _ (by decide)),
    popAssign_absent p "from_timestamp" _ _ (h _ (by decide)),
    popAssign_absent p "fromTimestamp" _ _ (h _ (by decide)),
    popAssign_absent p "to_time" _ _ (h _ (by decide)),
    popAssign_absent p "to_timestamp" _ _ (h _ (by decide)),
    popAssign_absent p "toTimestamp" _ _ (h _ (by decide))]

theorem coerceStep_dGet_other (p : Dict) (k : String)
    (h1 : k ≠ "test_id") (h2 : k ≠ "run_id") (h3 : k ≠ "limit") :
    dGet (coerceStep p) k = dGet p k := by
  unfold coerceStep
  rw [coerceLimit_dGet_other _ k h3, coerceRunId_dGet_other _ k h2,
    coerceTestId_dGet_other _ k h1]

theorem coerceStep_nodup (p : Dict) (h : (p.map Prod.fst).Nodup) :
    ((coerceStep p).map Prod.fst).Nodup :=
  coerceLimit_nodup _ (coerceRunId_nodup _ (coerceTestId_nodup _ h))

theorem relDatesStep_dGet_other (clock : Nat → String) (p : Dict)
    (k : String) (h1 : k ≠ "from") (h2 : k ≠ "to") :
    dGet (relDatesStep clock p) k = dGet p k := by
  unfold relDatesStep
  rw [relDateKey_dGet_other _ _ _ k h2, relDateKey_dGet_other _ _ _ k h1]

theorem relDatesStep_nodup (clock : Nat → String) (p : Dict)
    (h : (p.map Prod.fst).Nodup) :
    ((relDatesStep clock p).map Prod.fst).Nodup :=
  relDateKey_nodup _ _ _ (relDateKey_nodup _ _ _ h)

/-- The dataset-type alias map is idempotent. -/
theorem alias_map_idem (x : String) : alias_map (alias_map x) = alias_map x := by
  by_cases h : x = "boot-time" ∨ x = "boot_time" ∨ x = "boot"
  · rw [show alias_map x = "boot-time-verbose" from by simp [alias_map, h]]
    rfl
  · rw [show alias_map x = x from by simp [alias_map, h]]
    simp [alias_map, h]

theorem aliasElem_idem (x y : JVal) (h : aliasElem x = some y) :
    aliasElem y = some y := by
  cases x with
  | s t =>
      obtain rfl : JVal.s (alias_map t) = y := by simpa [aliasElem] using h
      simp [aliasElem, alias_map_idem]
  | i n =>
      obtain rfl : JVal.i n = y := by simpa [aliasElem] using h
      rfl
  | l xs => simp [aliasElem] at h
  | d m => simp [aliasElem] at h

theorem mapM_aliasElem_idem :
    ∀ (xs ys : List JVal), xs.mapM aliasElem = some ys →
      ys.mapM aliasElem = some ys := by
  intro xs
  induction xs with
  | nil =>
      intro ys h
      simp only [List.mapM_nil, Option.pure_def, Option.some.injEq] at h
      subst h
      rfl
  | cons x rest ih =>
      intro ys h
      rw [List.mapM_cons] at h
      cases hx : aliasElem x with
      | none => rw [hx] at h; simp at h
      | some y =>
          rw [hx] at h
          cases hr : rest.mapM aliasElem with
          | none => rw [hr] at h; simp at h
          | some yrest =>
              rw [hr] at h
              simp only [Option.pure_def, Option.bind_eq_bind,
                Option.some_bind, Option.some.injEq] at h
              obtain rfl : y :: yrest = ys := by simpa using h
              rw [List.mapM_cons, aliasElem_idem x y hx, ih yrest hr]
              rfl

theorem aliasStep_dGet_other (p p' : Dict) (k : String)
    (h : aliasStep p = some p') (hk : k ≠ "dataset_types") :
    dGet p' k = dGet p k := by
  unfold aliasStep at h
  cases hg : dGet p "dataset_types" with
  | none =>
      rw [hg] at h
      obtain rfl : p = p' := by simpa using h
      rfl
  | some v =>
      rw [hg] at h
      cases v with
      | s t =>
          obtain rfl : dUpsert p "dataset_types" (.l [.s (alias_map t)]) = p' := by
            simpa using h
          exact dGet_upsert_ne p _ k _ hk
      | i n =>
          obtain rfl : p = p' := by simpa using h
          rfl
      | d m =>
          obtain rfl : p = p' := by simpa using h
          rfl
      | l xs =>
          dsimp only at h
          cases hm : xs.mapM aliasElem with
          | none => rw [hm] at h; simp at h
          | some ys =>
              rw [hm] at h
              obtain rfl : dUpsert p "dataset_types" (.l ys) = p' := by
                simpa using h
              exact dGet_upsert_ne p _ k _ hk

theorem aliasStep_nodup (p p' : Dict) (h : aliasStep p = some p')
    (hnd : (p.map Prod.fst).Nodup) : (p'.map Prod.fst).Nodup := by
  unfold aliasStep at h
  cases hg : dGet p "dataset_types" with
  | none =>
      rw [hg] at h
      obtain rfl : p = p' := by simpa using h
      exact hnd
  | some v =>
      rw [hg] at h
      cases v with
      | s t =>
          obtain rfl : dUpsert p "dataset_types" (.l [.s (alias_map t)]) = p' := by
            simpa using h
          exact nodup_upsert p _ _ hnd
      | i n =>
          obtain rfl : p = p' := by simpa using h
          exact hnd
      | d m =>
          obtain rfl : p = p' := by simpa using h
          exact hnd
      | l xs =>
          dsimp only at h
          cases hm : xs.mapM aliasElem with
          | none => rw [hm] at h; simp at h
          | some ys =>
              rw [hm] at h
              obtain rfl : dUpsert p "dataset_types" (.l ys) = p' := by
                simpa using h
              exact nodup_upsert p _ _ hnd

/-- The value invariant `dataset_types` satisfies after the alias
normalization, and which every later update preserves. -/
def DT (p : Dict) : Prop :=
  (∀ t, dGet p "dataset_types" ≠ some (.s t)) ∧
  (∀ xs, dGet p "dataset_types" = some (.l xs) → xs.mapM aliasElem = some xs)

theorem DT_congr (p p' : Dict)
    (h : dGet p' "dataset_types" = dGet p "dataset_types") (hd : DT p) :
    DT p' := by
  constructor
  · intro t; rw [h]; exact hd.1 t
  · intro xs hxs; rw [h] at hxs; exact hd.2 xs hxs

theorem DT_of_bv_get (p : Dict)
    (h : dGet p "dataset_types" = some (.l [.s "boot-time-verbose"])) :
    DT p := by
  constructor
  · intro t; rw [h]; simp
  · intro xs hxs
    rw [h] at hxs
    obtain rfl : ([.s "boot-time-verbose"] : List JVal) = xs := by
      simpa using hxs
    rfl

theorem DT_upsert_bv (p : Dict) :
    DT (dUpsert p "dataset_types" (.l [.s "boot-time-verbose"])) :=
  DT_of_bv_get _ (dGet_upsert_self p _ _)

theorem aliasStep_DT (p p' : Dict) (h : aliasStep p = some p') : DT p' := by
  unfold aliasStep at h
  cases hg : dGet p "dataset_types" with
  | none =>
      rw [hg] at h
      obtain rfl : p = p' := by simpa using h
      exact ⟨fun t => by rw [hg]; simp, fun xs hxs => by rw [hg] at hxs; simp at hxs⟩
  | some v =>
      rw [hg] at h
      cases v with
      | s t =>
          obtain rfl : dUpsert p "dataset_types" (.l [.s (alias_map t)]) = p' := by
            simpa using h
          constructor
          · intro t'; rw [dGet_upsert_self]; simp
          · intro xs hxs
            rw [dGet_upsert_self] at hxs
            obtain rfl : ([.s (alias_map t)] : List JVal) = xs := by
              simpa using hxs
            simp only [List.mapM_cons, List.mapM_nil, aliasElem,
              alias_map_idem, Option.pure_def, Option.bind_eq_bind,
              Option.some_bind]
      | i n =>
          obtain rfl : p = p' := by simpa using h
          exact ⟨fun t => by rw [hg]; simp, fun xs hxs => by
            rw [hg] at hxs; simp at hxs⟩
      | d m =>
          obtain rfl : p = p' := by simpa using h
          exact ⟨fun t => by rw [hg]; simp, fun xs hxs => by
            rw [hg] at hxs; simp at hxs⟩
      | l xs =>
          dsimp only at h
          cases hm : xs.mapM aliasElem with
          | none => rw [hm] at h; simp at h
          | some ys =>
              rw [hm] at h
              obtain rfl : dUpsert p "dataset_types" (.l ys) = p' := by
                simpa using h
              constructor
              · intro t'; rw [dGet_upsert_self]; simp
              · intro zs hzs
                rw [dGet_upsert_self] at hzs
                obtain rfl : ys = zs := by simpa using hzs
                exact mapM_aliasElem_idem xs ys hm

end Normalize

namespace Normalize

theorem osApply_dGet_other (osv : String) (p : Dict) (k : String)
    (h1 : k ≠ "_detected_os_filter") (h2 : k ≠ "dataset_types") :
    dGet (osApply osv p) k = dGet p k := by
  unfold osApply
  by_cases h0 : osv = ""
  · rw [if_pos h0]
  · rw [if_neg h0]
    dsimp only
    by_cases hdt : getTruthy
        (dUpsert p "_detected_os_filter" (.s (os_alias_map osv)))
        "dataset_types" = true
    · rw [if_pos hdt, dGet_upsert_ne _ _ k _ h1]
    · rw [if_neg hdt, dGet_upsert_ne _ _ k _ h2, dGet_upsert_ne _ _ k _ h1]

theorem osApply_nodup (osv : String) (p : Dict)
    (hnd : (p.map Prod.fst).Nodup) :
    ((osApply osv p).map Prod.fst).Nodup := by
  unfold osApply
  by_cases h0 : osv = ""
  · rw [if_pos h0]; exact hnd
  · rw [if_neg h0]
    dsimp only
    by_cases hdt : getTruthy
        (dUpsert p "_detected_os_filter" (.s (os_alias_map osv)))
        "dataset_types" = true
    · rw [if_pos hdt]; exact nodup_upsert p _ _ hnd
    · rw [if_neg hdt]; exact nodup_upsert _ _ _ (nodup_upsert p _ _ hnd)

theorem osApply_DT (osv : String) (p : Dict) (hd : DT p) :
    DT (osApply osv p) := by
  unfold osApply
  by_cases h0 : osv = ""
  · rw [if_pos h0]; exact hd
  · rw [if_neg h0]
    dsimp only
    by_cases hdt : getTruthy
        (dUpsert p "_detected_os_filter" (.s (os_alias_map osv)))
        "dataset_types" = true
    · rw [if_pos hdt]
      exact DT_congr p _ (dGet_upsert_ne p _ _ _ (by decide)) hd
    · rw [if_neg hdt]
      exact DT_upsert_bv _

theorem osApply_post (osv : String) (p : Dict) (h : osv ≠ "") :
    dGet (osApply osv p) "_detected_os_filter" =
        some (.s (os_alias_map osv)) ∧
      getTruthy (osApply osv p) "dataset_types" = true := by
  unfold osApply
  rw [if_neg h]
  dsimp only
  by_cases hdt : getTruthy
      (dUpsert p "_detected_os_filter" (.s (os_alias_map osv)))
      "dataset_types" = true
  · rw [if_pos hdt]
    exact ⟨dGet_upsert_self p _ _, hdt⟩
  · rw [if_neg hdt]
    constructor
    · rw [dGet_upsert_ne _ "dataset_types" _ _ (by decide)]
      exact dGet_upsert_self p _ _
    · unfold getTruthy
      rw [dGet_upsert_self]
      rfl

theorem osStep_elim (p p' : Dict) (h : osStep p = some p') :
    ∃ osv, pyLowerOfGet p "os_id" = some osv ∧ p' = osApply osv p := by
  unfold osStep at h
  cases hg : pyLowerOfGet p "os_id" with
  | none => rw [hg] at h; simp at h
  | some osv =>
      rw [hg] at h
      exact ⟨osv, rfl, by simpa using h.symm⟩

theorem detectOsOnTest_not_os (tv : String) (p : Dict)
    (h : tv ∉ known_os_identifiers) : detectOsOnTest tv p = p := by
  unfold detectOsOnTest
  rw [if_neg h]

theorem detectOsOnTest_dGet_other (tv : String) (p : Dict) (k : String)
    (h1 : k ≠ "test_id") (h2 : k ≠ "dataset_types")
    (h3 : k ≠ "_detected_os_filter") :
    dGet (detectOsOnTest tv p) k = dGet p k := by
  unfold detectOsOnTest
  by_cases hin : tv ∈ known_os_identifiers
  · rw [if_pos hin]
    dsimp only
    by_cases hdt : getTruthy p "dataset_types" = true
    · rw [if_pos hdt, dGet_upsert_ne _ _ k _ h3, dGet_pop_ne _ _ k h1]
    · rw [if_neg hdt, dGet_upsert_ne _ _ k _ h3, dGet_pop_ne _ _ k h1,
        dGet_upsert_ne _ _ k _ h2]
  · rw [if_neg hin]

theorem detectOsOnTest_nodup (tv : String) (p : Dict)
    (hnd : (p.map Prod.fst).Nodup) :
    ((detectOsOnTest tv p).map Prod.fst).Nodup := by
  unfold detectOsOnTest
  by_cases hin : tv ∈ known_os_identifiers
  · rw [if_pos hin]
    dsimp only
    by_cases hdt : getTruthy p "dataset_types" = true
    · rw [if_pos hdt]
      exact nodup_upsert _ _ _ (nodup_pop _ _ hnd)
    · rw [if_neg hdt]
      exact nodup_upsert _ _ _ (nodup_pop _ _ (nodup_upsert p _ _ hnd))
  · rw [if_neg hin]; exact hnd

theorem detectOsOnTest_popped (tv : String) (p : Dict)
    (hin : tv ∈ known_os_identifiers) (hnd : (p.map Prod.fst).Nodup) :
    dGet (detectOsOnTest tv p) "test_id" = Option.none := by
  unfold detectOsOnTest
  rw [if_pos hin]
  dsimp only
  by_cases hdt : getTruthy p "dataset_types" = true
  · rw [if_pos hdt, dGet_upsert_ne _ _ _ _ (by decide)]
    exact dGet_pop_self p _ hnd
  · rw [if_neg hdt, dGet_upsert_ne _ _ _ _ (by decide)]
    exact dGet_pop_self _ _ (nodup_upsert p _ _ hnd)

theorem detectOsOnTest_testid (tv : String) (p : Dict)
    (hnd : (p.map Prod.fst).Nodup) :
    dGet (detectOsOnTest tv p) "test_id" = dGet p "test_id" ∨
      dGet (detectOsOnTest tv p) "test_id" = Option.none := by
  by_cases hin : tv ∈ known_os_identifiers
  · exact Or.inr (detectOsOnTest_popped tv p hin hnd)
  · rw [detectOsOnTest_not_os tv p hin]
    exact Or.inl rfl

theorem detectOsOnTest_DT (tv : String) (p : Dict) (hd : DT p) :
    DT (detectOsOnTest tv p) := by
  unfold detectOsOnTest
  by_cases hin : tv ∈ known_os_identifiers
  · rw [if_pos hin]
    dsimp only
    by_cases hdt : getTruthy p "dataset_types" = true
    · rw [if_pos hdt]
      refine DT_congr p _ ?_ hd
      rw [dGet_upsert_ne _ _ _ _ (by decide), dGet_pop_ne _ _ _ (by decide)]
    · rw [if_neg hdt]
      refine DT_of_bv_get _ ?_
      rw [dGet_upsert_ne _ _ _ _ (by decide), dGet_pop_ne _ _ _ (by decide)]
      exact dGet_upsert_self p _ _
  · rw [if_neg hin]; exact hd

theorem detectStep_elim (p p' : Dict) (h : detectStep p = some p') :
    ∃ tv, pyLowerOfGet p "test_id" = some tv ∧
      p' = detectScan (detectRunTypeOnTest tv
        (detectRunTypeExplicit (detectOsOnTest tv p))) := by
  unfold detectStep at h
  cases hg : pyLowerOfGet p "test_id" with
  | none => rw [hg] at h; simp at h
  | some tv =>
      rw [hg] at h
      exact ⟨tv, rfl, by simpa using h.symm⟩

end Normalize

namespace Normalize

theorem detectRunTypeExplicit_dGet_other (p : Dict) (k : String)
    (h1 : k ≠ "run_type") (h2 : k ≠ "runType")
    (h3 : k ≠ "_detected_run_type") :
    dGet (detectRunTypeExplicit p) k = dGet p k := by
  unfold detectRunTypeExplicit
  by_cases hg : (dMem p "run_type" || dMem p "runType") = true
  · rw [if_pos hg]
    split
    next v hv =>
      by_cases ht : truthy v = true
      · rw [if_pos ht]
        dsimp only
        rw [dGet_pop_ne _ _ k h2, dGet_pop_ne _ _ k h1,
          dGet_upsert_ne _ _ k _ h3]
      · rw [if_neg ht]
    next hv => rfl
  · rw [if_neg hg]

theorem detectRunTypeExplicit_nodup (p : Dict)
    (hnd : (p.map Prod.fst).Nodup) :
    ((detectRunTypeExplicit p).map Prod.fst).Nodup := by
  unfold detectRunTypeExplicit
  by_cases hg : (dMem p "run_type" || dMem p "runType") = true
  · rw [if_pos hg]
    split
    next v hv =>
      by_cases ht : truthy v = true
      · rw [if_pos ht]
        dsimp only
        exact nodup_pop _ _ (nodup_pop _ _ (nodup_upsert p _ _ hnd))
      · rw [if_neg ht]; exact hnd
    next hv => exact hnd
  · rw [if_neg hg]; exact hnd

theorem detectRunTypeExplicit_cases (p : Dict)
    (hnd : (p.map Prod.fst).Nodup) :
    (dGet (detectRunTypeExplicit p) "run_type" = Option.none ∧
      dGet (detectRunTypeExplicit p) "runType" = Option.none) ∨
    (detectRunTypeExplicit p = p ∧
      ∀ v, runTypeOrVal p = some v → truthy v = false) := by
  unfold detectRunTypeExplicit
  by_cases hg : (dMem p "run_type" || dMem p "runType") = true
  · rw [if_pos hg]
    split
    next v hv =>
      by_cases ht : truthy v = true
      · rw [if_pos ht]
        dsimp only
        left
        constructor
        · rw [dGet_pop_ne _ "runType" "run_type" (by decide)]
          exact dGet_pop_self _ _ (nodup_upsert p _ _ hnd)
        · exact dGet_pop_self _ _
            (nodup_pop _ _ (nodup_upsert p _ _ hnd))
      · rw [if_neg ht]
        right
        refine ⟨rfl, fun v' hv' => ?_⟩
        rw [hv] at hv'
        obtain rfl : v = v' := by simpa using hv'
        simpa using ht
    next hv =>
      right
      refine ⟨rfl, fun v hv' => ?_⟩
      rw [hv] at hv'
      exact absurd hv' (by simp)
  · rw [if_neg hg]
    right
    refine ⟨rfl, fun v hv' => ?_⟩
    exfalso
    simp only [Bool.or_eq_true, not_or, Bool.not_eq_true] at hg
    unfold runTypeOrVal at hv'
    rw [dGet_none_of_dMem_false p "run_type" hg.1,
      dGet_none_of_dMem_false p "runType" hg.2] at hv'
    exact absurd hv' (by simp)

theorem detectRunTypeExplicit_not_fired (p : Dict)
    (h : dMem (detectRunTypeExplicit p) "_detected_run_type" = false) :
    detectRunTypeExplicit p = p := by
  unfold detectRunTypeExplicit at h ⊢
  by_cases hg : (dMem p "run_type" || dMem p "runType") = true
  · rw [if_pos hg] at h ⊢
    split
    next v hv =>
      by_cases ht : truthy v = true
      · exfalso
        rw [hv] at h
        simp only [ht, if_true] at h
        rw [dMem_pop_ne _ _ _ (by decide), dMem_pop_ne _ _ _ (by decide),
          dMem_upsert_self] at h
        simp at h
      · rw [if_neg ht]
    next hv => rfl
  · rw [if_neg hg]

end Normalize

namespace Normalize

theorem detectRunTypeOnTest_dGet_other (tv : String) (p : Dict)
    (k : String) (h1 : k ≠ "test_id") (h2 : k ≠ "_detected_run_type")
    (h3 : k ≠ "dataset_types") :
    dGet (detectRunTypeOnTest tv p) k = dGet p k := by
  unfold detectRunTypeOnTest
  split
  · dsimp only
    split
    · rw [dGet_pop_ne _ _ k h1, dGet_upsert_ne _ _ k _ h2]
    · rw [dGet_upsert_ne _ _ k _ h3, dGet_pop_ne _ _ k h1,
        dGet_upsert_ne _ _ k _ h2]
  · rfl

theorem detectRunTypeOnTest_nodup (tv : String) (p : Dict)
    (hnd : (p.map Prod.fst).Nodup) :
    ((detectRunTypeOnTest tv p).map Prod.fst).Nodup := by
  unfold detectRunTypeOnTest
  split
  · dsimp only
    split
    · exact nodup_pop _ _ (nodup_upsert p _ _ hnd)
    · exact nodup_upsert _ _ _ (nodup_pop _ _ (nodup_upsert p _ _ hnd))
  · exact hnd

theorem detectRunTypeOnTest_testid (tv : String) (p : Dict)
    (hnd : (p.map Prod.fst).Nodup) :
    dGet (detectRunTypeOnTest tv p) "test_id" = dGet p "test_id" ∨
      dGet (detectRunTypeOnTest tv p) "test_id" = Option.none := by
  unfold detectRunTypeOnTest
  split
  · right
    dsimp only
    split
    · exact dGet_pop_self _ _ (nodup_upsert p _ _ hnd)
    · rw [dGet_upsert_ne _ _ _ _ (by decide)]
      exact dGet_pop_self _ _ (nodup_upsert p _ _ hnd)
  · left; rfl

theorem detectRunTypeOnTest_not_fired (tv : String) (p : Dict)
    (h : dMem (detectRunTypeOnTest tv p) "_detected_run_type" = false) :
    detectRunTypeOnTest tv p = p ∧
      dMem p "_detected_run_type" = false ∧ tv ∉ known_run_types := by
  unfold detectRunTypeOnTest at h ⊢
  split at h
  next hguard =>
    exfalso
    dsimp only at h
    split at h
    · rw [dMem_pop_ne _ _ _ (by decide), dMem_upsert_self] at h
      simp at h
    · rw [dMem_upsert_ne _ _ _ _ (by decide), dMem_pop_ne _ _ _ (by decide),
        dMem_upsert_self] at h
      simp at h
  next hguard =>
    refine ⟨by rw [if_neg hguard], h, ?_⟩
    intro hin
    apply hguard
    rw [h]
    simp [hin]

theorem detectRunTypeOnTest_DT (tv : String) (p : Dict) (hd : DT p) :
    DT (detectRunTypeOnTest tv p) := by
  unfold detectRunTypeOnTest
  split
  · dsimp only
    split
    · refine DT_congr p _ ?_ hd
      rw [dGet_pop_ne _ _ _ (by decide), dGet_upsert_ne _ _ _ _ (by decide)]
    · exact DT_upsert_bv _
  · exact hd

theorem detectRunTypeOnTest_getTruthy (tv : String) (p : Dict)
    (h : getTruthy p "dataset_types" = true) :
    getTruthy (detectRunTypeOnTest tv p) "dataset_types" = true := by
  unfold detectRunTypeOnTest
  split
  · dsimp only
    have hfr : dGet (dPop (dUpsert p "_detected_run_type" (.s tv)) "test_id")
        "dataset_types" = dGet p "dataset_types" := by
      rw [dGet_pop_ne _ _ _ (by decide), dGet_upsert_ne _ _ _ _ (by decide)]
    have h2 : getTruthy (dPop (dUpsert p "_detected_run_type" (.s tv))
        "test_id") "dataset_types" = true := by
      rw [getTruthy_congr _ p _ hfr]
      exact h
    rw [if_pos h2]
    exact h2
  · exact h

theorem scanKey_dGet_other (p : Dict) (key k : String)
    (h1 : k ≠ "_detected_run_type") (h2 : k ≠ "test_id")
    (h3 : k ≠ "dataset_types") :
    dGet (scanKey p key) k = dGet p k := by
  unfold scanKey
  split
  next rt hf =>
    dsimp only
    split
    next hk =>
      split
      · rw [dGet_pop_ne _ _ k h2, dGet_upsert_ne _ _ k _ h1]
      · rw [dGet_upsert_ne _ _ k _ h3, dGet_pop_ne _ _ k h2,
          dGet_upsert_ne _ _ k _ h1]
    next hk => rw [dGet_upsert_ne _ _ k _ h1]
  next hf => rfl

theorem scanKey_nodup (p : Dict) (key : String)
    (hnd : (p.map Prod.fst).Nodup) :
    ((scanKey p key).map Prod.fst).Nodup := by
  unfold scanKey
  split
  next rt hf =>
    dsimp only
    split
    next hk =>
      split
      · exact nodup_pop _ _ (nodup_upsert p _ _ hnd)
      · exact nodup_upsert _ _ _ (nodup_pop _ _ (nodup_upsert p _ _ hnd))
    next hk => exact nodup_upsert p _ _ hnd
  next hf => exact hnd

theorem scanKey_testid (p : Dict) (key : String)
    (hnd : (p.map Prod.fst).Nodup) :
    dGet (scanKey p key) "test_id" = dGet p "test_id" ∨
      dGet (scanKey p key) "test_id" = Option.none := by
  unfold scanKey
  split
  next rt hf =>
    dsimp only
    split
    next hk =>
      right
      split
      · exact dGet_pop_self _ _ (nodup_upsert p _ _ hnd)
      · rw [dGet_upsert_ne _ _ _ _ (by decide)]
        exact dGet_pop_self _ _ (nodup_upsert p _ _ hnd)
    next hk =>
      left
      rw [dGet_upsert_ne _ _ _ _ (by decide)]
  next hf => left; rfl

theorem scanKey_not_fired (p : Dict) (key : String)
    (h : dMem (scanKey p key) "_detected_run_type" = false) :
    scanKey p key = p ∧
      known_run_types.find?
        (fun rt => BootTime.strContains rt (scanVal p key)) = Option.none := by
  unfold scanKey at h ⊢
  split at h
  next rt hf =>
    exfalso
    dsimp only at h
    split at h
    next hk =>
      split at h
      · rw [dMem_pop_ne _ _ _ (by decide), dMem_upsert_self] at h
        simp at h
      · rw [dMem_upsert_ne _ _ _ _ (by decide), dMem_pop_ne _ _ _ (by decide),
          dMem_upsert_self] at h
        simp at h
    next hk =>
      rw [dMem_upsert_self] at h
      simp at h
  next hf =>
    rw [hf]
    exact ⟨rfl, rfl⟩

theorem scanKey_DT (p : Dict) (key : String) (hd : DT p) :
    DT (scanKey p key) := by
  unfold scanKey
  split
  next rt hf =>
    dsimp only
    split
    next hk =>
      split
      · refine DT_congr p _ ?_ hd
        rw [dGet_pop_ne _ _ _ (by decide), dGet_upsert_ne _ _ _ _ (by decide)]
      · exact DT_upsert_bv _
    next hk =>
      refine DT_congr p _ ?_ hd
      exact dGet_upsert_ne _ _ _ _ (by decide)
  next hf => exact hd

theorem scanKey_getTruthy (p : Dict) (key : String)
    (h : getTruthy p "dataset_types" = true) :
    getTruthy (scanKey p key) "dataset_types" = true := by
  unfold scanKey
  split
  next rt hf =>
    dsimp only
    split
    next hk =>
      have hfr : dGet (dPop (dUpsert p "_detected_run_type" (.s rt))
          "test_id") "dataset_types" = dGet p "dataset_types" := by
        rw [dGet_pop_ne _ _ _ (by decide), dGet_upsert_ne _ _ _ _ (by decide)]
      have h2 : getTruthy (dPop (dUpsert p "_detected_run_type" (.s rt))
          "test_id") "dataset_types" = true := by
        rw [getTruthy_congr _ p _ hfr]
        exact h
      rw [if_pos h2]
      exact h2
    next hk =>
      have hfr : dGet (dUpsert p "_detected_run_type" (.s rt))
          "dataset_types" = dGet p "dataset_types" :=
        dGet_upsert_ne _ _ _ _ (by decide)
      rw [getTruthy_congr _ p _ hfr]
      exact h
  next hf => exact h

theorem detectScan_dGet_other (p : Dict) (k : String)
    (h1 : k ≠ "test_id") (h2 : k ≠ "_detected_run_type")
    (h3 : k ≠ "dataset_types") :
    dGet (detectScan p) k = dGet p k := by
  unfold detectScan
  split
  · rfl
  · rw [scanKey_dGet_other _ _ k h2 h1 h3, scanKey_dGet_other _ _ k h2 h1 h3]

theorem detectScan_nodup (p : Dict) (hnd : (p.map Prod.fst).Nodup) :
    ((detectScan p).map Prod.fst).Nodup := by
  unfold detectScan
  split
  · exact hnd
  · exact scanKey_nodup _ _ (scanKey_nodup _ _ hnd)

theorem detectScan_testid (p : Dict) (hnd : (p.map Prod.fst).Nodup) :
    dGet (detectScan p) "test_id" = dGet p "test_id" ∨
      dGet (detectScan p) "test_id" = Option.none := by
  unfold detectScan
  split
  · left; rfl
  · rcases scanKey_testid (scanKey p "test_id") "schema_uri"
        (scanKey_nodup _ _ hnd) with ho | ho
    · rcases scanKey_testid p "test_id" hnd with hi | hi
      · left; rw [ho, hi]
      · right; rw [ho, hi]
    · right; exact ho

theorem detectScan_DT (p : Dict) (hd : DT p) : DT (detectScan p) := by
  unfold detectScan
  split
  · exact hd
  · exact scanKey_DT _ _ (scanKey_DT _ _ hd)

theorem detectScan_getTruthy (p : Dict)
    (h : getTruthy p "dataset_types" = true) :
    getTruthy (detectScan p) "dataset_types" = true := by
  unfold detectScan
  split
  · exact h
  · exact scanKey_getTruthy _ _ (scanKey_getTruthy _ _ h)

theorem detectScan_not_fired (p : Dict)
    (h : dMem (detectScan p) "_detected_run_type" = false) :
    detectScan p = p ∧ dMem p "_detected_run_type" = false ∧
      ∀ rt ∈ known_run_types,
        BootTime.strContains rt (scanVal p "test_id") = false ∧
        BootTime.strContains rt (scanVal p "schema_uri") = false := by
  unfold detectScan at h ⊢
  split at h
  next hg =>
    rw [hg] at h
    exact absurd h (by simp)
  next hg =>
    obtain ⟨ho, hfo⟩ := scanKey_not_fired (scanKey p "test_id") "schema_uri" h
    rw [ho] at h
    obtain ⟨hi, hfi⟩ := scanKey_not_fired p "test_id" h
    have hm : dMem p "_detected_run_type" = false := by rwa [hi] at h
    refine ⟨?_, hm, ?_⟩
    · rw [if_neg hg, ho, hi]
    · intro rt hrt
      constructor
      · have := List.find?_eq_none.mp hfi rt hrt
        simpa using this
      · have hfo' := hfo
        rw [hi] at hfo'
        have := List.find?_eq_none.mp hfo' rt hrt
        simpa using this

end Normalize

namespace Normalize

theorem limitStep_dGet_other (p : Dict) (k : String) (hk : k ≠ "limit") :
    dGet (limitStep p) k = dGet p k := by
  unfold limitStep
  split
  · rfl
  · exact dGet_upsert_ne p _ k _ hk

theorem limitStep_nodup (p : Dict) (hnd : (p.map Prod.fst).Nodup) :
    ((limitStep p).map Prod.fst).Nodup := by
  unfold limitStep
  split
  · exact hnd
  · exact nodup_upsert p _ _ hnd

theorem limitStep_post (p : Dict) :
    dMem (limitStep p) "limit" = true ∧
      (dGet (limitStep p) "limit" = dGet p "limit" ∨
        dGet (limitStep p) "limit" = some (.i 100)) := by
  unfold limitStep
  split
  next hmem => exact ⟨hmem, Or.inl rfl⟩
  next hmem => exact ⟨dMem_upsert_self p _ _, Or.inr (dGet_upsert_self p _ _)⟩

theorem removeUnsupported_dGet_other (p : Dict) (k : String)
    (h1 : k ≠ "output_format") (h2 : k ≠ "table_format") :
    dGet (removeUnsupported p) k = dGet p k := by
  unfold removeUnsupported
  rw [dGet_pop_ne _ _ k h2, dGet_pop_ne _ _ k h1]

theorem removeUnsupported_nodup (p : Dict)
    (hnd : (p.map Prod.fst).Nodup) :
    ((removeUnsupported p).map Prod.fst).Nodup :=
  nodup_pop _ _ (nodup_pop _ _ hnd)

theorem removeUnsupported_post (p : Dict) (hnd : (p.map Prod.fst).Nodup) :
    dGet (removeUnsupported p) "output_format" = Option.none ∧
      dGet (removeUnsupported p) "table_format" = Option.none := by
  constructor
  · unfold removeUnsupported
    rw [dGet_pop_ne _ _ _ (by decide)]
    exact dGet_pop_self p _ hnd
  · exact dGet_pop_self _ _ (nodup_pop _ _ hnd)

theorem lower_empty (t : String)
    (h : String.mk (t.toList.map Char.toLower) = "") : t = "" := by
  obtain ⟨l⟩ := t
  have h1 : l.map Char.toLower = [] := congrArg String.data h
  have h2 : l = [] := by simpa using h1
  rw [h2]

theorem normalize_elim (clock : Nat → String) (raw q : Dict)
    (hp : dMem raw "params" = false) (ha : dMem raw "args" = false)
    (hsyn : ∀ o ∈ synOlds, dMem raw o = false)
    (hrun : normalize_get_key_metrics_params clock raw = some q) :
    ∃ p5 p6 p7 osv tv,
      aliasStep (relDatesStep clock (coerceStep raw)) = some p5 ∧
      pyLowerOfGet p5 "os_id" = some osv ∧ p6 = osApply osv p5 ∧
      pyLowerOfGet p6 "test_id" = some tv ∧
      p7 = detectScan (detectRunTypeOnTest tv
        (detectRunTypeExplicit (detectOsOnTest tv p6))) ∧
      q = removeUnsupported (limitStep p7) := by
  unfold normalize_get_key_metrics_params at hrun
  rw [unwrapParams_fix raw hp] at hrun
  simp only [Option.bind_eq_bind, Option.some_bind] at hrun
  rw [unwrapArgs_fix raw ha, synonymsStep_id raw hsyn] at hrun
  cases h5 : aliasStep (relDatesStep clock (coerceStep raw)) with
  | none => rw [h5] at hrun; simp at hrun
  | some p5 =>
      rw [h5] at hrun
      simp only [Option.some_bind] at hrun
      cases h6 : osStep p5 with
      | none => rw [h6] at hrun; simp at hrun
      | some p6 =>
          rw [h6] at hrun
          simp only [Option.some_bind] at hrun
          cases h7 : detectStep p6 with
          | none => rw [h7] at hrun; simp at hrun
          | some p7 =>
              rw [h7] at hrun
              obtain ⟨osv, hosv, hp6⟩ := osStep_elim p5 p6 h6
              obtain ⟨tv, htv, hp7⟩ := detectStep_elim p6 p7 h7
              exact ⟨p5, p6, p7, osv, tv, rfl, hosv, hp6, htv, hp7,
                by simpa using hrun.symm⟩

end Normalize

namespace Normalize

theorem pyLowerOfGet_inv (p : Dict) (k : String) (osv : String)
    (h : pyLowerOfGet p k = some osv) :
    (dGet p k = Option.none ∧ osv = "") ∨
    (∃ t, dGet p k = some (.s t) ∧
      osv = String.mk (t.toList.map Char.toLower)) := by
  unfold pyLowerOfGet at h
  cases hg : dGet p k with
  | none =>
      rw [hg] at h
      left
      exact ⟨rfl, by simpa using h.symm⟩
  | some w =>
      rw [hg] at h
      cases w with
      | s t => right; exact ⟨t, rfl, by simpa using h.symm⟩
      | i n => exact absurd h (by simp)
      | l xs => exact absurd h (by simp)
      | d m => exact absurd h (by simp)

/-- The keys written or removed by some pipeline step after the
unwrapping and synonym stages. -/
def pipelineTouched : List String :=
  ["test_id", "run_id", "limit", "from", "to", "dataset_types",
   "_detected_os_filter", "run_type", "runType", "_detected_run_type",
   "output_format", "table_format"]

end Normalize

namespace Normalize

set_option maxHeartbeats 1000000 in
theorem normalized_of_run (clock : Nat → String) (raw q : Dict)
    (hnd : (raw.map Prod.fst).Nodup)
    (hp : dMem raw "params" = false) (ha : dMem raw "args" = false)
    (hsyn : ∀ o ∈ synOlds, dMem raw o = false)
    (hclock : ∀ n, isNowStr (clock n) = false ∧
      parseDaysAgo (clock n) = Option.none ∧
      parseDd (clock n) = Option.none)
    (hconf : getTruthy raw "os_id" = true →
      ∀ tv, pyLowerOfGet (coerceStep raw) "test_id" = some tv →
        tv ∉ known_os_identifiers)
    (hrun : normalize_get_key_metrics_params clock raw = some q) :
    IsNormalized clock q := by
  obtain ⟨p5, p6, p7, osv, tv, h5, hosv, hp6, htv, hp7, hq⟩ :=
    normalize_elim clock raw q hp ha hsyn hrun
  -- nodup along the pipeline
  have hnd3 : ((coerceStep raw).map Prod.fst).Nodup := coerceStep_nodup raw hnd
  have hnd4 : ((relDatesStep clock (coerceStep raw)).map Prod.fst).Nodup :=
    relDatesStep_nodup clock _ hnd3
  have hnd5 : (p5.map Prod.fst).Nodup := aliasStep_nodup _ p5 h5 hnd4
  have hnd6 : (p6.map Prod.fst).Nodup := by
    rw [hp6]; exact osApply_nodup osv p5 hnd5
  have hnda : ((detectOsOnTest tv p6).map Prod.fst).Nodup :=
    detectOsOnTest_nodup tv p6 hnd6
  have hndb : ((detectRunTypeExplicit (detectOsOnTest tv p6)).map
      Prod.fst).Nodup := detectRunTypeExplicit_nodup _ hnda
  have hndc : ((detectRunTypeOnTest tv (detectRunTypeExplicit
      (detectOsOnTest tv p6))).map Prod.fst).Nodup :=
    detectRunTypeOnTest_nodup tv _ hndb
  have hnd7 : (p7.map Prod.fst).Nodup := by
    rw [hp7]; exact detectScan_nodup _ hndc
  have hndr : ((limitStep p7).map Prod.fst).Nodup := limitStep_nodup _ hnd7
  have hndq : (q.map Prod.fst).Nodup := by
    rw [hq]; exact removeUnsupported_nodup _ hndr
  -- frame for keys no pipeline step touches
  have hframe : ∀ k, k ∉ pipelineTouched → dGet q k = dGet raw k := by
    intro k hk
    have ne : ∀ s, s ∈ pipelineTouched → k ≠ s := fun s hs he => hk (he ▸ hs)
    rw [hq,
      removeUnsupported_dGet_other _ k (ne _ (by decide)) (ne _ (by decide)),
      limitStep_dGet_other _ k (ne _ (by decide)),
      hp7,
      detectScan_dGet_other _ k (ne _ (by decide)) (ne _ (by decide))
        (ne _ (by decide)),
      detectRunTypeOnTest_dGet_other tv _ k (ne _ (by decide))
        (ne _ (by decide)) (ne _ (by decide)),
      detectRunTypeExplicit_dGet_other _ k (ne _ (by decide))
        (ne _ (by decide)) (ne _ (by decide)),
      detectOsOnTest_dGet_other tv _ k (ne _ (by decide)) (ne _ (by decide))
        (ne _ (by decide)),
      hp6,
      osApply_dGet_other osv _ k (ne _ (by decide)) (ne _ (by decide)),
      aliasStep_dGet_other _ p5 k h5 (ne _ (by decide)),
      relDatesStep_dGet_other clock _ k (ne _ (by decide)) (ne _ (by decide)),
      coerceStep_dGet_other raw k (ne _ (by decide)) (ne _ (by decide))
        (ne _ (by decide))]
  -- value chains for the touched keys
  have htid_q7 : dGet q "test_id" = dGet p7 "test_id" := by
    rw [hq, removeUnsupported_dGet_other _ _ (by decide) (by decide),
      limitStep_dGet_other _ _ (by decide)]
  have htid63 : dGet p6 "test_id" = dGet (coerceStep raw) "test_id" := by
    rw [hp6, osApply_dGet_other osv _ _ (by decide) (by decide),
      aliasStep_dGet_other _ p5 _ h5 (by decide),
      relDatesStep_dGet_other clock _ _ (by decide) (by decide)]
  have htid3 : dGet (coerceStep raw) "test_id" =
      dGet (coerceTestId raw) "test_id" := by
    show dGet (coerceLimit (coerceRunId (coerceTestId raw))) "test_id" = _
    rw [coerceLimit_dGet_other _ _ (by decide),
      coerceRunId_dGet_other _ _ (by decide)]
  have hdisj : dGet p7 "test_id" = dGet p6 "test_id" ∨
      dGet p7 "test_id" = Option.none := by
    rw [hp7]
    rcases detectScan_testid _ hndc with h4 | h4
    · rw [h4]
      rcases detectRunTypeOnTest_testid tv _ hndb with h3 | h3
      · rw [h3,
          detectRunTypeExplicit_dGet_other _ _ (by decide) (by decide)
            (by decide)]
        exact detectOsOnTest_testid tv p6 hnd6
      · right; exact h3
    · right; exact h4
  have hp7none : tv ∈ known_os_identifiers →
      dGet p7 "test_id" = Option.none := by
    intro hkos
    have ha0 : dGet (detectOsOnTest tv p6) "test_id" = Option.none :=
      detectOsOnTest_popped tv p6 hkos hnd6
    have hb0 : dGet (detectRunTypeExplicit (detectOsOnTest tv p6))
        "test_id" = Option.none := by
      rw [detectRunTypeExplicit_dGet_other _ _ (by decide) (by decide)
        (by decide)]
      exact ha0
    have hc0 : dGet (detectRunTypeOnTest tv (detectRunTypeExplicit
        (detectOsOnTest tv p6))) "test_id" = Option.none := by
      rcases detectRunTypeOnTest_testid tv _ hndb with h | h
      · rw [h]; exact hb0
      · exact h
    rw [hp7]
    rcases detectScan_testid _ hndc with h | h
    · rw [h]; exact hc0
    · exact h
  have hos5 : dGet p5 "os_id" = dGet raw "os_id" := by
    rw [aliasStep_dGet_other _ p5 _ h5 (by decide),
      relDatesStep_dGet_other clock _ _ (by decide) (by decide),
      coerceStep_dGet_other raw _ (by decide) (by decide) (by decide)]
  have hosq : pyLowerOfGet q "os_id" = some osv := by
    rw [pyLowerOfGet_congr q p5 "os_id"
      ((hframe "os_id" (by decide)).trans hos5.symm)]
    exact hosv
  have hfromq : dGet q "from" =
      dGet (relDatesStep clock (coerceStep raw)) "from" := by
    rw [hq, removeUnsupported_dGet_other _ _ (by decide) (by decide),
      limitStep_dGet_other _ _ (by decide), hp7,
      detectScan_dGet_other _ _ (by decide) (by decide) (by decide),
      detectRunTypeOnTest_dGet_other tv _ _ (by decide) (by decide)
        (by decide),
      detectRunTypeExplicit_dGet_other _ _ (by decide) (by decide)
        (by decide),
      detectOsOnTest_dGet_other tv _ _ (by decide) (by decide) (by decide),
      hp6, osApply_dGet_other osv _ _ (by decide) (by decide),
      aliasStep_dGet_other _ p5 _ h5 (by decide)]
  have htoq : dGet q "to" =
      dGet (relDatesStep clock (coerceStep raw)) "to" := by
    rw [hq, removeUnsupported_dGet_other _ _ (by decide) (by decide),
      limitStep_dGet_other _ _ (by decide), hp7,
      detectScan_dGet_other _ _ (by decide) (by decide) (by decide),
      detectRunTypeOnTest_dGet_other tv _ _ (by decide) (by decide)
        (by decide),
      detectRunTypeExplicit_dGet_other _ _ (by decide) (by decide)
        (by decide),
      detectOsOnTest_dGet_other tv _ _ (by decide) (by decide) (by decide),
      hp6, osApply_dGet_other osv _ _ (by decide) (by decide),
      aliasStep_dGet_other _ p5 _ h5 (by decide)]
  have hrid : dGet q "run_id" =
      dGet (coerceRunId (coerceTestId raw)) "run_id" := by
    rw [hq, removeUnsupported_dGet_other _ _ (by decide) (by decide),
      limitStep_dGet_other _ _ (by decide), hp7,
      detectScan_dGet_other _ _ (by decide) (by decide) (by decide),
      detectRunTypeOnTest_dGet_other tv _ _ (by decide) (by decide)
        (by decide),
      detectRunTypeExplicit_dGet_other _ _ (by decide) (by decide)
        (by decide),
      detectOsOnTest_dGet_other tv _ _ (by decide) (by decide) (by decide),
      hp6, osApply_dGet_other osv _ _ (by decide) (by decide),
      aliasStep_dGet_other _ p5 _ h5 (by decide),
      relDatesStep_dGet_other clock _ _ (by decide) (by decide),
      show coerceStep raw = coerceLimit (coerceRunId (coerceTestId raw))
        from rfl,
      coerceLimit_dGet_other _ _ (by decide)]
  have hlim7 : dGet p7 "limit" = dGet (coerceStep raw) "limit" := by
    rw [hp7,
      detectScan_dGet_other _ _ (by decide) (by decide) (by decide),
      detectRunTypeOnTest_dGet_other tv _ _ (by decide) (by decide)
        (by decide),
      detectRunTypeExplicit_dGet_other _ _ (by decide) (by decide)
        (by decide),
      detectOsOnTest_dGet_other tv _ _ (by decide) (by decide) (by decide),
      hp6, osApply_dGet_other osv _ _ (by decide) (by decide),
      aliasStep_dGet_other _ p5 _ h5 (by decide),
      relDatesStep_dGet_other clock _ _ (by decide) (by decide)]
  have hlimq : dGet q "limit" = dGet (limitStep p7) "limit" := by
    rw [hq, removeUnsupported_dGet_other _ _ (by decide) (by decide)]
  have hdrtq7 : dGet q "_detected_run_type" =
      dGet p7 "_detected_run_type" := by
    rw [hq, removeUnsupported_dGet_other _ _ (by decide) (by decide),
      limitStep_dGet_other _ _ (by decide)]
  have hDTq : DT q := by
    have hDT5 : DT p5 := aliasStep_DT _ p5 h5
    have hDT6 : DT p6 := by rw [hp6]; exact osApply_DT osv p5 hDT5
    have hDTa : DT (detectOsOnTest tv p6) := detectOsOnTest_DT tv p6 hDT6
    have hDTb : DT (detectRunTypeExplicit (detectOsOnTest tv p6)) :=
      DT_congr _ _ (detectRunTypeExplicit_dGet_other _ _ (by decide)
        (by decide) (by decide)) hDTa
    have hDTc : DT (detectRunTypeOnTest tv (detectRunTypeExplicit
        (detectOsOnTest tv p6))) := detectRunTypeOnTest_DT tv _ hDTb
    have hDT7 : DT p7 := by rw [hp7]; exact detectScan_DT _ hDTc
    have hDTr : DT (limitStep p7) :=
      DT_congr _ _ (limitStep_dGet_other _ _ (by decide)) hDT7
    refine DT_congr _ _ ?_ hDTr
    rw [hq, removeUnsupported_dGet_other _ _ (by decide) (by decide)]
  have c1 : dGet q "run_type" = dGet (detectRunTypeExplicit
      (detectOsOnTest tv p6)) "run_type" := by
    rw [hq, removeUnsupported_dGet_other _ _ (by decide) (by decide),
      limitStep_dGet_other _ _ (by decide), hp7,
      detectScan_dGet_other _ _ (by decide) (by decide) (by decide),
      detectRunTypeOnTest_dGet_other tv _ _ (by decide) (by decide)
        (by decide)]
  have c2 : dGet q "runType" = dGet (detectRunTypeExplicit
      (detectOsOnTest tv p6)) "runType" := by
    rw [hq, removeUnsupported_dGet_other _ _ (by decide) (by decide),
      limitStep_dGet_other _ _ (by decide), hp7,
      detectScan_dGet_other _ _ (by decide) (by decide) (by decide),
      detectRunTypeOnTest_dGet_other tv _ _ (by decide) (by decide)
        (by decide)]
  refine
    { nodup := hndq
      no_params := by
        rw [dMem_congr q raw "params" (hframe "params" (by decide))]
        exact hp
      no_args := by
        rw [dMem_congr q raw "args" (hframe "args" (by decide))]
        exact ha
      no_testId := by
        rw [dMem_congr q raw "testId" (hframe "testId" (by decide))]
        exact hsyn "testId" (by decide)
      no_test := by
        rw [dMem_congr q raw "test" (hframe "test" (by decide))]
        exact hsyn "test" (by decide)
      no_output_format := by
        have h1 : dGet q "output_format" = Option.none := by
          rw [hq]; exact (removeUnsupported_post _ hndr).1
        simp [dMem, h1]
      no_table_format := by
        have h1 : dGet q "table_format" = Option.none := by
          rw [hq]; exact (removeUnsupported_post _ hndr).2
        simp [dMem, h1]
      dataset_type_syn := by
        intro hm
        have h2 := (dMem_congr q raw "dataset_type"
          (hframe "dataset_type" (by decide))).symm.trans hm
        rw [hsyn "dataset_type" (by decide)] at h2
        exact absurd h2 (by simp)
      source_syn := by
        intro hm
        have h2 := (dMem_congr q raw "source"
          (hframe "source" (by decide))).symm.trans hm
        rw [hsyn "source" (by decide)] at h2
        exact absurd h2 (by simp)
      runId_syn := by
        intro hm
        have h2 := (dMem_congr q raw "runId"
          (hframe "runId" (by decide))).symm.trans hm
        rw [hsyn "runId" (by decide)] at h2
        exact absurd h2 (by simp)
      run_syn := by
        intro hm
        have h2 := (dMem_congr q raw "run"
          (hframe "run" (by decide))).symm.trans hm
        rw [hsyn "run" (by decide)] at h2
        exact absurd h2 (by simp)
      schema_syn := by
        intro hm
        have h2 := (dMem_congr q raw "schema"
          (hframe "schema" (by decide))).symm.trans hm
        rw [hsyn "schema" (by decide)] at h2
        exact absurd h2 (by simp)
      from_time_syn := by
        intro hm
        have h2 := (dMem_congr q raw "from_time"
          (hframe "from_time" (by decide))).symm.trans hm
        rw [hsyn "from_time" (by decide)] at h2
        exact absurd h2 (by simp)
      from_timestamp_syn := by
        intro hm
        have h2 := (dMem_congr q raw "from_timestamp"
          (hframe "from_timestamp" (by decide))).symm.trans hm
        rw [hsyn "from_timestamp" (by decide)] at h2
        exact absurd h2 (by simp)
      fromTimestamp_syn := by
        intro hm
        have h2 := (dMem_congr q raw "fromTimestamp"
          (hframe "fromTimestamp" (by decide))).symm.trans hm
        rw [hsyn "fromTimestamp" (by decide)] at h2
        exact absurd h2 (by simp)
      to_time_syn := by
        intro hm
        have h2 := (dMem_congr q raw "to_time"
          (hframe "to_time" (by decide))).symm.trans hm
        rw [hsyn "to_time" (by decide)] at h2
        exact absurd h2 (by simp)
      to_timestamp_syn := by
        intro hm
        have h2 := (dMem_congr q raw "to_timestamp"
          (hframe "to_timestamp" (by decide))).symm.trans hm
        rw [hsyn "to_timestamp" (by decide)] at h2
        exact absurd h2 (by simp)
      toTimestamp_syn := by
        intro hm
        have h2 := (dMem_congr q raw "toTimestamp"
          (hframe "toTimestamp" (by decide))).symm.trans hm
        rw [hsyn "toTimestamp" (by decide)] at h2
        exact absurd h2 (by simp)
      test_id_not_int := by
        intro n hv
        rcases hdisj with hEq | hNone
        · rw [htid_q7, hEq, htid63, htid3] at hv
          exact coerceTestId_not_int raw n hv
        · rw [htid_q7, hNone] at hv
          exact absurd hv (by simp)
      run_id_not_int := by
        intro n hv
        rw [hrid] at hv
        exact coerceRunId_not_int _ n hv
      limit_mem := by
        rw [dMem_congr q (limitStep p7) "limit" hlimq]
        exact (limitStep_post p7).1
      limit_fix := by
        intro v n hv hc
        rw [hlimq] at hv
        rcases (limitStep_post p7).2 with hL | hL
        · rw [hL, hlim7,
            show coerceStep raw = coerceLimit (coerceRunId (coerceTestId raw))
              from rfl] at hv
          exact coerceLimit_limit_fix _ v n hv hc
        · rw [hL] at hv
          obtain rfl : JVal.i 100 = v := by simpa using hv
          obtain rfl : (100 : Int) = n := by
            simpa [pyIntCoerce] using hc
          rfl
      from_fix := by
        intro v hv
        rw [hfromq] at hv
        unfold relDatesStep at hv
        rw [relDateKey_dGet_other clock "to" _ "from" (by decide)] at hv
        exact relDateKey_self_fix clock "from" _ hclock v hv
      to_fix := by
        intro v hv
        rw [htoq] at hv
        unfold relDatesStep at hv
        exact relDateKey_self_fix clock "to" _ hclock v hv
      dtypes_not_str := hDTq.1
      dtypes_fix := hDTq.2
      os_ok := by rw [hosq]; simp
      os_coh := by
        intro osv' hosv' hne'
        rw [hosq] at hosv'
        obtain rfl : osv = osv' := by simpa using hosv'
        rcases pyLowerOfGet_inv p5 "os_id" osv hosv with ⟨hg5, hosv0⟩ |
          ⟨t, hg5, hlow⟩
        · exact absurd hosv0 hne'
        · have ht : t ≠ "" := by
            intro h0
            apply hne'
            rw [hlow, h0]
            rfl
          have hgt : getTruthy raw "os_id" = true := by
            unfold getTruthy
            rw [← hos5, hg5]
            simp [truthy, ht]
          have htv3 : pyLowerOfGet (coerceStep raw) "test_id" = some tv :=
            (pyLowerOfGet_congr p6 _ "test_id" htid63).symm.trans htv
          have hntv : tv ∉ known_os_identifiers := hconf hgt tv htv3
          have habs : detectOsOnTest tv p6 = p6 :=
            detectOsOnTest_not_os tv p6 hntv
          have hpost := osApply_post osv p5 hne'
          have h6dof : dGet p6 "_detected_os_filter" =
              some (.s (os_alias_map osv)) := by
            rw [hp6]; exact hpost.1
          have h6dt : getTruthy p6 "dataset_types" = true := by
            rw [hp6]; exact hpost.2
          constructor
          · have hch : dGet q "_detected_os_filter" =
                dGet p6 "_detected_os_filter" := by
              rw [hq, removeUnsupported_dGet_other _ _ (by decide)
                  (by decide),
                limitStep_dGet_other _ _ (by decide), hp7,
                detectScan_dGet_other _ _ (by decide) (by decide)
                  (by decide),
                detectRunTypeOnTest_dGet_other tv _ _ (by decide)
                  (by decide) (by decide),
                detectRunTypeExplicit_dGet_other _ _ (by decide)
                  (by decide) (by decide),
                habs]
            rw [hch, h6dof]
          · have e1 : getTruthy (detectRunTypeExplicit
                (detectOsOnTest tv p6)) "dataset_types" = true := by
              rw [habs, getTruthy_congr _ p6 _
                (detectRunTypeExplicit_dGet_other p6 _ (by decide)
                  (by decide) (by decide))]
              exact h6dt
            have e2 := detectRunTypeOnTest_getTruthy tv _ e1
            have e3 := detectScan_getTruthy _ e2
            have e4 : dGet q "dataset_types" =
                dGet p7 "dataset_types" := by
              rw [hq, removeUnsupported_dGet_other _ _ (by decide)
                  (by decide),
                limitStep_dGet_other _ _ (by decide)]
            rw [getTruthy_congr q p7 _ e4, hp7]
            exact e3
      test_lower_ok := by
        rcases hdisj with hEq | hNone
        · rw [pyLowerOfGet_congr q p6 _ (htid_q7.trans hEq), htv]
          simp
        · unfold pyLowerOfGet
          rw [htid_q7.trans hNone]
          simp
      test_not_os := by
        intro tv' hq' hkos'
        rcases hdisj with hEq | hNone
        · rw [pyLowerOfGet_congr q p6 _ (htid_q7.trans hEq), htv] at hq'
          obtain rfl : tv = tv' := by simpa using hq'
          have h70 := hp7none hkos'
          have h6none : dGet p6 "test_id" = Option.none :=
            hEq.symm.trans h70
          have htv0 : pyLowerOfGet p6 "test_id" = some "" := by
            unfold pyLowerOfGet
            rw [h6none]
          rw [htv] at htv0
          obtain h00 : tv = "" := by simpa using htv0
          rw [h00] at hkos'
          exact absurd hkos' (by decide)
        · have htv0 : pyLowerOfGet q "test_id" = some "" := by
            unfold pyLowerOfGet
            rw [htid_q7.trans hNone]
          rw [htv0] at hq'
          obtain rfl : ("" : String) = tv' := by simpa using hq'
          exact absurd hkos' (by decide)
      run_type_coh := by
        intro v hv
        rcases detectRunTypeExplicit_cases (detectOsOnTest tv p6) hnda with
          ⟨hrt0, hrT0⟩ | ⟨hid, hprop⟩
        · exfalso
          have hnone : runTypeOrVal q = Option.none := by
            unfold runTypeOrVal
            rw [c1, hrt0, c2, hrT0]
          rw [hnone] at hv
          exact absurd hv (by simp)
        · have hc1' : dGet q "run_type" =
              dGet (detectOsOnTest tv p6) "run_type" := by
            rw [c1, hid]
          have hc2' : dGet q "runType" =
              dGet (detectOsOnTest tv p6) "runType" := by
            rw [c2, hid]
          have hcongr := runTypeOrVal_congr q (detectOsOnTest tv p6)
            hc1' hc2'
          rw [hcongr] at hv
          exact hprop v hv
      test_not_runtype := by
        intro tv' hq' hdrt
        have m7 : dMem p7 "_detected_run_type" = false :=
          (dMem_congr q p7 _ hdrtq7).symm.trans hdrt
        rw [hp7] at m7
        obtain ⟨hscan_id, hmc, hscan⟩ := detectScan_not_fired _ m7
        obtain ⟨hc_id, hmb, htvkrt⟩ := detectRunTypeOnTest_not_fired tv _ hmc
        rcases hdisj with hEq | hNone
        · rw [pyLowerOfGet_congr q p6 _ (htid_q7.trans hEq), htv] at hq'
          obtain rfl : tv = tv' := by simpa using hq'
          exact htvkrt
        · have htv0 : pyLowerOfGet q "test_id" = some "" := by
            unfold pyLowerOfGet
            rw [htid_q7.trans hNone]
          rw [htv0] at hq'
          obtain rfl : ("" : String) = tv' := by simpa using hq'
          intro hin
          exact absurd hin (by decide)
      scan_coh := by
        intro hdrt rt hrt
        have m7 : dMem p7 "_detected_run_type" = false :=
          (dMem_congr q p7 _ hdrtq7).symm.trans hdrt
        rw [hp7] at m7
        obtain ⟨hscan_id, hmc, hscan⟩ := detectScan_not_fired _ m7
        have e1 : dGet q "test_id" = dGet (detectRunTypeOnTest tv
            (detectRunTypeExplicit (detectOsOnTest tv p6))) "test_id" := by
          rw [htid_q7, hp7, hscan_id]
        have e2 : dGet q "schema_uri" = dGet (detectRunTypeOnTest tv
            (detectRunTypeExplicit (detectOsOnTest tv p6)))
            "schema_uri" := by
          rw [hq, removeUnsupported_dGet_other _ _ (by decide) (by decide),
            limitStep_dGet_other _ _ (by decide), hp7, hscan_id]
        constructor
        · rw [scanVal_congr q _ "test_id" e1]
          exact (hscan rt hrt).1
        · rw [scanVal_congr q _ "schema_uri" e2]
          exact (hscan rt hrt).2 }

end Normalize

/-- C7 (amended): `normalize_get_key_metrics_params` is idempotent on
inputs that are already in canonical shape at the top level: the raw dict
has no duplicate keys, carries none of the `params`/`args` nesting keys
and none of the synonym keys (`dataset_type`, `source`, `testId`, `test`,
`runId`, `run`, `schema`, `from_time`, `from_timestamp`, `fromTimestamp`,
`to_time`, `to_timestamp`, `toTimestamp`), does not combine a truthy
`os_id` with a `test_id` that lowercases to a known OS identifier, and the
clock's formatted timestamps never themselves parse as relative dates.
Under these hypotheses a successful first pass is a fixpoint of a second
pass: `normalize(normalize(p)) == normalize(p)`. -/
theorem c7_normalize_idempotent_amended (clock : Nat → String)
    (raw q : Normalize.Dict)
    (hnd : (raw.map Prod.fst).Nodup)
    (hp : Normalize.dMem raw "params" = false)
    (ha : Normalize.dMem raw "args" = false)
    (hsyn : ∀ o ∈ Normalize.synOlds, Normalize.dMem raw o = false)
    (hclock : ∀ n, Normalize.isNowStr (clock n) = false ∧
      Normalize.parseDaysAgo (clock n) = Option.none ∧
      Normalize.parseDd (clock n) = Option.none)
    (hconf : Normalize.getTruthy raw "os_id" = true →
      ∀ tv, Normalize.pyLowerOfGet (Normalize.coerceStep raw) "test_id" =
          some tv → tv ∉ Normalize.known_os_identifiers)
    (hrun : Normalize.normalize_get_key_metrics_params clock raw = some q) :
    Normalize.normalize_get_key_metrics_params clock q = some q :=
  Normalize.normalize_fixes_normalized clock q
    (Normalize.normalized_of_run clock raw q hnd hp ha hsyn hclock hconf hrun)

/-- C7 witness: on `{"os_id": "rhel", "test_id": "my-bench"}` the first
pass appends the detected OS filter, the auto-configured dataset types and
the default limit, and the amended theorem applies: the result is a
fixpoint of a second pass. -/
theorem c7_normalize_idempotent_amended_witness :
    Normalize.normalize_get_key_metrics_params c7clock
        [("os_id", .s "rhel"), ("test_id", .s "my-bench")] =
      some [("os_id", .s "rhel"), ("test_id", .s "my-bench"),
        ("_detected_os_filter", .s "rhel"),
        ("dataset_types", .l [.s "boot-time-verbose"]),
        ("limit", .i 100)] ∧
    Normalize.normalize_get_key_metrics_params c7clock
        [("os_id", .s "rhel"), ("test_id", .s "my-bench"),
          ("_detected_os_filter", .s "rhel"),
          ("dataset_types", .l [.s "boot-time-verbose"]),
          ("limit", .i 100)] =
      some [("os_id", .s "rhel"), ("test_id", .s "my-bench"),
        ("_detected_os_filter", .s "rhel"),
        ("dataset_types", .l [.s "boot-time-verbose"]),
        ("limit", .i 100)] := by
  refine ⟨rfl, ?_⟩
  refine c7_normalize_idempotent_amended c7clock
    [("os_id", .s "rhel"), ("test_id", .s "my-bench")] _
    (by decide) (by decide) (by decide) (by decide)
    (fun _ =>
      ⟨(by decide :
          Normalize.isNowStr "2025-10-01T00:00:00.000000Z" = false),
        (by decide :
          Normalize.parseDaysAgo "2025-10-01T00:00:00.000000Z" =
            Option.none),
        (by decide :
          Normalize.parseDd "2025-10-01T00:00:00.000000Z" =
            Option.none)⟩) ?_ rfl
  intro _ tv htv
  have h1 : some ("my-bench" : String) = some tv := by
    rw [← htv]
    rfl
  obtain rfl : ("my-bench" : String) = tv := by simpa using h1
  decide
